import Mathlib

/-
Verification development for the KhoHo sparse-matrix / chain-complex reduction
core (sparmat.c, sparmat-U.c, sparreduce-U.c).

The C sources keep every matrix entry twice: once in a linked list for its row
and once in a linked list for its column.  sparmat.c instantiates the code for
ordinary integer values, sparmat-U.c for elements of the group ring
Z[t]/(t^2-1) represented as pairs (a, b) = a + b t.  The vector-level routines
of the two files are line-for-line identical up to the value operations
(zero test, equality, addition, multiplication, absolute magnitude), so they
are embedded once, generically over a record `VOps V` of value operations, and
instantiated twice.  Linked lists become Lean lists; `malloc` failures are not
modelled (allocation always succeeds); functions that mutate through pointers
become state-passing functions; C functions that return the error sentinel -1
(or ERR_MVAL, or NULL) become `Option`/`Except` valued functions where `none`
/ `.error` collects exactly the C error returns.  On an error return the C
code may leave a half-mutated matrix behind, but every caller in the
repository treats such a return as fatal and tears the state down, so the
model does not retain the half-mutated state.

Machine integers: C `int` arithmetic is modelled by unbounded `Int`.  The one
place where this choice is observable for the claims under study is the
unchecked multiplication `scalar * eptr2->value` in `add_m_colrows`
(sparmat.c line 328, flagged by the source comment "need to check for
admissible values here !!!"), which can wrap around in 32-bit arithmetic
before the ENTRY_MAX guard is consulted.  For that analysis a second variant
`add_m_colrowsW` of the same source function is provided in which every
arithmetic step is reduced by two's-complement 32-bit wrapping, matching the
universal behaviour of `int` on the platforms the Makefile targets.
-/

namespace KhoHo

/-- Entry of a sparse vector (`SparseEntry` in sparmat.h and sparmat-U.h):
a 1-based index together with a value of the coefficient type `V`.  The
`next` pointer of the C struct is expressed by the enclosing Lean list. -/
structure SEntry (V : Type) where
  index : Nat
  value : V
deriving Repr, DecidableEq

/-- Root of a sparse vector (`SparseVector`): the stored entry count
(`-1` means the vector is deleted / tombstoned) and the entry list. -/
structure SVector (V : Type) where
  num_entries : Int
  entries : List (SEntry V)
deriving Repr, DecidableEq

instance {V : Type} : Inhabited (SVector V) := ⟨⟨0, []⟩⟩

/-- Root of a sparse matrix (`SparseMatrix`): the dimensions and the two
parallel vector families.  `rows` has length `num_rows` and `columns` has
length `num_cols` for every matrix produced by `init_s_matrix`. -/
structure SMatrix (V : Type) where
  num_rows : Nat
  num_cols : Nat
  rows : List (SVector V)
  columns : List (SVector V)
deriving Repr, DecidableEq

instance {V : Type} : Inhabited (SMatrix V) := ⟨⟨0, 0, [], []⟩⟩

/-- The value operations that sparmat.c (for `V = Int`) and sparmat-U.c
(for `V = Int × Int`) plug into the shared vector routines: the zero value,
the zero test, value equality, addition, multiplication and the absolute
magnitude `ABSFUNC` used for overflow checks and pivot detection. -/
structure VOps (V : Type) where
  vzero : V
  isZero : V → Bool
  beqv : V → V → Bool
  vadd : V → V → V
  vmul : V → V → V
  vabs : V → Int

namespace SP

variable {V : Type}

/-- Scan of `get_v_entry` (sparmat.c lines 39-50): walk the list up to the
first entry whose index is `≥ ind`; report its value when the index matches.
`none` plays the role of the C result 0 / Uzero ("no entry"). -/
def getEnt : List (SEntry V) → Nat → Option V
  | [], _ => none
  | e :: es, ind =>
    if ind ≤ e.index then (if e.index = ind then some e.value else none)
    else getEnt es ind

/-- `get_v_entry` (sparmat.c lines 39-50, sparmat-U.c lines 85-96): the
entry's value in a sparse vector, or zero if there is none. -/
def get_v_entry (ops : VOps V) (vec : SVector V) (ind : Nat) : V :=
  (getEnt vec.entries ind).getD ops.vzero

/-- `find_v_unit` (sparmat.c lines 58-74, sparmat-U.c lines 104-120): index
and value of the first entry of absolute value 1.  Outer `none` is the C
return -1 ("vector is already deleted"); inner `none` is the C return 0
("no invertible entry"). -/
def find_v_unit (ops : VOps V) (vec : SVector V) : Option (Option (SEntry V)) :=
  if vec.num_entries = -1 then none
  else some (vec.entries.find? (fun e => ops.vabs e.value == 1))

/-- List part of `remove_v_entry`: drop the first entry with index `≥ ind`
when its index matches, returning the removed value. -/
def removeEnt : List (SEntry V) → Nat → List (SEntry V) × Option V
  | [], _ => ([], none)
  | e :: es, ind =>
    if ind ≤ e.index then
      (if e.index = ind then (es, some e.value) else (e :: es, none))
    else
      let r := removeEnt es ind
      (e :: r.1, r.2)

/-- `remove_v_entry` (sparmat.c lines 81-106, sparmat-U.c lines 127-153):
remove an entry by index.  `none` is the C error return ("vector is already
deleted"); otherwise the count is decremented exactly when an entry was
removed, and the removed value is reported (`none` in the pair = C value 0). -/
def remove_v_entry (vec : SVector V) (ind : Nat) :
    Option (SVector V × Option V) :=
  if vec.num_entries = -1 then none
  else
    let r := removeEnt vec.entries ind
    some (⟨vec.num_entries - (if r.2.isSome then 1 else 0), r.1⟩, r.2)

/-- List part of `add_v_entry`: insert before the first entry with index
`≥ ind`, or overwrite the value when the index is already present.  The
boolean reports whether a new entry was created (the C `num_entries++`
branch). -/
def addEnt : List (SEntry V) → Nat → V → List (SEntry V) × Bool
  | [], ind, val => ([⟨ind, val⟩], true)
  | e :: es, ind, val =>
    if ind ≤ e.index then
      (if e.index = ind then (⟨ind, val⟩ :: es, false)
       else (⟨ind, val⟩ :: e :: es, true))
    else
      let r := addEnt es ind val
      (e :: r.1, r.2)

/-- `add_v_entry` (sparmat.c lines 112-149, sparmat-U.c lines 159-196):
`none` is the C error return ("vector is already deleted").  A zero value is
routed to `remove_v_entry` (which cannot fail here since the vector is not
deleted); otherwise the entry is inserted or overwritten in index order. -/
def add_v_entry (ops : VOps V) (vec : SVector V) (ind : Nat) (val : V) :
    Option (SVector V) :=
  if vec.num_entries = -1 then none
  else if ops.isZero val then
    let r := removeEnt vec.entries ind
    some ⟨vec.num_entries - (if r.2.isSome then 1 else 0), r.1⟩
  else
    let r := addEnt vec.entries ind val
    some ⟨vec.num_entries + (if r.2 then 1 else 0), r.1⟩

/-- Loop of `erase_m_colrow` (sparmat.c lines 245-260, sparmat-U.c lines
294-309): for each entry of the vector being erased, remove the mirror entry
from the orthogonal family and compare the two values (the SPARMAT_DEBUG
cross-check), dropping the entry and decrementing the running count. -/
def eraseLoop (ops : VOps V) (cr_ind : Nat) :
    List (SEntry V) → Int → List (SVector V) → Option (Int × List (SVector V))
  | [], cnt, others => some (cnt, others)
  | e :: es, cnt, others =>
    match remove_v_entry (others.getD (e.index - 1) default) cr_ind with
    | none => none
    | some (ovec, val?) =>
      if ops.beqv (val?.getD ops.vzero) e.value then
        eraseLoop ops cr_ind es (cnt - 1) (others.set (e.index - 1) ovec)
      else none

/-- `erase_m_colrow` (sparmat.c lines 236-269, sparmat-U.c lines 285-318):
erase a whole row (or column) and the mirror entries in the orthogonal
family; `none` collects all C error returns (vector already deleted, mirror
mismatch, count not 0 after erasing, failing removal).  When `do_del` is set
the vector is tombstoned (`num_entries = -1`). -/
def erase_m_colrow (ops : VOps V) (cr_vec : SVector V) (cr_ind : Nat)
    (others : List (SVector V)) (do_del : Bool) :
    Option (SVector V × List (SVector V)) :=
  if cr_vec.num_entries = -1 then none
  else
    match eraseLoop ops cr_ind cr_vec.entries cr_vec.num_entries others with
    | none => none
    | some (cnt, others') =>
      if cnt = 0 then some (⟨if do_del then -1 else 0, []⟩, others')
      else none

/-- Merge loop of `add_m_colrows` (sparmat.c lines 310-371, sparmat-U.c
lines 359-420).  Arguments mirror the C loop state: the unscanned suffix of
the first vector (`eptr1`), of the second vector (`eptr2`), the running
`num_entries` of the first vector, the orthogonal family, and `maxval`.
Each step computes the merged value, updates `maxval`, fails when the value
exceeds `entryMax` in magnitude ("entry's value is too big"), stores the
value into the orthogonal vector at `cr_ind1`, and drops entries whose new
value is zero.  The count accumulator records the C `num_entries++` /
`num_entries--` net effect of each step. -/
def addMerge (ops : VOps V) (entryMax : Int) (cr_ind1 : Nat) (scalar : V) :
    List (SEntry V) → List (SEntry V) → Int → List (SVector V) → Int →
    Option (List (SEntry V) × Int × List (SVector V) × Int)
  | l1, [], cnt, others, maxval => some (l1, cnt, others, maxval)
  | [], e2 :: es2, cnt, others, maxval =>
    let v := ops.vmul scalar e2.value
    let maxval' := if ops.vabs v > maxval then ops.vabs v else maxval
    if ops.vabs v > entryMax then none
    else
      match add_v_entry ops (others.getD (e2.index - 1) default) cr_ind1 v with
      | none => none
      | some ovec =>
        let others' := others.set (e2.index - 1) ovec
        if ops.isZero v then
          addMerge ops entryMax cr_ind1 scalar [] es2 cnt others' maxval'
        else
          match addMerge ops entryMax cr_ind1 scalar [] es2 (cnt + 1) others' maxval' with
          | none => none
          | some (l1', cnt', o', m') => some (⟨e2.index, v⟩ :: l1', cnt', o', m')
  | e1 :: es1, e2 :: es2, cnt, others, maxval =>
    if e1.index < e2.index then
      match addMerge ops entryMax cr_ind1 scalar es1 (e2 :: es2) cnt others maxval with
      | none => none
      | some (l1', cnt', o', m') => some (e1 :: l1', cnt', o', m')
    else if e2.index < e1.index then
      let v := ops.vmul scalar e2.value
      let maxval' := if ops.vabs v > maxval then ops.vabs v else maxval
      if ops.vabs v > entryMax then none
      else
        match add_v_entry ops (others.getD (e2.index - 1) default) cr_ind1 v with
        | none => none
        | some ovec =>
          let others' := others.set (e2.index - 1) ovec
          if ops.isZero v then
            addMerge ops entryMax cr_ind1 scalar (e1 :: es1) es2 cnt others' maxval'
          else
            match addMerge ops entryMax cr_ind1 scalar (e1 :: es1) es2 (cnt + 1) others' maxval' with
            | none => none
            | some (l1', cnt', o', m') => some (⟨e2.index, v⟩ :: l1', cnt', o', m')
    else
      let v := ops.vadd e1.value (ops.vmul scalar e2.value)
      let maxval' := if ops.vabs v > maxval then ops.vabs v else maxval
      if ops.vabs v > entryMax then none
      else
        match add_v_entry ops (others.getD (e1.index - 1) default) cr_ind1 v with
        | none => none
        | some ovec =>
          let others' := others.set (e1.index - 1) ovec
          if ops.isZero v then
            addMerge ops entryMax cr_ind1 scalar es1 es2 (cnt - 1) others' maxval'
          else
            match addMerge ops entryMax cr_ind1 scalar es1 es2 cnt others' maxval' with
            | none => none
            | some (l1', cnt', o', m') => some (⟨e1.index, v⟩ :: l1', cnt', o', m')
termination_by l1 l2 => l1.length + l2.length
decreasing_by all_goals simp_arith

/-- `add_m_colrows` (sparmat.c lines 300-374, sparmat-U.c lines 349-423):
add `scalar` times the second vector into the first, mirroring every change
in the orthogonal family, and return the new first vector, the updated
orthogonal family and the maximal magnitude produced.  `none` collects all C
-1 returns. -/
def add_m_colrows (ops : VOps V) (entryMax : Int) (vec1 : SVector V)
    (cr_ind1 : Nat) (vec2 : SVector V) (others : List (SVector V))
    (scalar : V) : Option (SVector V × List (SVector V) × Int) :=
  if vec1.num_entries = -1 ∨ vec2.num_entries = -1 then none
  else
    match addMerge ops entryMax cr_ind1 scalar vec1.entries vec2.entries
        vec1.num_entries others 0 with
    | none => none
    | some (l1', cnt', others', maxval) => some ((SVector.mk cnt' l1'), others', maxval)

/-- `check_m_indices` (sparmat.c lines 154-160, sparmat-U.c lines 201-207):
row and column must lie within the declared matrix dimensions. -/
def check_m_indices (matr : SMatrix V) (row col : Nat) : Bool :=
  1 ≤ row && row ≤ matr.num_rows && 1 ≤ col && col ≤ matr.num_cols

/-- `get_m_entry` (sparmat.c lines 166-180, sparmat-U.c lines 213-228):
the stored value, with the SPARMAT_DEBUG cross-check of the row view against
the column view.  `none` collects the C error returns (bad indices, mismatch);
the instantiations map it back to ERR_MVAL respectively NULL. -/
def gget_m_entry (ops : VOps V) (matr : SMatrix V) (row col : Nat) :
    Option V :=
  if ¬check_m_indices matr row col then none
  else
    let val := get_v_entry ops (matr.rows.getD (row - 1) default) col
    if ops.beqv val (get_v_entry ops (matr.columns.getD (col - 1) default) row)
    then some val else none

/-- `remove_m_entry` (sparmat.c lines 187-205, sparmat-U.c lines 236-254):
remove the entry from the row list and from the column list and compare the
two removed values.  `none` collects the C error returns (bad indices, a
deleted vector, the two values differing). -/
def gremove_m_entry (ops : VOps V) (matr : SMatrix V) (row col : Nat) :
    Option (V × SMatrix V) :=
  if ¬check_m_indices matr row col then none
  else
    match remove_v_entry (matr.rows.getD (row - 1) default) col with
    | none => none
    | some (rvec, valr?) =>
      match remove_v_entry (matr.columns.getD (col - 1) default) row with
      | none => none
      | some (cvec, valc?) =>
        let valr := valr?.getD ops.vzero
        if ops.beqv valr (valc?.getD ops.vzero) then
          some (valr, { matr with rows := matr.rows.set (row - 1) rvec,
                                  columns := matr.columns.set (col - 1) cvec })
        else none

/-- `add_m_entry` (sparmat.c lines 211-228, sparmat-U.c lines 260-277):
reject values whose magnitude exceeds `entryMax` ("entry's value is too
big"; in sparmat.c the test is written `val > ENTRY_MAX || val < -ENTRY_MAX`,
which for integers is the same as `|val| > ENTRY_MAX`), route zero values to
removal, and otherwise insert into both the row and the column list. -/
def gadd_m_entry (ops : VOps V) (entryMax : Int) (matr : SMatrix V)
    (row col : Nat) (val : V) : Option (SMatrix V) :=
  if ¬check_m_indices matr row col then none
  else if ops.vabs val > entryMax then none
  else if ops.isZero val then (gremove_m_entry ops matr row col).map (·.2)
  else
    match add_v_entry ops (matr.rows.getD (row - 1) default) col val with
    | none => none
    | some rvec =>
      match add_v_entry ops (matr.columns.getD (col - 1) default) row val with
      | none => none
      | some cvec =>
        some { matr with rows := matr.rows.set (row - 1) rvec,
                         columns := matr.columns.set (col - 1) cvec }

/-- `erase_m_row` (sparmat.c lines 276-281, sparmat-U.c lines 325-330). -/
def gerase_m_row (ops : VOps V) (matr : SMatrix V) (row : Nat)
    (do_del : Bool) : Option (SMatrix V) :=
  if ¬check_m_indices matr row 1 then none
  else
    match erase_m_colrow ops (matr.rows.getD (row - 1) default) row
        matr.columns do_del with
    | none => none
    | some (rvec, cols') =>
      some { matr with rows := matr.rows.set (row - 1) rvec, columns := cols' }

/-- `erase_m_column` (sparmat.c lines 288-293, sparmat-U.c lines 337-342). -/
def gerase_m_column (ops : VOps V) (matr : SMatrix V) (col : Nat)
    (do_del : Bool) : Option (SMatrix V) :=
  if ¬check_m_indices matr 1 col then none
  else
    match erase_m_colrow ops (matr.columns.getD (col - 1) default) col
        matr.rows do_del with
    | none => none
    | some (cvec, rows') =>
      some { matr with rows := rows', columns := matr.columns.set (col - 1) cvec }

/-- `add_m_rows` (sparmat.c lines 380-388, sparmat-U.c lines 429-437):
row1 += scalar * row2, returning the updated matrix and the maximal
magnitude produced. -/
def gadd_m_rows (ops : VOps V) (entryMax : Int) (matr : SMatrix V)
    (row1 row2 : Nat) (scalar : V) : Option (SMatrix V × Int) :=
  if ¬check_m_indices matr row1 1 then none
  else if ¬check_m_indices matr row2 1 then none
  else
    match add_m_colrows ops entryMax (matr.rows.getD (row1 - 1) default) row1
        (matr.rows.getD (row2 - 1) default) matr.columns scalar with
    | none => none
    | some (rvec, cols', maxval) =>
      some ({ matr with rows := matr.rows.set (row1 - 1) rvec,
                        columns := cols' }, maxval)

/-- `add_m_cols` (sparmat.c lines 394-402, sparmat-U.c lines 443-451). -/
def gadd_m_cols (ops : VOps V) (entryMax : Int) (matr : SMatrix V)
    (col1 col2 : Nat) (scalar : V) : Option (SMatrix V × Int) :=
  if ¬check_m_indices matr 1 col1 then none
  else if ¬check_m_indices matr 1 col2 then none
  else
    match add_m_colrows ops entryMax (matr.columns.getD (col1 - 1) default)
        col1 (matr.columns.getD (col2 - 1) default) matr.rows scalar with
    | none => none
    | some (cvec, rows', maxval) =>
      some ({ matr with rows := rows',
                        columns := matr.columns.set (col1 - 1) cvec }, maxval)

/-- `init_s_matrix` (sparmat.c lines 408-441, sparmat-U.c lines 457-490):
a fresh matrix with the given dimensions and all-empty vectors; the C
function fails when a dimension is below 1. -/
def init_s_matrix (n_rows n_cols : Nat) : Option (SMatrix V) :=
  if n_rows < 1 ∨ n_cols < 1 then none
  else some ⟨n_rows, n_cols, List.replicate n_rows ⟨0, []⟩,
             List.replicate n_cols ⟨0, []⟩⟩

end SP

/-! ### sparmat.c instantiation: integer values -/

/-- `ENTRY_MAX` (sparmat.h line 37): `INT_MAX / 2`. -/
def ENTRY_MAX : Int := 1073741823

/-- `ERR_MVAL` (sparmat.h line 42): `INT_MAX`. -/
def ERR_MVAL : Int := 2147483647

/-- The value operations of sparmat.c: `SM_value_t` is `int`, `ABSFUNC` is
`abs`, values are compared and combined with ordinary integer arithmetic. -/
def ZOps : VOps Int :=
  { vzero := 0, isZero := (· == 0), beqv := (· == ·),
    vadd := (· + ·), vmul := (· * ·), vabs := fun v => |v| }

namespace Sparmat

/-- `get_v_entry` of sparmat.c, value 0 when absent. -/
def get_v_entry (vec : SVector Int) (ind : Nat) : Int :=
  SP.get_v_entry ZOps vec ind

/-- `find_v_unit` of sparmat.c (first entry with `abs(value) == 1`). -/
def find_v_unit (vec : SVector Int) : Option (Option (SEntry Int)) :=
  SP.find_v_unit ZOps vec

/-- `get_m_entry` of sparmat.c: the C function returns the sentinel
`ERR_MVAL` both for out-of-range indices and for the SPARMAT_DEBUG
row/column mismatch. -/
def get_m_entry (matr : SMatrix Int) (row col : Nat) : Int :=
  match SP.gget_m_entry ZOps matr row col with
  | none => ERR_MVAL
  | some v => v

/-- `remove_m_entry` of sparmat.c; `none` collects the C `ERR_MVAL`
returns. -/
def remove_m_entry (matr : SMatrix Int) (row col : Nat) :
    Option (Int × SMatrix Int) :=
  SP.gremove_m_entry ZOps matr row col

/-- `add_m_entry` of sparmat.c; `none` collects the C -1 returns. -/
def add_m_entry (matr : SMatrix Int) (row col : Nat) (val : Int) :
    Option (SMatrix Int) :=
  SP.gadd_m_entry ZOps ENTRY_MAX matr row col val

/-- `erase_m_row` of sparmat.c. -/
def erase_m_row (matr : SMatrix Int) (row : Nat) (do_del : Bool) :
    Option (SMatrix Int) :=
  SP.gerase_m_row ZOps matr row do_del

/-- `erase_m_column` of sparmat.c. -/
def erase_m_column (matr : SMatrix Int) (col : Nat) (do_del : Bool) :
    Option (SMatrix Int) :=
  SP.gerase_m_column ZOps matr col do_del

/-- `add_m_rows` of sparmat.c. -/
def add_m_rows (matr : SMatrix Int) (row1 row2 : Nat) (scalar : Int) :
    Option (SMatrix Int × Int) :=
  SP.gadd_m_rows ZOps ENTRY_MAX matr row1 row2 scalar

/-- `add_m_cols` of sparmat.c. -/
def add_m_cols (matr : SMatrix Int) (col1 col2 : Nat) (scalar : Int) :
    Option (SMatrix Int × Int) :=
  SP.gadd_m_cols ZOps ENTRY_MAX matr col1 col2 scalar

/-- Entry loop of `check_v_data` (sparmat.c lines 551-569): positive,
in-range, strictly increasing indices, no zero values, and (when `others` is
given) agreement with the orthogonal family.  `oldind` starts at -1. -/
def checkEntries (max_index v_ind : Nat)
    (others : Option (List (SVector Int))) :
    List (SEntry Int) → Int → Bool
  | [], _ => true
  | e :: es, oldind =>
    if e.index < 1 then false
    else if e.index > max_index then false
    else if (e.index : Int) ≤ oldind then false
    else if e.value = 0 then false
    else if (match others with
             | none => false
             | some o =>
               get_v_entry (o.getD (e.index - 1) default) v_ind ≠ e.value)
    then false
    else checkEntries max_index v_ind others es (e.index : Int)

/-- `check_v_data` (sparmat.c lines 534-574): 0 when the vector data are
consistent, -1 otherwise. -/
def check_v_data (vec : SVector Int) (max_index v_ind : Nat)
    (others : Option (List (SVector Int))) : Int :=
  if vec.num_entries > (max_index : Int) then -1
  else if vec.num_entries < -1 then -1
  else if vec.num_entries = -1 ∧ vec.entries ≠ [] then -1
  else
    let n_entries := if vec.num_entries = -1 then 0 else vec.num_entries
    if ¬checkEntries max_index v_ind others vec.entries (-1) then -1
    else if (vec.entries.length : Int) ≠ n_entries then -1
    else 0

/-- `check_m_data` (sparmat.c lines 579-594), modelled exactly as written:
both the row vectors and the column vectors are checked against the bound
`n_rows` (the C source passes `n_rows` as `max_index` in both loops). -/
def check_m_data (matr : SMatrix Int) : Int :=
  let n_rows := matr.num_rows
  let rowsOK := (List.range n_rows).all fun i =>
    check_v_data (matr.rows.getD i default) n_rows (i + 1)
      (some matr.columns) = 0
  let colsOK := (List.range matr.num_cols).all fun i =>
    check_v_data (matr.columns.getD i default) n_rows (i + 1)
      (some matr.rows) = 0
  if rowsOK ∧ colsOK then 0 else -1

end Sparmat

/-! ### sparmat-U.c instantiation: the group ring Z[t]/(t^2-1) -/

/-- Values of sparmat-U.c: the pair (a, b) stands for a + b t. -/
abbrev UV : Type := Int × Int

/-- `Uzero` (sparmat-U.c line 46). -/
def Uzero : UV := (0, 0)

/-- `are_Uvals_equal` (sparmat-U.c lines 51-54). -/
def are_Uvals_equal (val1 val2 : UV) : Bool :=
  val1.1 == val2.1 && val1.2 == val2.2

/-- `is_Uval_zero` (sparmat-U.c lines 59-62). -/
def is_Uval_zero (val : UV) : Bool :=
  are_Uvals_equal val Uzero

/-- `add_Uvals` (sparmat-U.c lines 67-71): componentwise addition. -/
def add_Uvals (val1 val2 : UV) : UV :=
  (val1.1 + val2.1, val1.2 + val2.2)

/-- `mult_Uvals` (sparmat-U.c lines 76-80):
(a + b t)(c + d t) = (ac + bd) + (ad + bc) t. -/
def mult_Uvals (val1 val2 : UV) : UV :=
  (val1.1 * val2.1 + val1.2 * val2.2, val1.1 * val2.2 + val1.2 * val2.1)

/-- Modelled from the spec: `ABSFUNC` for group-ring values is defined in
sparmat-U.h, which is not among the provided sources.  The spec requires the
magnitude to be a non-negative integer that "equals 1 exactly for ring units
usable as pivots" (the four units ±1 and ±t of Z[t]/(t^2-1), each of which
squares to 1) and in one sentence also offers the formula `max(|a|,|b|)`;
the two are inconsistent, because `max(|1|,|1|) = 1` although 1 + t is not a
unit (it annihilates 1 - t), and with the `max` formula the reduction
algorithm of sparreduce-U.c would abort on any matrix containing a 1 + t
entry, so the characterisation through ring units is the load-bearing one.
The magnitude `|a| + |b|` satisfies it and is used here. -/
def Uabs (val : UV) : Int :=
  |val.1| + |val.2|

/-- Modelled from the spec: the `ENTRY_MAX` of sparmat-U.h is not among the
provided sources; the spec only requires a fixed positive bound
`MAX_MAGNITUDE` on stored magnitudes.  `SM_value_t` is `long` in sparmat-U.c
(its printf format is `%ld`), so `LONG_MAX / 2` is used; no claim depends on
the numeric value. -/
def U_ENTRY_MAX : Int := 4611686018427387903

/-- The value-operations record that sparmat-U.c plugs into the shared
sparse-vector code. -/
def UOps : VOps UV :=
  { vzero := Uzero, isZero := is_Uval_zero, beqv := are_Uvals_equal,
    vadd := add_Uvals, vmul := mult_Uvals, vabs := Uabs }

namespace SparmatU

/-- `get_v_entry` of sparmat-U.c (Uzero when absent). -/
def get_v_entry (vec : SVector UV) (ind : Nat) : UV :=
  SP.get_v_entry UOps vec ind

/-- `find_v_unit` of sparmat-U.c. -/
def find_v_unit (vec : SVector UV) : Option (Option (SEntry UV)) :=
  SP.find_v_unit UOps vec

/-- `get_m_entry` of sparmat-U.c; `none` is the C NULL return. -/
def get_m_entry (matr : SMatrix UV) (row col : Nat) : Option UV :=
  SP.gget_m_entry UOps matr row col

/-- `remove_m_entry` of sparmat-U.c; the removed value is reported through
the `val` out-parameter in C. -/
def remove_m_entry (matr : SMatrix UV) (row col : Nat) :
    Option (UV × SMatrix UV) :=
  SP.gremove_m_entry UOps matr row col

/-- `add_m_entry` of sparmat-U.c. -/
def add_m_entry (matr : SMatrix UV) (row col : Nat) (val : UV) :
    Option (SMatrix UV) :=
  SP.gadd_m_entry UOps U_ENTRY_MAX matr row col val

/-- `erase_m_row` of sparmat-U.c. -/
def erase_m_row (matr : SMatrix UV) (row : Nat) (do_del : Bool) :
    Option (SMatrix UV) :=
  SP.gerase_m_row UOps matr row do_del

/-- `erase_m_column` of sparmat-U.c. -/
def erase_m_column (matr : SMatrix UV) (col : Nat) (do_del : Bool) :
    Option (SMatrix UV) :=
  SP.gerase_m_column UOps matr col do_del

/-- `add_m_rows` of sparmat-U.c. -/
def add_m_rows (matr : SMatrix UV) (row1 row2 : Nat) (scalar : UV) :
    Option (SMatrix UV × Int) :=
  SP.gadd_m_rows UOps U_ENTRY_MAX matr row1 row2 scalar

/-- `add_m_cols` of sparmat-U.c. -/
def add_m_cols (matr : SMatrix UV) (col1 col2 : Nat) (scalar : UV) :
    Option (SMatrix UV × Int) :=
  SP.gadd_m_cols UOps U_ENTRY_MAX matr col1 col2 scalar

/-- `init_s_matrix` of sparmat-U.c. -/
def init_s_matrix (n_rows n_cols : Nat) : Option (SMatrix UV) :=
  SP.init_s_matrix n_rows n_cols

end SparmatU

/-! ### 32-bit two's-complement variant of the sparmat.c merge

`SM_value_t` is a 4-byte `int` (sparmat.h lines 22-27).  The merge loop of
`add_m_colrows` computes `scalar * eptr2->value` and
`eptr1->value + scalar * eptr2->value` in `int` arithmetic *before* the
`ABSFUNC(...) > ENTRY_MAX` test, so on every platform the Makefile targets
the products reduce modulo 2^32 before the guard sees them.  `addMergeW` is
the same source loop as `addMerge`, with each arithmetic step reduced by
`wrap32`; it is used to analyse the overflow-guard claim. -/

/-- Two's-complement reduction of an integer to the 32-bit range
[-2^31, 2^31 - 1]. -/
def wrap32 (x : Int) : Int :=
  (x + 2147483648) % 4294967296 - 2147483648

/-- The merge loop of sparmat.c `add_m_colrows` (lines 310-371) with `int`
arithmetic modelled by 32-bit two's-complement wrapping: the structure is
that of `addMerge` at `ZOps`, with `wrap32` applied after each `*` and `+`
exactly where the C expression evaluates in `int`. -/
def addMergeW (cr_ind1 : Nat) (scalar : Int) :
    List (SEntry Int) → List (SEntry Int) → Int → List (SVector Int) → Int →
    Option (List (SEntry Int) × Int × List (SVector Int) × Int)
  | l1, [], cnt, others, maxval => some (l1, cnt, others, maxval)
  | [], e2 :: es2, cnt, others, maxval =>
    let v := wrap32 (scalar * e2.value)
    let maxval' := if |v| > maxval then |v| else maxval
    if |v| > ENTRY_MAX then none
    else
      match SP.add_v_entry ZOps (others.getD (e2.index - 1) default) cr_ind1 v with
      | none => none
      | some ovec =>
        let others' := others.set (e2.index - 1) ovec
        if v = 0 then
          addMergeW cr_ind1 scalar [] es2 cnt others' maxval'
        else
          match addMergeW cr_ind1 scalar [] es2 (cnt + 1) others' maxval' with
          | none => none
          | some (l1', cnt', o', m') => some (⟨e2.index, v⟩ :: l1', cnt', o', m')
  | e1 :: es1, e2 :: es2, cnt, others, maxval =>
    if e1.index < e2.index then
      match addMergeW cr_ind1 scalar es1 (e2 :: es2) cnt others maxval with
      | none => none
      | some (l1', cnt', o', m') => some (e1 :: l1', cnt', o', m')
    else if e2.index < e1.index then
      let v := wrap32 (scalar * e2.value)
      let maxval' := if |v| > maxval then |v| else maxval
      if |v| > ENTRY_MAX then none
      else
        match SP.add_v_entry ZOps (others.getD (e2.index - 1) default) cr_ind1 v with
        | none => none
        | some ovec =>
          let others' := others.set (e2.index - 1) ovec
          if v = 0 then
            addMergeW cr_ind1 scalar (e1 :: es1) es2 cnt others' maxval'
          else
            match addMergeW cr_ind1 scalar (e1 :: es1) es2 (cnt + 1) others' maxval' with
            | none => none
            | some (l1', cnt', o', m') => some (⟨e2.index, v⟩ :: l1', cnt', o', m')
    else
      let v := wrap32 (e1.value + wrap32 (scalar * e2.value))
      let maxval' := if |v| > maxval then |v| else maxval
      if |v| > ENTRY_MAX then none
      else
        match SP.add_v_entry ZOps (others.getD (e1.index - 1) default) cr_ind1 v with
        | none => none
        | some ovec =>
          let others' := others.set (e1.index - 1) ovec
          if v = 0 then
            addMergeW cr_ind1 scalar es1 es2 (cnt - 1) others' maxval'
          else
            match addMergeW cr_ind1 scalar es1 es2 cnt others' maxval' with
            | none => none
            | some (l1', cnt', o', m') => some (⟨e1.index, v⟩ :: l1', cnt', o', m')
termination_by l1 l2 => l1.length + l2.length
decreasing_by all_goals simp_arith

/-- `add_m_colrows` of sparmat.c under 32-bit `int` semantics. -/
def add_m_colrowsW (vec1 : SVector Int) (cr_ind1 : Nat) (vec2 : SVector Int)
    (others : List (SVector Int)) (scalar : Int) :
    Option (SVector Int × List (SVector Int) × Int) :=
  if vec1.num_entries = -1 ∨ vec2.num_entries = -1 then none
  else
    match addMergeW cr_ind1 scalar vec1.entries vec2.entries
        vec1.num_entries others 0 with
    | none => none
    | some (l1', cnt', others', maxval) => some ((SVector.mk cnt' l1'), others', maxval)

/-- `add_m_rows` of sparmat.c under 32-bit `int` semantics. -/
def add_m_rowsW (matr : SMatrix Int) (row1 row2 : Nat) (scalar : Int) :
    Option (SMatrix Int × Int) :=
  if ¬SP.check_m_indices matr row1 1 then none
  else if ¬SP.check_m_indices matr row2 1 then none
  else
    match add_m_colrowsW (matr.rows.getD (row1 - 1) default) row1
        (matr.rows.getD (row2 - 1) default) matr.columns scalar with
    | none => none
    | some (rvec, cols', maxval) =>
      some ({ matr with rows := matr.rows.set (row1 - 1) rvec,
                        columns := cols' }, maxval)

/-! ### Well-formedness predicates

These are the data-structure invariants stated in the spec (section 3 and
section 8): strictly index-ascending entry lists, no stored zero values,
1-based in-range indices, the stored count agreeing with the physical count
unless the vector is tombstoned, tombstoned vectors empty, and the bilateral
row/column mirror property. -/

/-- Invariants of a single sparse vector whose entries may use indices
`1..maxIdx`. -/
def VecWF {V : Type} (isZ : V → Bool) (maxIdx : Nat) (vec : SVector V) : Prop :=
  vec.entries.Pairwise (fun a b => a.index < b.index) ∧
  (∀ e ∈ vec.entries, 1 ≤ e.index ∧ e.index ≤ maxIdx ∧ isZ e.value = false) ∧
  (vec.num_entries = -1 → vec.entries = []) ∧
  (vec.num_entries ≠ -1 → vec.num_entries = vec.entries.length)

instance {V : Type} [DecidableEq V] (isZ : V → Bool) (maxIdx : Nat)
    (vec : SVector V) : Decidable (VecWF isZ maxIdx vec) := by
  unfold VecWF; infer_instance

/-- Bilateral consistency: every entry of a row list is mirrored in the
corresponding column list with the same value, and conversely.  Positions
`k` are 0-based, matrix indices are 1-based. -/
def Mirror {V : Type} (m : SMatrix V) : Prop :=
  (∀ k, k < m.num_rows → ∀ e ∈ (m.rows.getD k default).entries,
    SP.getEnt (m.columns.getD (e.index - 1) default).entries (k + 1) =
      some e.value) ∧
  (∀ k, k < m.num_cols → ∀ e ∈ (m.columns.getD k default).entries,
    SP.getEnt (m.rows.getD (e.index - 1) default).entries (k + 1) =
      some e.value)

instance {V : Type} [DecidableEq V] (m : SMatrix V) : Decidable (Mirror m) := by
  unfold Mirror; infer_instance

/-- The entry (as an optional value) that the row view of a matrix holds at
cell (r, c); 1-based indices. -/
def rowGet {V : Type} (m : SMatrix V) (r c : Nat) : Option V :=
  SP.getEnt (m.rows.getD (r - 1) default).entries c

/-- The entry that the column view holds at cell (r, c). -/
def colGet {V : Type} (m : SMatrix V) (r c : Nat) : Option V :=
  SP.getEnt (m.columns.getD (c - 1) default).entries r

/-- Full well-formedness of a sparse matrix. -/
def MatWF {V : Type} (isZ : V → Bool) (m : SMatrix V) : Prop :=
  m.rows.length = m.num_rows ∧ m.columns.length = m.num_cols ∧
  (∀ vec ∈ m.rows, VecWF isZ m.num_cols vec) ∧
  (∀ vec ∈ m.columns, VecWF isZ m.num_rows vec) ∧ Mirror m

instance {V : Type} [DecidableEq V] (isZ : V → Bool) (m : SMatrix V) :
    Decidable (MatWF isZ m) := by
  unfold MatWF; infer_instance

/-- Every stored value has magnitude at most `bound` (spec section 8,
testable property 4). -/
def MatBounded {V : Type} (vabs : V → Int) (bound : Int) (m : SMatrix V) : Prop :=
  (∀ vec ∈ m.rows, ∀ e ∈ vec.entries, vabs e.value ≤ bound) ∧
  (∀ vec ∈ m.columns, ∀ e ∈ vec.entries, vabs e.value ≤ bound)

instance {V : Type} (vabs : V → Int) (bound : Int) (m : SMatrix V) :
    Decidable (MatBounded vabs bound m) := by
  unfold MatBounded; infer_instance

namespace SP

variable {V : Type}

/-- The value that one merge step of `add_m_colrows` computes for index `j`
of the second vector: `v1 + scalar * v2` when the first vector has an entry
there (the matched branch), `scalar * v2` otherwise (the created-entry
branch).  `none` when the second vector has no entry at `j` (the position is
not touched). -/
def mergeRaw (ops : VOps V) (scalar : V) (l1 l2 : List (SEntry V)) (j : Nat) :
    Option V :=
  match getEnt l2 j with
  | none => none
  | some v2 =>
    some (match getEnt l1 j with
          | some v1 => ops.vadd v1 (ops.vmul scalar v2)
          | none => ops.vmul scalar v2)

/-- The entry (as an optional value) that the first vector holds at index
`j` after the merge: untouched positions keep their value, touched positions
hold the merged value unless it is zero, in which case the entry is absent. -/
def mergeVal (ops : VOps V) (scalar : V) (l1 l2 : List (SEntry V)) (j : Nat) :
    Option V :=
  match mergeRaw ops scalar l1 l2 j with
  | none => getEnt l1 j
  | some w => if ops.isZero w then none else some w

/-- The raw value that one step of the `add_m_colrows` merge computes at a
position, as a function of the two optional cell values there: `none` when
the second vector holds nothing (the position is not touched), otherwise
`v1 + scalar * v2` (matched) or `scalar * v2` (created). -/
def mergedCellRaw (ops : VOps V) (scalar : V) (v1? v2? : Option V) :
    Option V :=
  match v2? with
  | none => none
  | some v2 =>
    some (match v1? with
          | some v1 => ops.vadd v1 (ops.vmul scalar v2)
          | none => ops.vmul scalar v2)

/-- The cell contents after the merge, as a function of the two optional
cell values before it: untouched positions keep their value, touched
positions hold the merged value unless it is zero. -/
def mergedCell (ops : VOps V) (scalar : V) (v1? v2? : Option V) : Option V :=
  match mergedCellRaw ops scalar v1? v2? with
  | none => v1?
  | some w => if ops.isZero w then none else some w

end SP

/-! ### sparreduce-U.c: the chain-complex reducer -/

namespace SparreduceU

/-- One slot of the PARI return vectors: the scalar `gen_0` placeholder for
matrices of zero size, or a dense matrix given as a list of columns (the C
code builds `t_MAT` column by column). -/
inductive PariObj where
  | zero
  | mat (cols : List (List Int))
deriving Repr, DecidableEq

/-- The 3-component return vector of `reduce_s_complex_U`: reduced ranks,
and the two coefficient components of the reduced differential matrices. -/
structure UResult where
  ranks : List Int
  mats0 : List PariObj
  mats1 : List PariObj
deriving Repr, DecidableEq

/-- The file-static state of sparreduce-U.c (lines 51-60): complex size,
bracketing nonempty groups, the sparse differentials (index g holds D[g],
value `default` = all-zero record until `init_diff_matrix` touches it),
group ranks, current generator counts, and the packed input kept for lazy
unpacking. -/
structure CState where
  cplx_size : Nat
  first_group : Int
  last_group : Int
  matrices : List (SMatrix UV)
  group_ranks : List Int
  num_gens : List Int
  pari_matrices : List (List Int)
  num_entries : List Nat
deriving Repr, DecidableEq

/-- `malloc_arrays` (lines 100-122): allocate the state; each matrix slot is
zero-initialised (dimensions 0, null row/column arrays).  Allocation is
assumed to succeed.  The C code takes `c_size - 1` in a signed type; the
model requires `c_size ≥ 1` from its callers, as the reduction claims do. -/
def malloc_arrays (c_size : Nat) (d_matrices : List (List Int))
    (matr_lengths : List Nat) : CState :=
  { cplx_size := c_size, first_group := 0, last_group := 0,
    matrices := List.replicate (c_size - 1) default,
    group_ranks := [], num_gens := [],
    pari_matrices := d_matrices, num_entries := matr_lengths }

/-- `init_ranks` (lines 245-269): copy the ranks into `cplx_group_ranks` and
`num_generators` and locate the first and last groups of positive rank
(`-1` when there are none).  The boolean is `false` exactly for the C return
-1 ("the complex is empty"). -/
def init_ranks (st : CState) (c_ranks : List Int) : CState × Bool :=
  let idxs := List.range st.cplx_size
  let ranks := idxs.map fun i => c_ranks.getD i 0
  let fg := idxs.foldl
    (fun acc i => if 0 < c_ranks.getD i 0 ∧ acc < 0 then (i : Int) else acc) (-1)
  let lg := idxs.foldl
    (fun acc i => if 0 < c_ranks.getD i 0 then (i : Int) else acc) (-1)
  ({ st with group_ranks := ranks, num_gens := ranks,
             first_group := fg, last_group := lg },
   decide (0 ≤ fg))

/-- Decoding of one packed matrix entry in the 64-bit "shrunk" format
(`assign_matrix`, lines 195-214): the word is `±(row * 2^32 + flag * 2^31 +
column)`; the result is (row, column, is_odd_var), and the sign carries the
value.  Row and column are assumed below 2^31 by the C source. -/
def decode_entry (x : Int) : Nat × Nat × Bool :=
  let t := x.natAbs
  (t >>> 32, t % 2147483648, (t / 2147483648) % 2 = 1)

/-- `assign_matrix` (lines 182-220): translate a packed matrix into the
sparse format.  Each decoded entry carries the value ±1 into component 0 or
(when `is_odd_var`) component 1 of the group-ring pair, and is stored with
`add_m_entry`; any failure aborts (`bailout`). -/
def assign_matrix (matr : SMatrix UV) (entries_list : List Int)
    (list_len : Nat) : Except String (SMatrix UV) :=
  (entries_list.take list_len).foldlM
    (fun m x =>
      let d := decode_entry x
      let s : Int := if x < 0 then -1 else 1
      let val : UV := if d.2.2 then (0, s) else (s, 0)
      match SparmatU.add_m_entry m d.1 d.2.1 val with
      | none => Except.error "assign_matrix: add_m_entry failed"
      | some m' => Except.ok m')
    matr

/-- `init_diff_matrix` (lines 222-240): differentials outside
`[first_group, last_group)` are not built; otherwise allocate a
`rank[g+1] × rank[g]` matrix and fill it from the packed input. -/
def init_diff_matrix (st : CState) (matrix : Nat) : Except String CState :=
  if (matrix : Int) < st.first_group ∨ (matrix : Int) ≥ st.last_group then
    Except.ok st
  else
    match SparmatU.init_s_matrix (st.group_ranks.getD (matrix + 1) 0).toNat
        (st.group_ranks.getD matrix 0).toNat with
    | none => Except.error "init_s_matrix: number of rows or columns is too small"
    | some m0 =>
      match assign_matrix m0 (st.pari_matrices.getD matrix [])
          (st.num_entries.getD matrix 0) with
      | Except.error e => Except.error e
      | Except.ok m => Except.ok { st with matrices := st.matrices.set matrix m }

/-- `kill_gen` (lines 363-374): tombstone the row of the dying generator in
D[group-1] (when it exists) and its column in D[group] (when it exists), and
decrement the live generator count of the group. -/
def kill_gen (st : CState) (group : Nat) (gen_num : Nat) :
    Except String CState := do
  let st ←
    if st.first_group < (group : Int) then
      match SparmatU.erase_m_row (st.matrices.getD (group - 1) default)
          gen_num true with
      | none => Except.error "kill_gen: erase_m_row failed"
      | some m =>
        Except.ok { st with matrices := st.matrices.set (group - 1) m }
    else Except.ok st
  let st ←
    if (group : Int) < st.last_group then
      match SparmatU.erase_m_column (st.matrices.getD group default)
          gen_num true with
      | none => Except.error "kill_gen: erase_m_column failed"
      | some m => Except.ok { st with matrices := st.matrices.set group m }
    else Except.ok st
  Except.ok { st with
    num_gens := st.num_gens.set group (st.num_gens.getD group 0 - 1) }

/-- The error message of the two assertions in `eliminate_gens`
(line 389). -/
def gen_error : String := "eliminate_gens: generator is not killed cleanly"

/-- Column sweep of `eliminate_gens` (lines 422-434): for every entry of the
pivot row other than the pivot itself, add `entry.value * gen_coeff` times
the pivot column into the entry's column.  The C loop walks the live row
list, caching `cur_entry->next` before each call because `add_m_cols`
removes the visited entry; since `add_m_cols(c, inc_gen, ...)` touches the
pivot row only at index `c`, the walk visits exactly the entries the row
held when the sweep started, in order, with their values at that time —
which is what iterating over the captured entry list expresses. -/
def sweepEntries (st : CState) (group : Nat) (inc_gen : Nat)
    (gen_coeff : UV) : List (SEntry UV) → Except String CState
  | [] => Except.ok st
  | e :: es =>
    if e.index ≠ inc_gen then
      match SparmatU.add_m_cols (st.matrices.getD (group - 1) default)
          e.index inc_gen (mult_Uvals e.value gen_coeff) with
      | none => Except.error "add_m_cols: failed"
      | some (m, _) =>
        sweepEntries { st with matrices := st.matrices.set (group - 1) m }
          group inc_gen gen_coeff es
    else sweepEntries st group inc_gen gen_coeff es

/-- Body of the generator loop of `eliminate_gens` (lines 403-443) for one
row `gen` of D[group-1]: skip tombstoned rows, rows that are too long in a
short pass, and rows without a unit entry; otherwise negate the pivot value,
sweep the row, check that exactly the pivot entry remains (else
`gen_error`), kill the incident generator, check the row is now empty (else
`gen_error`), and kill the generator itself.  The boolean reports whether an
elimination happened. -/
def elimGen (st : CState) (group : Nat) (do_short : Bool) (gen : Nat) :
    Except String (CState × Bool) :=
  let vec := (st.matrices.getD (group - 1) default).rows.getD (gen - 1) default
  if vec.num_entries = -1 then Except.ok (st, false)
  else if do_short ∧ vec.num_entries > 2 then Except.ok (st, false)
  else
    match SparmatU.find_v_unit vec with
    | none => Except.ok (st, false)
    | some none => Except.ok (st, false)
    | some (some pent) => do
      let inc_gen := pent.index
      let gen_coeff : UV := (-pent.value.1, -pent.value.2)
      let st ← sweepEntries st group inc_gen gen_coeff vec.entries
      let vec' :=
        (st.matrices.getD (group - 1) default).rows.getD (gen - 1) default
      if vec'.num_entries ≠ 1 then Except.error gen_error
      else do
        let st ← kill_gen st (group - 1) inc_gen
        let vec'' :=
          (st.matrices.getD (group - 1) default).rows.getD (gen - 1) default
        if vec''.num_entries ≠ 0 then Except.error gen_error
        else do
          let st ← kill_gen st group gen
          Except.ok (st, true)

/-- The generator loop of `eliminate_gens`, folded over the row indices. -/
def elimFold (group : Nat) (do_short : Bool) :
    List Nat → CState → Bool → Except String (CState × Bool)
  | [], st, isfound => Except.ok (st, isfound)
  | g :: gs, st, isfound => do
    let r ← elimGen st group do_short g
    elimFold group do_short gs r.1 (isfound || r.2)

/-- `eliminate_gens` (lines 381-450): materialise the differentials the
group needs, then try to eliminate every generator of the group, returning
whether anything was eliminated. -/
def eliminate_gens (st : CState) (group : Nat) (do_short : Bool) :
    Except String (CState × Bool) := do
  let st ←
    if st.first_group + 1 < (group : Int) ∧
        (st.matrices.getD (group - 2) default).rows = [] then
      init_diff_matrix st (group - 2)
    else Except.ok st
  let st ←
    if st.first_group < (group : Int) ∧
        (st.matrices.getD (group - 1) default).rows = [] then
      init_diff_matrix st (group - 1)
    else Except.ok st
  let st ←
    if (group : Int) < st.last_group ∧
        (st.matrices.getD group default).rows = [] then
      init_diff_matrix st group
    else Except.ok st
  elimFold group do_short
    (List.range' 1 (st.group_ranks.getD group 0).toNat) st false

/-- The `while (eliminate_gens(group, ...))` loops of `reduce_s_complex_U`
(lines 495-496).  The C loop runs until no elimination happens; each
successful iteration tombstones at least one of the `rank[group]` rows of
D[group-1], so the fuel `rank[group] + 1` supplied by `groupLoop` always
suffices and the fuel-exhaustion error is unreachable from the C-visible
entry points. -/
def elimLoop (group : Nat) (do_short : Bool) :
    Nat → CState → Except String CState
  | 0, _ => Except.error "model: elimination loop fuel exhausted"
  | fuel + 1, st => do
    let r ← eliminate_gens st group do_short
    if r.2 then elimLoop group do_short fuel r.1
    else Except.ok r.1

/-- The group loop of `reduce_s_complex_U` (lines 487-500): a short pass
then a full pass for each group after the first. -/
def groupLoop : List Nat → CState → Except String CState
  | [], st => Except.ok st
  | g :: gs, st => do
    let fuel := (st.group_ranks.getD g 0).toNat + 1
    let st ← elimLoop g true fuel st
    let st ← elimLoop g false fuel st
    groupLoop gs st

/-- Cursor advance of `matr2pari` (lines 290-291 and 297-298): skip
tombstoned vectors while staying within the physical bound. -/
def skip_deleted (vecs : List (SVector UV)) (ind bound : Nat) : Nat :=
  if ind ≤ bound ∧ (vecs.getD (ind - 1) default).num_entries = -1 then
    skip_deleted vecs (ind + 1) bound
  else ind
termination_by bound + 1 - ind
decreasing_by
  rename_i h
  omega

/-- Inner (row) loop of `matr2pari` (lines 296-307): read the next `jrem`
live rows of column `col`, removing each entry from the matrix
(`remove_m_entry checks much more than get_m_entry`). -/
def matr2pariRows (matr : SMatrix UV) (col n_m_rows : Nat) :
    Nat → Nat → Except String (List UV × SMatrix UV)
  | 0, _ => Except.ok ([], matr)
  | jrem + 1, row =>
    let row := skip_deleted matr.rows row n_m_rows
    if row > n_m_rows then Except.error "matr2pari: matrix is corrupt"
    else
      match SparmatU.remove_m_entry matr row col with
      | none => Except.error "matr2pari: remove_m_entry failed"
      | some (val, m') => do
        let r ← matr2pariRows m' col n_m_rows jrem (row + 1)
        Except.ok (val :: r.1, r.2)

/-- Outer (column) loop of `matr2pari` (lines 289-310). -/
def matr2pariCols (matr : SMatrix UV) (n_rows n_m_rows n_m_cols : Nat) :
    Nat → Nat → Except String (List (List UV) × SMatrix UV)
  | 0, _ => Except.ok ([], matr)
  | irem + 1, col =>
    let col := skip_deleted matr.columns col n_m_cols
    if col > n_m_cols then Except.error "matr2pari: matrix is corrupt"
    else do
      let rr ← matr2pariRows matr col n_m_rows n_rows 1
      let cc ← matr2pariCols rr.2 n_rows n_m_rows n_m_cols irem (col + 1)
      Except.ok (rr.1 :: cc.1, cc.2)

/-- `matr2pari` (lines 274-311): read the surviving
`num_generators[group+1] × num_generators[group]` dense matrix (as a list of
columns) out of the sparse differential D[group], destroying it in the
process. -/
def matr2pari (st : CState) (group : Nat) :
    Except String (List (List UV) × CState) := do
  let matr := st.matrices.getD group default
  let r ← matr2pariCols matr (st.num_gens.getD (group + 1) 0).toNat
    matr.num_rows matr.num_cols (st.num_gens.getD group 0).toNat 1
  Except.ok (r.1, { st with matrices := st.matrices.set group r.2 })

/-- Main loop of `feed2pari` (lines 335-349). -/
def feedLoop (last : Int) :
    List Nat → CState → List Int → List PariObj → List PariObj →
    Except String (List Int × List PariObj × List PariObj × CState)
  | [], st, ng, m0, m1 => Except.ok (ng, m0, m1, st)
  | g :: gs, st, ng, m0, m1 =>
    if st.num_gens.getD g 0 = 0 then feedLoop last gs st ng m0 m1
    else
      let ng' := ng.set g (st.num_gens.getD g 0)
      if (g : Int) = last then feedLoop last gs st ng' m0 m1
      else if st.num_gens.getD (g + 1) 0 = 0 then feedLoop last gs st ng' m0 m1
      else do
        let r ← matr2pari st g
        feedLoop last gs r.2 ng'
          (m0.set g (PariObj.mat (r.1.map (·.map Prod.fst))))
          (m1.set g (PariObj.mat (r.1.map (·.map Prod.snd))))

/-- `feed2pari` (lines 316-358): build the 3-component answer; all slots
start as `gen_0` (zero), groups outside `[first_group, last_group]` and
matrices of zero size stay zero. -/
def feed2pari (st : CState) : Except String (UResult × CState) :=
  let ng0 : List Int := List.replicate st.cplx_size 0
  let m0 : List PariObj := List.replicate (st.cplx_size - 1) PariObj.zero
  let m1 : List PariObj := List.replicate (st.cplx_size - 1) PariObj.zero
  if st.first_group < 0 then Except.ok (⟨ng0, m0, m1⟩, st)
  else do
    let groups := List.range' st.first_group.toNat
      (st.last_group.toNat + 1 - st.first_group.toNat)
    let r ← feedLoop st.last_group groups st ng0 m0 m1
    Except.ok (⟨r.1, r.2.1, r.2.2.1⟩, r.2.2.2)

/-- `reduce_s_complex_U` (lines 467-505): allocate, read the ranks (an empty
complex returns the all-zero answer immediately), run the two elimination
passes for every group after the first, and translate the result back. -/
def reduce_s_complex_U (c_size : Nat) (c_ranks : List Int)
    (d_matrices : List (List Int)) (matr_lengths : List Nat) :
    Except String UResult := do
  let st0 := malloc_arrays c_size d_matrices matr_lengths
  let r := init_ranks st0 c_ranks
  if ¬r.2 then do
    let a ← feed2pari r.1
    Except.ok a.1
  else do
    let st1 := r.1
    let groups := List.range' (st1.first_group.toNat + 1)
      (st1.last_group.toNat - st1.first_group.toNat)
    let st2 ← groupLoop groups st1
    let a ← feed2pari st2
    Except.ok a.1

/-- Well-formedness of a reducer state: every (materialised or still empty)
differential matrix satisfies the sparse-matrix invariants. -/
def CStateWF (st : CState) : Prop :=
  ∀ m ∈ st.matrices, MatWF UOps.isZero m

instance (st : CState) : Decidable (CStateWF st) := by
  unfold CStateWF; infer_instance

/-- No non-tombstoned row of any differential holds an entry of magnitude 1
(the "already fully reduced" hypothesis of the idempotence property). -/
def NoUnitRows (st : CState) : Prop :=
  ∀ m ∈ st.matrices, ∀ vec ∈ m.rows, vec.num_entries ≠ -1 →
    ∀ e ∈ vec.entries, Uabs e.value ≠ 1

instance (st : CState) : Decidable (NoUnitRows st) := by
  unfold NoUnitRows; infer_instance

end SparreduceU

/-! ### Concrete test fixtures used to exercise the theorems below -/

/-- A well-formed 1 by 1 integer matrix holding the single entry (1,1) = 2. -/
def wm1 : SMatrix Int := ⟨1, 1, [⟨1, [⟨1, 2⟩]⟩], [⟨1, [⟨1, 2⟩]⟩]⟩

/-- `wm1` after `add_m_rows(1, 1, 2)`: the entry becomes 2 + 2 * 2 = 6. -/
def wm1r : SMatrix Int := ⟨1, 1, [⟨1, [⟨1, 6⟩]⟩], [⟨1, [⟨1, 6⟩]⟩]⟩

/-- `wm1` after removing its only entry. -/
def wm1z : SMatrix Int := ⟨1, 1, [⟨0, []⟩], [⟨0, []⟩]⟩

/-- `wm1` after `erase_m_row(1, do_del)`: the row is tombstoned and the
column loses its entry. -/
def wm1e : SMatrix Int := ⟨1, 1, [⟨-1, []⟩], [⟨0, []⟩]⟩

/-- A well-formed 2 by 1 integer matrix whose second row holds the entry
65536 at column 1; `add_m_rows(1, 2, 65536)` on it computes the product
65536 * 65536 = 2^32, which exceeds `ENTRY_MAX` but wraps to 0 in 32-bit
`int` arithmetic. -/
def wm5 : SMatrix Int := ⟨2, 1, [⟨0, []⟩, ⟨1, [⟨1, 65536⟩]⟩],
  [⟨1, [⟨2, 65536⟩]⟩]⟩

/-- A well-formed 1 by 2 integer matrix with the single entry (1, 2) = 5:
its row list uses column index 2, which is within `num_cols` but beyond
`num_rows`. -/
def wm7 : SMatrix Int := ⟨1, 2, [⟨1, [⟨2, 5⟩]⟩], [⟨0, []⟩, ⟨1, [⟨1, 5⟩]⟩]⟩

/-- A 1 by 1 group-ring matrix holding the non-unit 2 (magnitude 2). -/
def um6 : SMatrix UV :=
  ⟨1, 1, [⟨1, [⟨1, ((2 : Int), (0 : Int))⟩]⟩],
   [⟨1, [⟨1, ((2 : Int), (0 : Int))⟩]⟩]⟩

/-- A fully materialised reducer state over `um6`: already reduced, since
no live row holds a unit. -/
def st6 : SparreduceU.CState := ⟨2, 0, 1, [um6], [1, 1], [1, 1], [], []⟩

/-- A 1 by 1 group-ring matrix holding the unit 1. -/
def um3 : SMatrix UV :=
  ⟨1, 1, [⟨1, [⟨1, ((1 : Int), (0 : Int))⟩]⟩],
   [⟨1, [⟨1, ((1 : Int), (0 : Int))⟩]⟩]⟩

/-- A materialised reducer state over `um3`, on which `eliminate_gens`
performs one real elimination. -/
def st3w : SparreduceU.CState := ⟨2, 0, 1, [um3], [1, 1], [1, 1], [], []⟩

/-! ## Lemmas about the ordered entry lists -/

section EntryLists

variable {V : Type}

theorem getEnt_cons (e : SEntry V) (es : List (SEntry V)) (i : Nat) :
    SP.getEnt (e :: es) i =
      if i ≤ e.index then (if e.index = i then some e.value else none)
      else SP.getEnt es i := rfl

theorem getEnt_mem {l : List (SEntry V)} {i : Nat} {v : V}
    (h : SP.getEnt l i = some v) : (⟨i, v⟩ : SEntry V) ∈ l := by
  induction l with
  | nil => simp [SP.getEnt] at h
  | cons e es ih =>
    rw [getEnt_cons] at h
    split at h
    · split at h
      · rename_i heq
        injection h with h
        subst h
        subst heq
        exact List.mem_cons_self _ _
      · exact absurd h (by simp)
    · exact List.mem_cons_of_mem _ (ih h)

theorem getEnt_eq_none_of_forall_lt {l : List (SEntry V)} {i : Nat}
    (h : ∀ e ∈ l, i < e.index) : SP.getEnt l i = none := by
  cases l with
  | nil => rfl
  | cons e es =>
    rw [getEnt_cons]
    have := h e (List.mem_cons_self _ _)
    rw [if_pos (by omega), if_neg (by omega)]

theorem getEnt_eq_none_of_not_mem {l : List (SEntry V)} {i : Nat}
    (h : ∀ e ∈ l, e.index ≠ i) : SP.getEnt l i = none := by
  cases hg : SP.getEnt l i with
  | none => rfl
  | some v => exact absurd rfl (h _ (getEnt_mem hg))

theorem getEnt_eq_some_of_mem {l : List (SEntry V)} {e : SEntry V}
    (hs : l.Pairwise (fun a b => a.index < b.index)) (h : e ∈ l) :
    SP.getEnt l e.index = some e.value := by
  induction l with
  | nil => cases h
  | cons f fs ih =>
    rw [List.pairwise_cons] at hs
    rcases List.mem_cons.mp h with h | h
    · subst h
      rw [getEnt_cons, if_pos le_rfl, if_pos rfl]
    · have hlt : f.index < e.index := hs.1 e h
      rw [getEnt_cons, if_neg (by omega)]
      exact ih hs.2 h

/-- The member with index `i` is unique in a sorted list and determined by
`getEnt`. -/
theorem mem_iff_getEnt {l : List (SEntry V)} {i : Nat} {v : V}
    (hs : l.Pairwise (fun a b => a.index < b.index)) :
    (⟨i, v⟩ : SEntry V) ∈ l ↔ SP.getEnt l i = some v := by
  constructor
  · intro h
    exact getEnt_eq_some_of_mem hs h
  · exact getEnt_mem

/-- Two sorted entry lists with the same `getEnt` function are equal. -/
theorem sorted_ext {l l' : List (SEntry V)}
    (hs : l.Pairwise (fun a b => a.index < b.index))
    (hs' : l'.Pairwise (fun a b => a.index < b.index))
    (h : ∀ i, SP.getEnt l i = SP.getEnt l' i) : l = l' := by
  induction l generalizing l' with
  | nil =>
    cases l' with
    | nil => rfl
    | cons f fs =>
      have := h f.index
      rw [getEnt_eq_some_of_mem hs' (List.mem_cons_self _ _)] at this
      simp [SP.getEnt] at this
  | cons e es ih =>
    cases l' with
    | nil =>
      have := h e.index
      rw [getEnt_eq_some_of_mem hs (List.mem_cons_self _ _)] at this
      simp [SP.getEnt] at this
    | cons f fs =>
      rw [List.pairwise_cons] at hs hs'
      have hef : e.index = f.index := by
        by_contra hne
        rcases Nat.lt_or_ge e.index f.index with hlt | hge
        · have := h e.index
          rw [getEnt_eq_some_of_mem (List.pairwise_cons.mpr hs) (List.mem_cons_self _ _)] at this
          rw [getEnt_cons, if_pos (by omega), if_neg (by omega)] at this
          cases this
        · have hlt : f.index < e.index := by omega
          have := h f.index
          rw [getEnt_eq_some_of_mem (List.pairwise_cons.mpr hs') (List.mem_cons_self _ _)] at this
          rw [getEnt_cons, if_pos (by omega), if_neg (by omega)] at this
          cases this
      have hev : e.value = f.value := by
        have h2 := h e.index
        have e1 : SP.getEnt (e :: es) e.index = some e.value :=
          getEnt_eq_some_of_mem (List.pairwise_cons.mpr hs) (List.mem_cons_self _ _)
        have e2 : SP.getEnt (f :: fs) e.index = some f.value := by
          rw [hef]
          exact getEnt_eq_some_of_mem (List.pairwise_cons.mpr hs') (List.mem_cons_self _ _)
        rw [e1, e2] at h2
        exact Option.some.inj h2
      have htl : es = fs := by
        refine ih hs.2 hs'.2 fun i => ?_
        rcases Nat.lt_or_ge e.index i with hgt | hle
        · have := h i
          rw [getEnt_cons, if_neg (by omega), getEnt_cons, if_neg (by omega)] at this
          exact this
        · rw [getEnt_eq_none_of_forall_lt fun x hx => lt_of_le_of_lt hle (hs.1 x hx),
            getEnt_eq_none_of_forall_lt fun x hx => ?_]
          rw [hef] at hle
          exact lt_of_le_of_lt hle (hs'.1 x hx)
      cases e; cases f
      simp_all

theorem addEnt_mem_sub {l : List (SEntry V)} {i : Nat} {v : V} :
    ∀ x ∈ (SP.addEnt l i v).1, x ∈ l ∨ x = ⟨i, v⟩ := by
  induction l with
  | nil => simp [SP.addEnt]
  | cons e es ih =>
    intro x hx
    simp only [SP.addEnt] at hx
    split at hx
    · split at hx
      · rcases List.mem_cons.mp hx with h | h
        · exact Or.inr h
        · exact Or.inl (List.mem_cons_of_mem _ h)
      · rcases List.mem_cons.mp hx with h | h
        · exact Or.inr h
        · exact Or.inl h
    · rcases List.mem_cons.mp hx with h | h
      · exact Or.inl (by simp [h])
      · rcases ih x h with h' | h'
        · exact Or.inl (List.mem_cons_of_mem _ h')
        · exact Or.inr h'

theorem getEnt_singleton (i : Nat) (v : V) (j : Nat) :
    SP.getEnt [(⟨i, v⟩ : SEntry V)] j = if j = i then some v else none := by
  rw [getEnt_cons]
  by_cases h : j = i
  · subst h; simp
  · rw [if_neg h]
    simp only []
    split
    · rw [if_neg (by omega)]
    · rfl

theorem addEnt_getEnt (l : List (SEntry V)) (i : Nat) (v : V) (j : Nat) :
    SP.getEnt (SP.addEnt l i v).1 j =
      if j = i then some v else SP.getEnt l j := by
  induction l with
  | nil =>
    show SP.getEnt [⟨i, v⟩] j = _
    rw [getEnt_singleton]
    by_cases h : j = i <;> simp [h, SP.getEnt]
  | cons e es ih =>
    simp only [SP.addEnt]
    by_cases h1 : i ≤ e.index
    · rw [if_pos h1]
      by_cases h2 : e.index = i
      · rw [if_pos h2]
        subst h2
        show SP.getEnt (⟨e.index, v⟩ :: es) j = _
        rw [getEnt_cons, getEnt_cons]
        simp only []
        by_cases hji : j = e.index
        · subst hji; simp
        · rw [if_neg hji]
          split
          · rw [if_neg (by omega), if_neg (by omega)]
          · rfl
      · rw [if_neg h2]
        show SP.getEnt (⟨i, v⟩ :: e :: es) j = _
        rw [getEnt_cons]
        simp only []
        by_cases hji : j = i
        · subst hji
          rw [if_pos rfl, if_pos le_rfl, if_pos rfl]
        · rw [if_neg hji]
          by_cases hj2 : j ≤ i
          · rw [if_pos hj2, if_neg (by omega), getEnt_cons, if_pos (by omega),
              if_neg (by omega)]
          · rw [if_neg hj2]
    · rw [if_neg h1]
      show SP.getEnt (e :: (SP.addEnt es i v).1) j = _
      rw [getEnt_cons]
      by_cases hji : j = i
      · subst hji
        rw [if_neg (by omega), ih, if_pos rfl, if_pos rfl]
      · rw [if_neg hji, getEnt_cons]
        by_cases hj2 : j ≤ e.index
        · rw [if_pos hj2, if_pos hj2]
        · rw [if_neg hj2, if_neg hj2, ih, if_neg hji]

theorem addEnt_created (l : List (SEntry V)) (i : Nat) (v : V) :
    (SP.addEnt l i v).2 = true ↔ SP.getEnt l i = none := by
  induction l with
  | nil => simp [SP.addEnt, SP.getEnt]
  | cons e es ih =>
    simp only [SP.addEnt, getEnt_cons]
    split
    · split
      · simp_all
      · simp
    · simpa using ih

theorem addEnt_length (l : List (SEntry V)) (i : Nat) (v : V) :
    (SP.addEnt l i v).1.length =
      l.length + (if (SP.addEnt l i v).2 then 1 else 0) := by
  induction l with
  | nil => simp [SP.addEnt]
  | cons e es ih =>
    simp only [SP.addEnt]
    split
    · split <;> simp
    · simp only [List.length_cons, ih]
      split <;> omega

theorem addEnt_sorted {l : List (SEntry V)} (i : Nat) (v : V)
    (hs : l.Pairwise (fun a b => a.index < b.index)) :
    (SP.addEnt l i v).1.Pairwise (fun a b => a.index < b.index) := by
  induction l with
  | nil => simp [SP.addEnt]
  | cons e es ih =>
    rw [List.pairwise_cons] at hs
    simp only [SP.addEnt]
    by_cases h1 : i ≤ e.index
    · rw [if_pos h1]
      by_cases h2 : e.index = i
      · rw [if_pos h2]
        show ((⟨i, v⟩ : SEntry V) :: es).Pairwise _
        rw [List.pairwise_cons]
        exact ⟨fun b hb => by have := hs.1 b hb; simp only []; omega, hs.2⟩
      · rw [if_neg h2]
        show ((⟨i, v⟩ : SEntry V) :: e :: es).Pairwise _
        rw [List.pairwise_cons]
        constructor
        · intro b hb
          rcases List.mem_cons.mp hb with hb | hb
          · subst hb; simp only []; omega
          · have := hs.1 b hb; simp only []; omega
        · exact List.pairwise_cons.mpr hs
    · rw [if_neg h1]
      show (e :: (SP.addEnt es i v).1).Pairwise _
      rw [List.pairwise_cons]
      constructor
      · intro b hb
        rcases addEnt_mem_sub b hb with h | h
        · exact hs.1 b h
        · subst h; simp only []; omega
      · exact ih hs.2

theorem removeEnt_sublist (l : List (SEntry V)) (i : Nat) :
    (SP.removeEnt l i).1.Sublist l := by
  induction l with
  | nil => simp [SP.removeEnt]
  | cons e es ih =>
    simp only [SP.removeEnt]
    split
    · split
      · exact List.sublist_cons_self _ _
      · exact List.Sublist.refl _
    · exact List.Sublist.cons₂ _ ih

theorem removeEnt_sorted {l : List (SEntry V)} (i : Nat)
    (hs : l.Pairwise (fun a b => a.index < b.index)) :
    (SP.removeEnt l i).1.Pairwise (fun a b => a.index < b.index) :=
  hs.sublist (removeEnt_sublist l i)

theorem removeEnt_val {l : List (SEntry V)} (i : Nat)
    (hs : l.Pairwise (fun a b => a.index < b.index)) :
    (SP.removeEnt l i).2 = SP.getEnt l i := by
  induction l with
  | nil => rfl
  | cons e es ih =>
    rw [List.pairwise_cons] at hs
    simp only [SP.removeEnt, getEnt_cons]
    split
    · split <;> rfl
    · exact ih hs.2

theorem removeEnt_getEnt {l : List (SEntry V)} (i : Nat) (j : Nat)
    (hs : l.Pairwise (fun a b => a.index < b.index)) :
    SP.getEnt (SP.removeEnt l i).1 j =
      if j = i then none else SP.getEnt l j := by
  induction l with
  | nil => simp [SP.removeEnt, SP.getEnt]
  | cons e es ih =>
    rw [List.pairwise_cons] at hs
    simp only [SP.removeEnt]
    split
    · rename_i hle
      split
      · rename_i heq
        by_cases hji : j = i
        · subst hji
          rw [if_pos rfl]
          exact getEnt_eq_none_of_forall_lt fun x hx => by
            have := hs.1 x hx; omega
        · rw [if_neg hji, getEnt_cons]
          by_cases hj2 : j ≤ e.index
          · rw [if_pos hj2, if_neg (by omega)]
            exact getEnt_eq_none_of_forall_lt fun x hx => by
              have := hs.1 x hx; omega
          · rw [if_neg hj2]
      · rename_i hne
        by_cases hji : j = i
        · subst hji
          rw [if_pos rfl, getEnt_cons, if_pos hle, if_neg hne]
        · rw [if_neg hji]
    · rename_i hgt
      by_cases hji : j = i
      · subst hji
        rw [if_pos rfl, getEnt_cons, if_neg (by omega), ih hs.2, if_pos rfl]
      · rw [if_neg hji, getEnt_cons, getEnt_cons, ih hs.2, if_neg hji]

theorem removeEnt_length (l : List (SEntry V)) (i : Nat) :
    l.length =
      (SP.removeEnt l i).1.length +
        (if (SP.removeEnt l i).2.isSome then 1 else 0) := by
  induction l with
  | nil => simp [SP.removeEnt]
  | cons e es ih =>
    simp only [SP.removeEnt]
    split
    · split <;> simp
    · simp only [List.length_cons, ih]
      split <;> omega

end EntryLists

/-! ## Lemmas about single-vector operations -/

section VectorOps

variable {V : Type}

theorem getD_set_ne {α : Type} (l : List α) (p q : Nat) (a d : α)
    (h : p ≠ q) : (l.set p a).getD q d = l.getD q d := by
  simp [List.getD_eq_getElem?_getD, List.getElem?_set_ne h]

theorem getD_set_self {α : Type} (l : List α) (p : Nat) (a d : α)
    (h : p < l.length) : (l.set p a).getD p d = a := by
  simp [List.getD_eq_getElem?_getD, List.getElem?_set_self, h]

theorem add_v_entry_deleted (ops : VOps V) (vec : SVector V) (ind : Nat)
    (val : V) (h : vec.num_entries = -1) :
    SP.add_v_entry ops vec ind val = none := by
  simp [SP.add_v_entry, h]

theorem add_v_entry_not_deleted (ops : VOps V) (vec : SVector V) (ind : Nat)
    (val : V) (h : vec.num_entries ≠ -1) :
    (SP.add_v_entry ops vec ind val).isSome := by
  rw [SP.add_v_entry, if_neg h]
  split <;> simp

/-- Digest of a successful `add_v_entry`: order is preserved, the lookup
function changes exactly at `ind` (a zero value removes, a non-zero value
stores), every entry of the result is an old entry or the new one, and the
stored count tracks the physical count. -/
theorem add_v_entry_spec {ops : VOps V} {vec vec' : SVector V} {ind : Nat}
    {val : V} (h : SP.add_v_entry ops vec ind val = some vec')
    (hs : vec.entries.Pairwise (fun a b => a.index < b.index)) :
    vec'.entries.Pairwise (fun a b => a.index < b.index) ∧
    (∀ j, SP.getEnt vec'.entries j =
      if j = ind then (if ops.isZero val then none else some val)
      else SP.getEnt vec.entries j) ∧
    (∀ x ∈ vec'.entries, x ∈ vec.entries ∨ x = ⟨ind, val⟩) ∧
    (vec.num_entries = vec.entries.length →
      vec'.num_entries = vec'.entries.length) ∧
    vec.num_entries ≠ -1 := by
  rw [SP.add_v_entry] at h
  by_cases hdel : vec.num_entries = -1
  · rw [if_pos hdel] at h; cases h
  rw [if_neg hdel] at h
  by_cases hz : ops.isZero val
  · rw [if_pos hz] at h
    injection h with h
    subst h
    refine ⟨removeEnt_sorted ind hs, ?_, ?_, ?_, hdel⟩
    · intro j
      simp only []
      rw [removeEnt_getEnt ind j hs, if_pos hz]
    · intro x hx
      exact Or.inl ((removeEnt_sublist vec.entries ind).mem hx)
    · intro hc
      have hL := removeEnt_length vec.entries ind
      simp only []
      split at hL <;> split <;> simp_all <;> omega
  · rw [if_neg hz] at h
    injection h with h
    subst h
    refine ⟨addEnt_sorted ind val hs, ?_, ?_, ?_, hdel⟩
    · intro j
      simp only []
      rw [addEnt_getEnt, if_neg hz]
    · exact addEnt_mem_sub
    · intro hc
      have hL := addEnt_length vec.entries ind val
      simp only []
      split at hL <;> split <;> simp_all <;> omega

theorem remove_v_entry_deleted (vec : SVector V) (ind : Nat)
    (h : vec.num_entries = -1) : SP.remove_v_entry vec ind = none := by
  simp [SP.remove_v_entry, h]

theorem remove_v_entry_not_deleted (vec : SVector V) (ind : Nat)
    (h : vec.num_entries ≠ -1) : (SP.remove_v_entry vec ind).isSome := by
  rw [SP.remove_v_entry, if_neg h]
  simp

/-- Digest of a successful `remove_v_entry`. -/
theorem remove_v_entry_spec {vec vec' : SVector V} {ind : Nat}
    {val? : Option V} (h : SP.remove_v_entry vec ind = some (vec', val?))
    (hs : vec.entries.Pairwise (fun a b => a.index < b.index)) :
    vec'.entries.Pairwise (fun a b => a.index < b.index) ∧
    (∀ j, SP.getEnt vec'.entries j =
      if j = ind then none else SP.getEnt vec.entries j) ∧
    (∀ x ∈ vec'.entries, x ∈ vec.entries) ∧
    (vec.num_entries = vec.entries.length →
      vec'.num_entries = vec'.entries.length) ∧
    val? = SP.getEnt vec.entries ind ∧
    vec.num_entries ≠ -1 := by
  rw [SP.remove_v_entry] at h
  by_cases hdel : vec.num_entries = -1
  · rw [if_pos hdel] at h; cases h
  rw [if_neg hdel] at h
  injection h with h
  rw [Prod.mk.injEq] at h
  obtain ⟨h1, h2⟩ := h
  subst h1
  refine ⟨removeEnt_sorted ind hs, ?_, ?_, ?_, ?_, hdel⟩
  · intro j
    simp only []
    rw [removeEnt_getEnt ind j hs]
  · intro x hx
    exact (removeEnt_sublist vec.entries ind).mem hx
  · intro hc
    have hL := removeEnt_length vec.entries ind
    simp only []
    split at hL <;> split <;> simp_all <;> omega
  · rw [← h2, removeEnt_val ind hs]

end VectorOps

/-! ## Lemmas about `mergeRaw` / `mergeVal` -/

section MergeValues

variable {V : Type}

theorem getEnt_tail_of_lt {e : SEntry V} (es : List (SEntry V)) {j : Nat}
    (hlt : e.index < j) : SP.getEnt (e :: es) j = SP.getEnt es j := by
  rw [getEnt_cons, if_neg (by omega)]

theorem mergeRaw_nil2 (ops : VOps V) (s : V) (l1 : List (SEntry V)) (j : Nat) :
    SP.mergeRaw ops s l1 [] j = none := rfl

theorem mergeRaw_of_none {ops : VOps V} {s : V} {l1 l2 : List (SEntry V)}
    {j : Nat} (hg : SP.getEnt l2 j = none) :
    SP.mergeRaw ops s l1 l2 j = none := by
  rw [SP.mergeRaw, hg]

theorem mergeVal_of_none {ops : VOps V} {s : V} {l1 l2 : List (SEntry V)}
    {j : Nat} (hg : SP.getEnt l2 j = none) :
    SP.mergeVal ops s l1 l2 j = SP.getEnt l1 j := by
  rw [SP.mergeVal, mergeRaw_of_none hg]

theorem mergeRaw_at_head (ops : VOps V) (s : V) (l1 : List (SEntry V))
    (e2 : SEntry V) (es2 : List (SEntry V)) :
    SP.mergeRaw ops s l1 (e2 :: es2) e2.index =
      some (match SP.getEnt l1 e2.index with
            | some v1 => ops.vadd v1 (ops.vmul s e2.value)
            | none => ops.vmul s e2.value) := by
  rw [SP.mergeRaw, getEnt_cons, if_pos le_rfl, if_pos rfl]

theorem mergeVal_at_head (ops : VOps V) (s : V) (l1 : List (SEntry V))
    (e2 : SEntry V) (es2 : List (SEntry V)) :
    SP.mergeVal ops s l1 (e2 :: es2) e2.index =
      (let w := match SP.getEnt l1 e2.index with
                | some v1 => ops.vadd v1 (ops.vmul s e2.value)
                | none => ops.vmul s e2.value
       if ops.isZero w then none else some w) := by
  rw [SP.mergeVal, mergeRaw_at_head]

theorem mergeRaw_keep {ops : VOps V} {s : V} {e1 : SEntry V}
    {es1 l2 : List (SEntry V)} (hmin : ∀ f ∈ l2, e1.index < f.index) (j : Nat) :
    SP.mergeRaw ops s (e1 :: es1) l2 j = SP.mergeRaw ops s es1 l2 j := by
  rw [SP.mergeRaw, SP.mergeRaw]
  cases hg : SP.getEnt l2 j with
  | none => rfl
  | some v2 =>
    have hj : e1.index < j := hmin _ (getEnt_mem hg)
    rw [getEnt_tail_of_lt es1 hj]

theorem mergeVal_keep {ops : VOps V} {s : V} {e1 : SEntry V}
    {es1 l2 : List (SEntry V)} (hmin : ∀ f ∈ l2, e1.index < f.index)
    {j : Nat} (hj : e1.index < j) :
    SP.mergeVal ops s (e1 :: es1) l2 j = SP.mergeVal ops s es1 l2 j := by
  rw [SP.mergeVal, SP.mergeVal, mergeRaw_keep hmin]
  cases SP.mergeRaw ops s es1 l2 j with
  | none => simp only []; rw [getEnt_tail_of_lt es1 hj]
  | some w => rfl

theorem mergeRaw_skip2 {ops : VOps V} {s : V} {l1 : List (SEntry V)}
    {e2 : SEntry V} {es2 : List (SEntry V)}
    (hs2 : (e2 :: es2).Pairwise (fun a b => a.index < b.index))
    {j : Nat} (hne : j ≠ e2.index) :
    SP.mergeRaw ops s l1 (e2 :: es2) j = SP.mergeRaw ops s l1 es2 j := by
  rw [SP.mergeRaw, SP.mergeRaw]
  by_cases hj : j ≤ e2.index
  · have h2 : SP.getEnt es2 j = none :=
      getEnt_eq_none_of_forall_lt fun x hx => by
        have := (List.pairwise_cons.mp hs2).1 x hx; omega
    rw [getEnt_cons, if_pos hj, if_neg (by omega), h2]
  · rw [getEnt_cons, if_neg hj]

theorem mergeVal_skip2 {ops : VOps V} {s : V} {l1 : List (SEntry V)}
    {e2 : SEntry V} {es2 : List (SEntry V)}
    (hs2 : (e2 :: es2).Pairwise (fun a b => a.index < b.index))
    {j : Nat} (hne : j ≠ e2.index) :
    SP.mergeVal ops s l1 (e2 :: es2) j = SP.mergeVal ops s l1 es2 j := by
  rw [SP.mergeVal, SP.mergeVal, mergeRaw_skip2 hs2 hne]

theorem mergeRaw_matched {ops : VOps V} {s : V} {e1 : SEntry V}
    {es1 : List (SEntry V)} {e2 : SEntry V} {es2 : List (SEntry V)}
    (hs2 : (e2 :: es2).Pairwise (fun a b => a.index < b.index))
    (heq : e1.index = e2.index) {j : Nat} (hne : j ≠ e2.index) :
    SP.mergeRaw ops s (e1 :: es1) (e2 :: es2) j =
      SP.mergeRaw ops s es1 es2 j := by
  rw [mergeRaw_skip2 hs2 hne]
  exact mergeRaw_keep (fun f hf => by
    have := (List.pairwise_cons.mp hs2).1 f hf; omega) j

theorem mergeVal_matched {ops : VOps V} {s : V} {e1 : SEntry V}
    {es1 : List (SEntry V)} {e2 : SEntry V} {es2 : List (SEntry V)}
    (hs1 : (e1 :: es1).Pairwise (fun a b => a.index < b.index))
    (hs2 : (e2 :: es2).Pairwise (fun a b => a.index < b.index))
    (heq : e1.index = e2.index) {j : Nat} (hne : j ≠ e2.index) :
    SP.mergeVal ops s (e1 :: es1) (e2 :: es2) j =
      SP.mergeVal ops s es1 es2 j := by
  rw [SP.mergeVal, SP.mergeVal, mergeRaw_matched hs2 heq hne]
  cases SP.mergeRaw ops s es1 es2 j with
  | some w => rfl
  | none =>
    simp only []
    by_cases hj : e1.index < j
    · rw [getEnt_tail_of_lt es1 hj]
    · rw [getEnt_cons, if_pos (by omega), if_neg (by omega),
        getEnt_eq_none_of_forall_lt fun x hx => by
          have := (List.pairwise_cons.mp hs1).1 x hx; omega]

end MergeValues

/-! ## The merge specification (`add_m_colrows`) -/

section MergeSpec

variable {V : Type}

/-- Inductive step of the merge specification shared by the two branches
that touch an entry of the second vector (entry creation and matched
indices).  `l1full`/`l1rec` are the first list before the step and the first
list passed to the recursive call; `rest` is the merged remainder delivered
by the recursive call, `v` the value computed for index `e2.index`. -/
theorem addMerge_touch_step {ops : VOps V} {entryMax : Int} {cr_ind1 : Nat}
    {scalar : V} {l1full l1rec rest : List (SEntry V)} {e2 : SEntry V}
    {es2 : List (SEntry V)} {others othersMid others' : List (SVector V)}
    {maxval maxv2 maxval' : Int} {v : V} {ovec : SVector V}
    {l1' : List (SEntry V)}
    (hs2full : (e2 :: es2).Pairwise (fun a b => a.index < b.index))
    (hposfull : ∀ f ∈ (e2 :: es2), 1 ≤ f.index)
    (hsub : ∀ x ∈ l1rec, x ∈ l1full)
    (hbig : ∀ x ∈ l1rec, e2.index < x.index)
    (htrans_raw : ∀ j, j ≠ e2.index →
      SP.mergeRaw ops scalar l1full (e2 :: es2) j =
        SP.mergeRaw ops scalar l1rec es2 j)
    (htrans_val : ∀ j, j ≠ e2.index →
      SP.mergeVal ops scalar l1full (e2 :: es2) j =
        SP.mergeVal ops scalar l1rec es2 j)
    (hhead_raw : SP.mergeRaw ops scalar l1full (e2 :: es2) e2.index = some v)
    (hov : SP.add_v_entry ops (others.getD (e2.index - 1) default) cr_ind1 v =
      some ovec)
    (hmid : othersMid = others.set (e2.index - 1) ovec)
    (hmax2 : maxv2 = if ops.vabs v > maxval then ops.vabs v else maxval)
    (hble : ¬ops.vabs v > entryMax)
    (hout : l1' = if ops.isZero v then rest else ⟨e2.index, v⟩ :: rest)
    (hrecsort : rest.Pairwise (fun a b => a.index < b.index))
    (hrecget : ∀ j, SP.getEnt rest j = SP.mergeVal ops scalar l1rec es2 j)
    (hrecmem : ∀ x ∈ rest, x ∈ l1rec ∨ ∃ f ∈ es2, x.index = f.index)
    (hreclen : others'.length = othersMid.length)
    (hrec6 : ∀ k, k < othersMid.length →
      (match SP.mergeRaw ops scalar l1rec es2 (k + 1) with
       | none => others'.getD k default = othersMid.getD k default
       | some w => SP.add_v_entry ops (othersMid.getD k default) cr_ind1 w =
           some (others'.getD k default)))
    (hrec7 : ∀ j w, SP.mergeRaw ops scalar l1rec es2 j = some w →
      ops.vabs w ≤ entryMax ∧ ops.vabs w ≤ maxval')
    (hrec8 : maxv2 ≤ maxval')
    (hrec9 : maxval' = maxv2 ∨ ∃ f ∈ es2, maxval' =
      ops.vabs ((SP.mergeRaw ops scalar l1rec es2 f.index).getD ops.vzero)) :
    l1'.Pairwise (fun a b => a.index < b.index) ∧
    (∀ j, SP.getEnt l1' j = SP.mergeVal ops scalar l1full (e2 :: es2) j) ∧
    (∀ x ∈ l1', x ∈ l1full ∨ ∃ f ∈ (e2 :: es2), x.index = f.index) ∧
    others'.length = others.length ∧
    (∀ k, k < others.length →
      (match SP.mergeRaw ops scalar l1full (e2 :: es2) (k + 1) with
       | none => others'.getD k default = others.getD k default
       | some w => SP.add_v_entry ops (others.getD k default) cr_ind1 w =
           some (others'.getD k default))) ∧
    (∀ j w, SP.mergeRaw ops scalar l1full (e2 :: es2) j = some w →
      ops.vabs w ≤ entryMax ∧ ops.vabs w ≤ maxval') ∧
    maxval ≤ maxval' ∧
    (maxval' = maxval ∨ ∃ f ∈ (e2 :: es2), maxval' =
      ops.vabs ((SP.mergeRaw ops scalar l1full (e2 :: es2) f.index).getD
        ops.vzero)) := by
  have hes2big : ∀ f ∈ es2, e2.index < f.index :=
    (List.pairwise_cons.mp hs2full).1
  have hrestbig : ∀ x ∈ rest, e2.index < x.index := by
    intro x hx
    rcases hrecmem x hx with h | ⟨f, hf, hxf⟩
    · exact hbig x h
    · rw [hxf]; exact hes2big f hf
  have hrest_none : ∀ j, j ≤ e2.index → SP.getEnt rest j = none := by
    intro j hj
    cases hg : SP.getEnt rest j with
    | none => rfl
    | some w =>
      have := hrestbig _ (getEnt_mem hg)
      simp only [] at this
      omega
  have he2pos : 1 ≤ e2.index := hposfull e2 (List.mem_cons_self _ _)
  refine ⟨?_, ?_, ?_, ?_, ?_, ?_, ?_, ?_⟩
  · -- sortedness of the output list
    rw [hout]
    split
    · exact hrecsort
    · exact List.pairwise_cons.mpr ⟨fun b hb => hrestbig b hb, hrecsort⟩
  · -- the lookup function of the output list
    intro j
    by_cases hj : j = e2.index
    · subst hj
      rw [SP.mergeVal, hhead_raw, hout]
      show SP.getEnt (if ops.isZero v then rest else ⟨e2.index, v⟩ :: rest)
          e2.index = if ops.isZero v then none else some v
      by_cases hz : ops.isZero v
      · rw [if_pos hz, if_pos hz]
        exact hrest_none _ le_rfl
      · rw [if_neg hz, if_neg hz, getEnt_cons, if_pos le_rfl, if_pos rfl]
    · rw [htrans_val j hj, ← hrecget j, hout]
      split
      · rfl
      · by_cases hj2 : j ≤ e2.index
        · rw [getEnt_cons]
          simp only []
          rw [if_pos hj2, if_neg (by omega), hrest_none j hj2]
        · rw [getEnt_cons]
          simp only []
          rw [if_neg hj2]
  · -- membership in the output list
    intro x hx
    rw [hout] at hx
    have hxrest : x ∈ rest → x ∈ l1full ∨ ∃ f ∈ (e2 :: es2), x.index = f.index := by
      intro hxr
      rcases hrecmem x hxr with h | ⟨f, hf, hxf⟩
      · exact Or.inl (hsub x h)
      · exact Or.inr ⟨f, List.mem_cons_of_mem _ hf, hxf⟩
    split at hx
    · exact hxrest hx
    · rcases List.mem_cons.mp hx with h | h
      · exact Or.inr ⟨e2, List.mem_cons_self _ _, by rw [h]⟩
      · exact hxrest h
  · -- orthogonal family length
    rw [hreclen, hmid, List.length_set]
  · -- orthogonal family updates
    intro k hk
    by_cases hke : k + 1 = e2.index
    · have hnone : SP.mergeRaw ops scalar l1rec es2 (k + 1) = none :=
        mergeRaw_of_none (getEnt_eq_none_of_forall_lt fun f hf => by
          have := hes2big f hf; omega)
      have h6 := hrec6 k (by rw [hmid, List.length_set]; exact hk)
      rw [hnone] at h6
      have hkk : k = e2.index - 1 := by omega
      have hml : othersMid.getD k default = ovec := by
        rw [hmid, hkk]
        exact getD_set_self _ _ _ _ (by omega)
      rw [← hke] at hhead_raw
      rw [hhead_raw]
      show SP.add_v_entry ops (others.getD k default) cr_ind1 v =
        some (others'.getD k default)
      rw [h6, hml, hkk]
      exact hov
    · have h6 := hrec6 k (by rw [hmid, List.length_set]; exact hk)
      have hmk : othersMid.getD k default = others.getD k default := by
        rw [hmid]
        exact getD_set_ne _ _ _ _ _ (by omega)
      rw [htrans_raw _ hke]
      cases hr : SP.mergeRaw ops scalar l1rec es2 (k + 1) with
      | none =>
        rw [hr] at h6
        rw [h6, hmk]
      | some w =>
        rw [hr] at h6
        rw [← hmk]
        exact h6
  · -- magnitude bounds for every touched position
    intro j w hw
    by_cases hj : j = e2.index
    · subst hj
      rw [hhead_raw] at hw
      injection hw with hw
      constructor
      · rw [← hw]; omega
      · have h1 : ops.vabs v ≤ maxv2 := by rw [hmax2]; split <;> omega
        rw [← hw]; omega
    · rw [htrans_raw j hj] at hw
      exact hrec7 j w hw
  · -- the running maximum never decreases
    have : maxval ≤ maxv2 := by rw [hmax2]; split <;> omega
    omega
  · -- the running maximum is attained
    rcases hrec9 with h9 | ⟨f, hf, h9⟩
    · rw [hmax2] at h9
      by_cases hvm : ops.vabs v > maxval
      · rw [if_pos hvm] at h9
        refine Or.inr ⟨e2, List.mem_cons_self _ _, ?_⟩
        rw [hhead_raw, h9]
        rfl
      · rw [if_neg hvm] at h9
        exact Or.inl h9
    · refine Or.inr ⟨f, List.mem_cons_of_mem _ hf, ?_⟩
      rw [htrans_raw f.index (by have := hes2big f hf; omega)]
      exact h9

/-- Full specification of a successful run of the merge loop of
`add_m_colrows`: the merged list is sorted and realises `mergeVal`; its
entries come from the first list or sit at indices of the second; the count
accumulator tracks the length change; the orthogonal family is updated by
`add_v_entry` at `cr_ind1` exactly at the indices of the second list, with
the merged raw value; every merged raw value passes the `entryMax` check and
is dominated by the returned maximum, which is the old maximum or the
magnitude of one of the merged values. -/
theorem addMerge_spec {ops : VOps V} {entryMax : Int} {cr_ind1 : Nat}
    {scalar : V} {l1 l2 : List (SEntry V)} {cnt : Int}
    {others : List (SVector V)} {maxval : Int} {l1' : List (SEntry V)}
    {cnt' : Int} {others' : List (SVector V)} {maxval' : Int}
    (h : SP.addMerge ops entryMax cr_ind1 scalar l1 l2 cnt others maxval =
      some (l1', cnt', others', maxval'))
    (hs1 : l1.Pairwise (fun a b => a.index < b.index))
    (hs2 : l2.Pairwise (fun a b => a.index < b.index))
    (hpos : ∀ f ∈ l2, 1 ≤ f.index) :
    l1'.Pairwise (fun a b => a.index < b.index) ∧
    (∀ j, SP.getEnt l1' j = SP.mergeVal ops scalar l1 l2 j) ∧
    (∀ x ∈ l1', x ∈ l1 ∨ ∃ f ∈ l2, x.index = f.index) ∧
    cnt' - cnt = (l1'.length : Int) - l1.length ∧
    others'.length = others.length ∧
    (∀ k, k < others.length →
      (match SP.mergeRaw ops scalar l1 l2 (k + 1) with
       | none => others'.getD k default = others.getD k default
       | some w => SP.add_v_entry ops (others.getD k default) cr_ind1 w =
           some (others'.getD k default))) ∧
    (∀ j w, SP.mergeRaw ops scalar l1 l2 j = some w →
      ops.vabs w ≤ entryMax ∧ ops.vabs w ≤ maxval') ∧
    maxval ≤ maxval' ∧
    (maxval' = maxval ∨ ∃ f ∈ l2, maxval' =
      ops.vabs ((SP.mergeRaw ops scalar l1 l2 f.index).getD ops.vzero)) := by
  cases l2 with
  | nil =>
    simp only [SP.addMerge, Option.some.injEq, Prod.mk.injEq] at h
    obtain ⟨h1, h2, h3, h4⟩ := h
    subst h1; subst h2; subst h3; subst h4
    refine ⟨hs1, ?_, fun x hx => Or.inl hx, by omega, rfl, ?_, ?_, le_rfl,
      Or.inl rfl⟩
    · intro j
      have hz : SP.getEnt ([] : List (SEntry V)) j = none := rfl
      rw [mergeVal_of_none hz]
    · intro k _
      rw [mergeRaw_nil2]
    · intro j w hw
      rw [mergeRaw_nil2] at hw
      cases hw
  | cons e2 es2 =>
    have hs2' := (List.pairwise_cons.mp hs2).2
    have hes2big := (List.pairwise_cons.mp hs2).1
    have hpos' : ∀ f ∈ es2, 1 ≤ f.index :=
      fun f hf => hpos f (List.mem_cons_of_mem _ hf)
    cases l1 with
    | nil =>
      simp only [SP.addMerge] at h
      split at h
      · cases h
      · rename_i hble
        split at h
        · cases h
        · rename_i ovec hov
          have hhead : SP.mergeRaw ops scalar [] (e2 :: es2) e2.index =
              some (ops.vmul scalar e2.value) := by
            rw [mergeRaw_at_head]
            rfl
          split at h
          · rename_i hz
            have IH := addMerge_spec h List.Pairwise.nil hs2' hpos'
            obtain ⟨i1, i2, i3, i4, i5, i6, i7, i8, i9⟩ := IH
            have K := addMerge_touch_step hs2 hpos (fun x hx => hx)
              (fun x hx => by cases hx)
              (fun j hj => mergeRaw_skip2 hs2 hj)
              (fun j hj => mergeVal_skip2 hs2 hj)
              hhead hov rfl rfl hble (if_pos hz).symm i1 i2 i3 i5 i6 i7 i8 i9
            refine ⟨K.1, K.2.1, K.2.2.1, ?_, K.2.2.2⟩
            exact i4
          · rename_i hz
            split at h
            · cases h
            · rename_i l1'' cnt'' o'' m'' hrec
              simp only [Option.some.injEq, Prod.mk.injEq] at h
              obtain ⟨h1, h2, h3, h4⟩ := h
              subst h1; subst h2; subst h3; subst h4
              have IH := addMerge_spec hrec List.Pairwise.nil hs2' hpos'
              obtain ⟨i1, i2, i3, i4, i5, i6, i7, i8, i9⟩ := IH
              have K := addMerge_touch_step hs2 hpos (fun x hx => hx)
                (fun x hx => by cases hx)
                (fun j hj => mergeRaw_skip2 hs2 hj)
                (fun j hj => mergeVal_skip2 hs2 hj)
                hhead hov rfl rfl hble (if_neg hz).symm i1 i2 i3 i5 i6 i7 i8 i9
              refine ⟨K.1, K.2.1, K.2.2.1, ?_, K.2.2.2⟩
              simp only [List.length_cons, List.length_nil] at i4 ⊢
              omega
    | cons e1 es1 =>
      have hs1' := (List.pairwise_cons.mp hs1).2
      have hes1big := (List.pairwise_cons.mp hs1).1
      simp only [SP.addMerge] at h
      split at h
      · -- keep branch: e1.index < e2.index
        rename_i hlt
        split at h
        · cases h
        · rename_i l1'' cnt'' o'' m'' hrec
          simp only [Option.some.injEq, Prod.mk.injEq] at h
          obtain ⟨h1, h2, h3, h4⟩ := h
          subst h1; subst h2; subst h3; subst h4
          have IH := addMerge_spec hrec hs1' hs2 hpos
          obtain ⟨i1, i2, i3, i4, i5, i6, i7, i8, i9⟩ := IH
          have hmin : ∀ f ∈ (e2 :: es2), e1.index < f.index := by
            intro f hf
            rcases List.mem_cons.mp hf with hf | hf
            · rw [hf]; exact hlt
            · have := hes2big f hf; omega
          refine ⟨?_, ?_, ?_, ?_, i5, ?_, ?_, i8, ?_⟩
          · refine List.pairwise_cons.mpr ⟨?_, i1⟩
            intro b hb
            rcases i3 b hb with hbm | ⟨f, hf, hbf⟩
            · exact hes1big b hbm
            · rw [hbf]; exact hmin f hf
          · intro j
            by_cases hj : e1.index < j
            · rw [getEnt_tail_of_lt _ hj, i2 j, mergeVal_keep hmin hj]
            · have hg2 : SP.getEnt (e2 :: es2) j = none :=
                getEnt_eq_none_of_forall_lt fun f hf => by
                  have := hmin f hf; omega
              rw [mergeVal_of_none hg2, getEnt_cons, getEnt_cons,
                if_pos (by omega : j ≤ e1.index), if_pos (by omega : j ≤ e1.index)]
          · intro x hx
            rcases List.mem_cons.mp hx with hx | hx
            · exact Or.inl (by rw [hx]; exact List.mem_cons_self _ _)
            · rcases i3 x hx with hxm | hxr
              · exact Or.inl (List.mem_cons_of_mem _ hxm)
              · exact Or.inr hxr
          · simp only [List.length_cons] at i4 ⊢
            omega
          · intro k hk
            have h6 := i6 k hk
            rw [mergeRaw_keep hmin]
            exact h6
          · intro j w hw
            rw [mergeRaw_keep hmin] at hw
            exact i7 j w hw
          · rcases i9 with h9 | ⟨f, hf, h9⟩
            · exact Or.inl h9
            · refine Or.inr ⟨f, hf, ?_⟩
              rw [mergeRaw_keep hmin]
              exact h9
      · rename_i hnlt
        split at h
        · -- create branch: e2.index < e1.index
          rename_i hlt2
          have hbig : ∀ x ∈ (e1 :: es1), e2.index < x.index := by
            intro x hx
            rcases List.mem_cons.mp hx with hx | hx
            · rw [hx]; exact hlt2
            · have := hes1big x hx; omega
          have hhead : SP.mergeRaw ops scalar (e1 :: es1) (e2 :: es2) e2.index
              = some (ops.vmul scalar e2.value) := by
            have hnone : SP.getEnt (e1 :: es1) e2.index = none := by
              rw [getEnt_cons, if_pos (by omega), if_neg (by omega)]
            rw [mergeRaw_at_head, hnone]
          split at h
          · cases h
          · rename_i hble
            split at h
            · cases h
            · rename_i ovec hov
              split at h
              · rename_i hz
                have IH := addMerge_spec h hs1 hs2' hpos'
                obtain ⟨i1, i2, i3, i4, i5, i6, i7, i8, i9⟩ := IH
                have K := addMerge_touch_step hs2 hpos (fun x hx => hx) hbig
                  (fun j hj => mergeRaw_skip2 hs2 hj)
                  (fun j hj => mergeVal_skip2 hs2 hj)
                  hhead hov rfl rfl hble (if_pos hz).symm i1 i2 i3 i5 i6 i7 i8 i9
                refine ⟨K.1, K.2.1, K.2.2.1, ?_, K.2.2.2⟩
                exact i4
              · rename_i hz
                split at h
                · cases h
                · rename_i l1'' cnt'' o'' m'' hrec
                  simp only [Option.some.injEq, Prod.mk.injEq] at h
                  obtain ⟨h1, h2, h3, h4⟩ := h
                  subst h1; subst h2; subst h3; subst h4
                  have IH := addMerge_spec hrec hs1 hs2' hpos'
                  obtain ⟨i1, i2, i3, i4, i5, i6, i7, i8, i9⟩ := IH
                  have K := addMerge_touch_step hs2 hpos (fun x hx => hx) hbig
                    (fun j hj => mergeRaw_skip2 hs2 hj)
                    (fun j hj => mergeVal_skip2 hs2 hj)
                    hhead hov rfl rfl hble (if_neg hz).symm i1 i2 i3 i5 i6 i7 i8 i9
                  refine ⟨K.1, K.2.1, K.2.2.1, ?_, K.2.2.2⟩
                  simp only [List.length_cons] at i4 ⊢
                  omega
        · -- matched branch: e1.index = e2.index
          rename_i hnlt2
          have heq : e1.index = e2.index := by omega
          have hbig : ∀ x ∈ es1, e2.index < x.index := by
            intro x hx
            have := hes1big x hx; omega
          have hhead : SP.mergeRaw ops scalar (e1 :: es1) (e2 :: es2) e2.index
              = some (ops.vadd e1.value (ops.vmul scalar e2.value)) := by
            have hsome : SP.getEnt (e1 :: es1) e2.index = some e1.value := by
              rw [getEnt_cons, if_pos (by omega), if_pos (by omega)]
            rw [mergeRaw_at_head, hsome]
          split at h
          · cases h
          · rename_i hble
            split at h
            · cases h
            · rename_i ovec hov
              have hov' : SP.add_v_entry ops
                  (others.getD (e2.index - 1) default) cr_ind1
                  (ops.vadd e1.value (ops.vmul scalar e2.value)) = some ovec := by
                rw [← heq]; exact hov
              split at h
              · rename_i hz
                have IH := addMerge_spec h hs1' hs2' hpos'
                obtain ⟨i1, i2, i3, i4, i5, i6, i7, i8, i9⟩ := IH
                have K := addMerge_touch_step hs2 hpos
                  (fun x hx => List.mem_cons_of_mem _ hx) hbig
                  (fun j hj => mergeRaw_matched hs2 heq hj)
                  (fun j hj => mergeVal_matched hs1 hs2 heq hj)
                  hhead hov' (by rw [heq]) rfl hble (if_pos hz).symm
                  i1 i2 i3 i5 i6 i7 i8 i9
                refine ⟨K.1, K.2.1, K.2.2.1, ?_, K.2.2.2⟩
                simp only [List.length_cons] at i4 ⊢
                omega
              · rename_i hz
                split at h
                · cases h
                · rename_i l1'' cnt'' o'' m'' hrec
                  simp only [Option.some.injEq, Prod.mk.injEq] at h
                  obtain ⟨h1, h2, h3, h4⟩ := h
                  subst h1; subst h2; subst h3; subst h4
                  have IH := addMerge_spec hrec hs1' hs2' hpos'
                  obtain ⟨i1, i2, i3, i4, i5, i6, i7, i8, i9⟩ := IH
                  have hout : ((⟨e1.index,
                        ops.vadd e1.value (ops.vmul scalar e2.value)⟩ :
                          SEntry V) :: l1'')
                      = if ops.isZero (ops.vadd e1.value (ops.vmul scalar e2.value))
                        then l1''
                        else ⟨e2.index,
                          ops.vadd e1.value (ops.vmul scalar e2.value)⟩ :: l1'' := by
                    rw [heq, if_neg hz]
                  have K := addMerge_touch_step hs2 hpos
                    (fun x hx => List.mem_cons_of_mem _ hx) hbig
                    (fun j hj => mergeRaw_matched hs2 heq hj)
                    (fun j hj => mergeVal_matched hs1 hs2 heq hj)
                    hhead hov' (by rw [heq]) rfl hble hout
                    i1 i2 i3 i5 i6 i7 i8 i9
                  refine ⟨K.1, K.2.1, K.2.2.1, ?_, K.2.2.2⟩
                  simp only [List.length_cons] at i4 ⊢
                  omega
termination_by l1.length + l2.length

/-- The merge loop succeeds when every merged value passes the `entryMax`
check and every orthogonal vector it must update is not tombstoned. -/
theorem addMerge_isSome {ops : VOps V} {entryMax : Int} {cr_ind1 : Nat}
    {scalar : V} {l1 l2 : List (SEntry V)} (cnt : Int)
    (others : List (SVector V)) (maxval : Int)
    (hs1 : l1.Pairwise (fun a b => a.index < b.index))
    (hs2 : l2.Pairwise (fun a b => a.index < b.index))
    (hpos : ∀ f ∈ l2, 1 ≤ f.index)
    (hbound : ∀ j w, SP.mergeRaw ops scalar l1 l2 j = some w →
      ops.vabs w ≤ entryMax)
    (hlive : ∀ f ∈ l2,
      (others.getD (f.index - 1) default).num_entries ≠ -1) :
    (SP.addMerge ops entryMax cr_ind1 scalar l1 l2 cnt others maxval).isSome := by
  cases l2 with
  | nil => simp [SP.addMerge]
  | cons e2 es2 =>
    have hs2' := (List.pairwise_cons.mp hs2).2
    have hes2big := (List.pairwise_cons.mp hs2).1
    have hpos' : ∀ f ∈ es2, 1 ≤ f.index :=
      fun f hf => hpos f (List.mem_cons_of_mem _ hf)
    have he2pos : 1 ≤ e2.index := hpos e2 (List.mem_cons_self _ _)
    have hlive0 := hlive e2 (List.mem_cons_self _ _)
    -- success and preservation facts for the orthogonal update at the head
    have hsetlive : ∀ ovec, ∀ f ∈ es2,
        (((others.set (e2.index - 1) ovec)).getD (f.index - 1)
          default).num_entries ≠ -1 := by
      intro ovec f hf
      have hgt := hes2big f hf
      rw [getD_set_ne _ _ _ _ _ (by omega)]
      exact hlive f (List.mem_cons_of_mem _ hf)
    cases l1 with
    | nil =>
      have hhead : SP.mergeRaw ops scalar [] (e2 :: es2) e2.index =
          some (ops.vmul scalar e2.value) := by
        rw [mergeRaw_at_head]
        rfl
      have hble : ¬ops.vabs (ops.vmul scalar e2.value) > entryMax := by
        have := hbound _ _ hhead; omega
      obtain ⟨ovec, hov⟩ := Option.isSome_iff_exists.mp
        (add_v_entry_not_deleted ops _ cr_ind1 (ops.vmul scalar e2.value) hlive0)
      have hbound' : ∀ j w, SP.mergeRaw ops scalar [] es2 j = some w →
          ops.vabs w ≤ entryMax := by
        intro j w hw
        by_cases hj : j = e2.index
        · subst hj
          have : SP.getEnt es2 e2.index = none :=
            getEnt_eq_none_of_forall_lt fun f hf => by
              have := hes2big f hf; omega
          rw [SP.mergeRaw, this] at hw
          cases hw
        · exact hbound j w (by rw [mergeRaw_skip2 hs2 hj]; exact hw)
      simp only [SP.addMerge]
      rw [if_neg hble]
      simp only [hov]
      by_cases hz : ops.isZero (ops.vmul scalar e2.value) = true
      · rw [if_pos hz]
        exact addMerge_isSome cnt _ _ List.Pairwise.nil hs2' hpos' hbound'
          (hsetlive ovec)
      · rw [if_neg hz]
        have hrec := @addMerge_isSome ops entryMax cr_ind1 scalar [] es2
            (cnt + 1) (others.set (e2.index - 1) ovec)
            (if ops.vabs (ops.vmul scalar e2.value) > maxval
             then ops.vabs (ops.vmul scalar e2.value) else maxval)
            List.Pairwise.nil hs2' hpos' hbound' (hsetlive ovec)
        obtain ⟨q, hq⟩ := Option.isSome_iff_exists.mp hrec
        obtain ⟨q1, q2, q3, q4⟩ := q
        rw [hq]
        rfl
    | cons e1 es1 =>
      have hs1' := (List.pairwise_cons.mp hs1).2
      have hes1big := (List.pairwise_cons.mp hs1).1
      simp only [SP.addMerge]
      split
      · -- keep branch
        rename_i hlt
        have hmin : ∀ f ∈ (e2 :: es2), e1.index < f.index := by
          intro f hf
          rcases List.mem_cons.mp hf with hf | hf
          · rw [hf]; exact hlt
          · have := hes2big f hf; omega
        have hbound' : ∀ j w, SP.mergeRaw ops scalar es1 (e2 :: es2) j =
            some w → ops.vabs w ≤ entryMax := by
          intro j w hw
          exact hbound j w (by rw [mergeRaw_keep hmin]; exact hw)
        have hrec := @addMerge_isSome ops entryMax cr_ind1 scalar es1
          (e2 :: es2) cnt others maxval hs1' hs2 hpos hbound' hlive
        obtain ⟨q, hq⟩ := Option.isSome_iff_exists.mp hrec
        obtain ⟨q1, q2, q3, q4⟩ := q
        rw [hq]
        rfl
      · rename_i hnlt
        split
        · -- create branch
          rename_i hlt2
          have hhead : SP.mergeRaw ops scalar (e1 :: es1) (e2 :: es2)
              e2.index = some (ops.vmul scalar e2.value) := by
            have hnone : SP.getEnt (e1 :: es1) e2.index = none := by
              rw [getEnt_cons, if_pos (by omega), if_neg (by omega)]
            rw [mergeRaw_at_head, hnone]
          have hble : ¬ops.vabs (ops.vmul scalar e2.value) > entryMax := by
            have := hbound _ _ hhead; omega
          obtain ⟨ovec, hov⟩ := Option.isSome_iff_exists.mp
            (add_v_entry_not_deleted ops _ cr_ind1
              (ops.vmul scalar e2.value) hlive0)
          have hbound' : ∀ j w,
              SP.mergeRaw ops scalar (e1 :: es1) es2 j = some w →
              ops.vabs w ≤ entryMax := by
            intro j w hw
            by_cases hj : j = e2.index
            · subst hj
              have : SP.getEnt es2 e2.index = none :=
                getEnt_eq_none_of_forall_lt fun f hf => by
                  have := hes2big f hf; omega
              rw [SP.mergeRaw, this] at hw
              cases hw
            · exact hbound j w (by rw [mergeRaw_skip2 hs2 hj]; exact hw)
          rw [if_neg hble]
          simp only [hov]
          by_cases hz : ops.isZero (ops.vmul scalar e2.value) = true
          · rw [if_pos hz]
            exact addMerge_isSome cnt _ _ hs1 hs2' hpos' hbound'
              (hsetlive ovec)
          · rw [if_neg hz]
            have hrec := @addMerge_isSome ops entryMax cr_ind1 scalar
              (e1 :: es1) es2 (cnt + 1)
              (others.set (e2.index - 1) ovec)
              (if ops.vabs (ops.vmul scalar e2.value) > maxval
               then ops.vabs (ops.vmul scalar e2.value) else maxval)
              hs1 hs2' hpos' hbound' (hsetlive ovec)
            obtain ⟨q, hq⟩ := Option.isSome_iff_exists.mp hrec
            obtain ⟨q1, q2, q3, q4⟩ := q
            rw [hq]
            rfl
        · -- matched branch
          rename_i hnlt2
          have heq : e1.index = e2.index := by omega
          have hhead : SP.mergeRaw ops scalar (e1 :: es1) (e2 :: es2)
              e2.index = some (ops.vadd e1.value (ops.vmul scalar e2.value)) := by
            have hsome : SP.getEnt (e1 :: es1) e2.index = some e1.value := by
              rw [getEnt_cons, if_pos (by omega), if_pos (by omega)]
            rw [mergeRaw_at_head, hsome]
          have hble : ¬ops.vabs (ops.vadd e1.value (ops.vmul scalar e2.value))
              > entryMax := by
            have := hbound _ _ hhead; omega
          have hlive1 : ((others.getD (e1.index - 1)
              default)).num_entries ≠ -1 := by
            rw [heq]; exact hlive0
          obtain ⟨ovec, hov⟩ := Option.isSome_iff_exists.mp
            (add_v_entry_not_deleted ops _ cr_ind1
              (ops.vadd e1.value (ops.vmul scalar e2.value)) hlive1)
          have hsetlive1 : ∀ f ∈ es2,
              (((others.set (e1.index - 1) ovec)).getD (f.index - 1)
                default).num_entries ≠ -1 := by
            rw [heq]; exact hsetlive ovec
          have hbound' : ∀ j w, SP.mergeRaw ops scalar es1 es2 j = some w →
              ops.vabs w ≤ entryMax := by
            intro j w hw
            by_cases hj : j = e2.index
            · subst hj
              have : SP.getEnt es2 e2.index = none :=
                getEnt_eq_none_of_forall_lt fun f hf => by
                  have := hes2big f hf; omega
              rw [SP.mergeRaw, this] at hw
              cases hw
            · exact hbound j w (by rw [mergeRaw_matched hs2 heq hj]; exact hw)
          rw [if_neg hble]
          simp only [hov]
          by_cases hz : ops.isZero (ops.vadd e1.value (ops.vmul scalar e2.value)) = true
          · rw [if_pos hz]
            exact addMerge_isSome (cnt - 1) _ _ hs1' hs2' hpos' hbound'
              hsetlive1
          · rw [if_neg hz]
            have hrec := @addMerge_isSome ops entryMax cr_ind1 scalar
              es1 es2 cnt
              (others.set (e1.index - 1) ovec)
              (if ops.vabs (ops.vadd e1.value (ops.vmul scalar e2.value)) >
                  maxval
               then ops.vabs (ops.vadd e1.value (ops.vmul scalar e2.value))
               else maxval)
              hs1' hs2' hpos' hbound' hsetlive1
            obtain ⟨q, hq⟩ := Option.isSome_iff_exists.mp hrec
            obtain ⟨q1, q2, q3, q4⟩ := q
            rw [hq]
            rfl
termination_by l1.length + l2.length

end MergeSpec

/-! ## Matrix-level operation lemmas -/

section MatrixOps

variable {V : Type}

theorem getD_mem {α : Type} {l : List α} {k : Nat} (d : α) (h : k < l.length) :
    l.getD k d ∈ l := by
  rw [List.getD_eq_getElem?_getD, List.getElem?_eq_getElem h]
  exact List.getElem_mem h

theorem matWF_row {isZ : V → Bool} {m : SMatrix V} (hwf : MatWF isZ m)
    {r : Nat} (h1 : 1 ≤ r) (h2 : r ≤ m.num_rows) :
    VecWF isZ m.num_cols (m.rows.getD (r - 1) default) :=
  hwf.2.2.1 _ (getD_mem default (by rw [hwf.1]; omega))

theorem matWF_col {isZ : V → Bool} {m : SMatrix V} (hwf : MatWF isZ m)
    {c : Nat} (h1 : 1 ≤ c) (h2 : c ≤ m.num_cols) :
    VecWF isZ m.num_rows (m.columns.getD (c - 1) default) :=
  hwf.2.2.2.1 _ (getD_mem default (by rw [hwf.2.1]; omega))

/-- In a well-formed matrix the row view and the column view agree on every
in-range cell. -/
theorem mirror_get {isZ : V → Bool} {m : SMatrix V} (hwf : MatWF isZ m)
    {r c : Nat} (hr1 : 1 ≤ r) (hr2 : r ≤ m.num_rows) (hc1 : 1 ≤ c)
    (hc2 : c ≤ m.num_cols) : rowGet m r c = colGet m r c := by
  obtain ⟨hrl, hcl, hrwf, hcwf, hm1, hm2⟩ := hwf
  have hre : r - 1 + 1 = r := Nat.sub_add_cancel hr1
  have hce : c - 1 + 1 = c := Nat.sub_add_cancel hc1
  cases hg : rowGet m r c with
  | some v =>
    have hmem := getEnt_mem hg
    have h1 := hm1 (r - 1) (by omega) ⟨c, v⟩ hmem
    simp only [] at h1
    rw [colGet, ← hre]
    exact h1.symm
  | none =>
    cases hg2 : colGet m r c with
    | none => rfl
    | some w =>
      have hmem := getEnt_mem hg2
      have h2 := hm2 (c - 1) (by omega) ⟨r, w⟩ hmem
      simp only [] at h2
      rw [hce] at h2
      rw [rowGet] at hg
      rw [hg] at h2
      cases h2

/-- Digest of a successful `remove_m_entry` (generic): the indices were in
range, well-formedness is preserved, both views lose exactly the (r, c)
cell, and the returned value is the removed one. -/
theorem gremove_m_entry_spec {ops : VOps V} {m m' : SMatrix V} {r c : Nat}
    {val : V} (h : SP.gremove_m_entry ops m r c = some (val, m'))
    (hwf : MatWF ops.isZero m) :
    MatWF ops.isZero m' ∧
    m'.num_rows = m.num_rows ∧ m'.num_cols = m.num_cols ∧
    (∀ r' c', 1 ≤ r' → 1 ≤ c' →
      rowGet m' r' c' = if r' = r ∧ c' = c then none else rowGet m r' c') ∧
    (∀ r' c', 1 ≤ r' → 1 ≤ c' →
      colGet m' r' c' = if r' = r ∧ c' = c then none else colGet m r' c') ∧
    val = (rowGet m r c).getD ops.vzero ∧
    1 ≤ r ∧ r ≤ m.num_rows ∧ 1 ≤ c ∧ c ≤ m.num_cols := by
  rw [SP.gremove_m_entry] at h
  split at h
  · cases h
  rename_i hidx
  rw [not_not] at hidx
  have hranges : 1 ≤ r ∧ r ≤ m.num_rows ∧ 1 ≤ c ∧ c ≤ m.num_cols := by
    simp only [SP.check_m_indices, Bool.and_eq_true, decide_eq_true_eq] at hidx
    omega
  obtain ⟨hr1, hr2, hc1, hc2⟩ := hranges
  have hre : r - 1 + 1 = r := Nat.sub_add_cancel hr1
  have hce : c - 1 + 1 = c := Nat.sub_add_cancel hc1
  obtain ⟨hrl, hcl, hrwf, hcwf, hm1, hm2⟩ := hwf
  have hrowwf := hrwf _ (getD_mem default (show r - 1 < m.rows.length by
    rw [hrl]; omega))
  have hcolwf := hcwf _ (getD_mem default (show c - 1 < m.columns.length by
    rw [hcl]; omega))
  split at h
  · cases h
  rename_i rvec valr? hremr
  split at h
  · cases h
  rename_i cvec valc? hremc
  dsimp only at h
  split at h
  swap
  · cases h
  simp only [Option.some.injEq, Prod.mk.injEq] at h
  obtain ⟨hval, hm'⟩ := h
  subst hm'
  have hrspec := remove_v_entry_spec hremr hrowwf.1
  have hcspec := remove_v_entry_spec hremc hcolwf.1
  -- pointwise characterisation of the two views
  have hrowget : ∀ r' c', 1 ≤ r' → 1 ≤ c' →
      rowGet { m with rows := m.rows.set (r - 1) rvec,
                      columns := m.columns.set (c - 1) cvec } r' c' =
        if r' = r ∧ c' = c then none else rowGet m r' c' := by
    intro r' c' h1' h2'
    by_cases hrr : r' = r
    · subst hrr
      rw [rowGet]
      simp only []
      rw [getD_set_self _ _ _ _ (by rw [hrl]; omega), hrspec.2.1 c']
      by_cases hcc : c' = c
      · rw [if_pos hcc, if_pos (by simp [hcc])]
      · rw [if_neg hcc, if_neg (by tauto)]
        rfl
    · rw [rowGet, rowGet]
      simp only []
      rw [getD_set_ne _ _ _ _ _ (by omega), if_neg (by tauto)]
  have hcolget : ∀ r' c', 1 ≤ r' → 1 ≤ c' →
      colGet { m with rows := m.rows.set (r - 1) rvec,
                      columns := m.columns.set (c - 1) cvec } r' c' =
        if r' = r ∧ c' = c then none else colGet m r' c' := by
    intro r' c' h1' h2'
    by_cases hcc : c' = c
    · subst hcc
      rw [colGet]
      simp only []
      rw [getD_set_self _ _ _ _ (by rw [hcl]; omega), hcspec.2.1 r']
      by_cases hrr : r' = r
      · rw [if_pos hrr, if_pos (by simp [hrr])]
      · rw [if_neg hrr, if_neg (by tauto)]
        rfl
    · rw [colGet, colGet]
      simp only []
      rw [getD_set_ne _ _ _ _ _ (by omega), if_neg (by tauto)]
  -- well-formedness of the two replaced vectors
  have hrvecwf : VecWF ops.isZero m.num_cols rvec := by
    refine ⟨hrspec.1, ?_, ?_, ?_⟩
    · intro e he
      exact hrowwf.2.1 e (hrspec.2.2.1 e he)
    · intro hdel
      have hlen := hrspec.2.2.2.1 (hrowwf.2.2.2 hrspec.2.2.2.2.2)
      rw [hdel] at hlen
      omega
    · intro _
      exact hrspec.2.2.2.1 (hrowwf.2.2.2 hrspec.2.2.2.2.2)
  have hcvecwf : VecWF ops.isZero m.num_rows cvec := by
    refine ⟨hcspec.1, ?_, ?_, ?_⟩
    · intro e he
      exact hcolwf.2.1 e (hcspec.2.2.1 e he)
    · intro hdel
      have hlen := hcspec.2.2.2.1 (hcolwf.2.2.2 hcspec.2.2.2.2.2)
      rw [hdel] at hlen
      omega
    · intro _
      exact hcspec.2.2.2.1 (hcolwf.2.2.2 hcspec.2.2.2.2.2)
  -- the mirror property of the updated matrix
  have hmir1 : ∀ k, k < m.num_rows →
      ∀ e ∈ ((m.rows.set (r - 1) rvec).getD k default).entries,
      SP.getEnt ((m.columns.set (c - 1) cvec).getD (e.index - 1)
        default).entries (k + 1) = some e.value := by
    intro k hk e he
    by_cases hkr : k = r - 1
    · subst hkr
      rw [getD_set_self _ _ _ _ (by rw [hrl]; omega)] at he
      have hge := getEnt_eq_some_of_mem hrspec.1 he
      rw [hrspec.2.1] at hge
      by_cases hec : e.index = c
      · rw [if_pos hec] at hge; cases hge
      · rw [if_neg hec] at hge
        have heold : e ∈ (m.rows.getD (r - 1) default).entries :=
          getEnt_mem hge
        have hei1 : 1 ≤ e.index := (hrowwf.2.1 e heold).1
        rw [getD_set_ne _ _ _ _ _ (by omega)]
        exact hm1 (r - 1) (by omega) e heold
    · rw [getD_set_ne _ _ _ _ _ (by omega)] at he
      have hei1 : 1 ≤ e.index :=
        (hrwf _ (getD_mem default (show k < m.rows.length by
          rw [hrl]; omega)) |>.2.1 e he).1
      by_cases hec : e.index = c
      · have hold := hm1 k hk e he
        rw [hec] at hold ⊢
        rw [getD_set_self _ _ _ _ (by rw [hcl]; omega), hcspec.2.1 (k + 1),
          if_neg (by omega)]
        exact hold
      · rw [getD_set_ne _ _ _ _ _ (by omega)]
        exact hm1 k hk e he
  have hmir2 : ∀ k, k < m.num_cols →
      ∀ e ∈ ((m.columns.set (c - 1) cvec).getD k default).entries,
      SP.getEnt ((m.rows.set (r - 1) rvec).getD (e.index - 1)
        default).entries (k + 1) = some e.value := by
    intro k hk e he
    by_cases hkc : k = c - 1
    · subst hkc
      rw [getD_set_self _ _ _ _ (by rw [hcl]; omega)] at he
      have hge := getEnt_eq_some_of_mem hcspec.1 he
      rw [hcspec.2.1] at hge
      by_cases her : e.index = r
      · rw [if_pos her] at hge; cases hge
      · rw [if_neg her] at hge
        have heold : e ∈ (m.columns.getD (c - 1) default).entries :=
          getEnt_mem hge
        have hei1 : 1 ≤ e.index := (hcolwf.2.1 e heold).1
        rw [getD_set_ne _ _ _ _ _ (by omega)]
        exact hm2 (c - 1) (by omega) e heold
    · rw [getD_set_ne _ _ _ _ _ (by omega)] at he
      have hei1 : 1 ≤ e.index :=
        (hcwf _ (getD_mem default (show k < m.columns.length by
          rw [hcl]; omega)) |>.2.1 e he).1
      by_cases her : e.index = r
      · have hold := hm2 k hk e he
        rw [her] at hold ⊢
        rw [getD_set_self _ _ _ _ (by rw [hrl]; omega), hrspec.2.1 (k + 1),
          if_neg (by omega)]
        exact hold
      · rw [getD_set_ne _ _ _ _ _ (by omega)]
        exact hm2 k hk e he
  refine ⟨⟨by simp [hrl], by simp [hcl], ?_, ?_, hmir1, hmir2⟩,
    rfl, rfl, hrowget, hcolget, ?_, hr1, hr2, hc1, hc2⟩
  · intro vec hvec
    rcases List.mem_or_eq_of_mem_set hvec with hvec | hvec
    · exact hrwf vec hvec
    · rw [hvec]; exact hrvecwf
  · intro vec hvec
    rcases List.mem_or_eq_of_mem_set hvec with hvec | hvec
    · exact hcwf vec hvec
    · rw [hvec]; exact hcvecwf
  · rw [← hval, hrspec.2.2.2.2.1, rowGet]

/-- Digest of a successful `add_m_entry` (generic): the indices were in
range, the value passed the magnitude check, well-formedness is preserved,
and both views change exactly at the (r, c) cell (a zero value erases the
cell, a non-zero value stores it). -/
theorem gadd_m_entry_spec {ops : VOps V} {entryMax : Int} {m m' : SMatrix V}
    {r c : Nat} {val : V}
    (h : SP.gadd_m_entry ops entryMax m r c val = some m')
    (hwf : MatWF ops.isZero m) :
    MatWF ops.isZero m' ∧
    m'.num_rows = m.num_rows ∧ m'.num_cols = m.num_cols ∧
    (∀ r' c', 1 ≤ r' → 1 ≤ c' →
      rowGet m' r' c' = if r' = r ∧ c' = c
        then (if ops.isZero val then none else some val)
        else rowGet m r' c') ∧
    (∀ r' c', 1 ≤ r' → 1 ≤ c' →
      colGet m' r' c' = if r' = r ∧ c' = c
        then (if ops.isZero val then none else some val)
        else colGet m r' c') ∧
    ops.vabs val ≤ entryMax ∧
    1 ≤ r ∧ r ≤ m.num_rows ∧ 1 ≤ c ∧ c ≤ m.num_cols := by
  rw [SP.gadd_m_entry] at h
  split at h
  · cases h
  rename_i hidx
  rw [not_not] at hidx
  split at h
  · cases h
  rename_i hble
  have hranges : 1 ≤ r ∧ r ≤ m.num_rows ∧ 1 ≤ c ∧ c ≤ m.num_cols := by
    simp only [SP.check_m_indices, Bool.and_eq_true, decide_eq_true_eq] at hidx
    omega
  obtain ⟨hr1, hr2, hc1, hc2⟩ := hranges
  split at h
  · -- zero value: delegate to remove_m_entry
    rename_i hz
    cases hgr : SP.gremove_m_entry ops m r c with
    | none => rw [hgr] at h; cases h
    | some p =>
      rw [hgr] at h
      injection h with h
      have hspec := @gremove_m_entry_spec _ _ _ p.2 _ _ p.1
        (by rw [hgr]) hwf
      subst h
      refine ⟨hspec.1, hspec.2.1, hspec.2.2.1, ?_, ?_, by omega,
        hr1, hr2, hc1, hc2⟩
      · intro r' c' h1' h2'
        rw [hspec.2.2.2.1 r' c' h1' h2', if_pos hz]
      · intro r' c' h1' h2'
        rw [hspec.2.2.2.2.1 r' c' h1' h2', if_pos hz]
  · -- non-zero value: insert into the row and the column list
    rename_i hz
    split at h
    · cases h
    rename_i rvec hra
    split at h
    · cases h
    rename_i cvec hca
    injection h with h
    subst h
    have hre : r - 1 + 1 = r := Nat.sub_add_cancel hr1
    have hce : c - 1 + 1 = c := Nat.sub_add_cancel hc1
    obtain ⟨hrl, hcl, hrwf, hcwf, hm1, hm2⟩ := hwf
    have hrowwf := hrwf _ (getD_mem default (show r - 1 < m.rows.length by
      rw [hrl]; omega))
    have hcolwf := hcwf _ (getD_mem default (show c - 1 < m.columns.length by
      rw [hcl]; omega))
    have hrspec := add_v_entry_spec hra hrowwf.1
    have hcspec := add_v_entry_spec hca hcolwf.1
    have hzf : ops.isZero val = false := by
      cases hq : ops.isZero val
      · rfl
      · exact absurd hq hz
    have hrowget : ∀ r' c', 1 ≤ r' → 1 ≤ c' →
        rowGet { m with rows := m.rows.set (r - 1) rvec,
                        columns := m.columns.set (c - 1) cvec } r' c' =
          if r' = r ∧ c' = c then some val else rowGet m r' c' := by
      intro r' c' h1' h2'
      by_cases hrr : r' = r
      · subst hrr
        rw [rowGet]
        simp only []
        rw [getD_set_self _ _ _ _ (by rw [hrl]; omega), hrspec.2.1 c']
        by_cases hcc : c' = c
        · rw [if_pos hcc, if_neg (show ¬ops.isZero val = true by simp [hzf])]
          simp [hcc]
        · rw [if_neg hcc, if_neg (by tauto)]
          rfl
      · rw [rowGet, rowGet]
        simp only []
        rw [getD_set_ne _ _ _ _ _ (by omega), if_neg (by tauto)]
    have hcolget : ∀ r' c', 1 ≤ r' → 1 ≤ c' →
        colGet { m with rows := m.rows.set (r - 1) rvec,
                        columns := m.columns.set (c - 1) cvec } r' c' =
          if r' = r ∧ c' = c then some val else colGet m r' c' := by
      intro r' c' h1' h2'
      by_cases hcc : c' = c
      · subst hcc
        rw [colGet]
        simp only []
        rw [getD_set_self _ _ _ _ (by rw [hcl]; omega), hcspec.2.1 r']
        by_cases hrr : r' = r
        · rw [if_pos hrr, if_neg (show ¬ops.isZero val = true by simp [hzf])]
          simp [hrr]
        · rw [if_neg hrr, if_neg (by tauto)]
          rfl
      · rw [colGet, colGet]
        simp only []
        rw [getD_set_ne _ _ _ _ _ (by omega), if_neg (by tauto)]
    have hrvecwf : VecWF ops.isZero m.num_cols rvec := by
      refine ⟨hrspec.1, ?_, ?_, ?_⟩
      · intro e he
        rcases hrspec.2.2.1 e he with hold | hnew
        · exact hrowwf.2.1 e hold
        · rw [hnew]
          exact ⟨hc1, hc2, hzf⟩
      · intro hdel
        have hlen := hrspec.2.2.2.1 (hrowwf.2.2.2 hrspec.2.2.2.2)
        rw [hdel] at hlen
        omega
      · intro _
        exact hrspec.2.2.2.1 (hrowwf.2.2.2 hrspec.2.2.2.2)
    have hcvecwf : VecWF ops.isZero m.num_rows cvec := by
      refine ⟨hcspec.1, ?_, ?_, ?_⟩
      · intro e he
        rcases hcspec.2.2.1 e he with hold | hnew
        · exact hcolwf.2.1 e hold
        · rw [hnew]
          exact ⟨hr1, hr2, hzf⟩
      · intro hdel
        have hlen := hcspec.2.2.2.1 (hcolwf.2.2.2 hcspec.2.2.2.2)
        rw [hdel] at hlen
        omega
      · intro _
        exact hcspec.2.2.2.1 (hcolwf.2.2.2 hcspec.2.2.2.2)
    have hmir1 : ∀ k, k < m.num_rows →
        ∀ e ∈ ((m.rows.set (r - 1) rvec).getD k default).entries,
        SP.getEnt ((m.columns.set (c - 1) cvec).getD (e.index - 1)
          default).entries (k + 1) = some e.value := by
      intro k hk e he
      by_cases hkr : k = r - 1
      · subst hkr
        rw [getD_set_self _ _ _ _ (by rw [hrl]; omega)] at he
        have hge := getEnt_eq_some_of_mem hrspec.1 he
        rw [hrspec.2.1] at hge
        by_cases hec : e.index = c
        · rw [if_pos hec, hzf] at hge
          injection hge with hge
          rw [hec, getD_set_self _ _ _ _ (by rw [hcl]; omega),
            hcspec.2.1 (r - 1 + 1), hre, if_pos rfl, hzf, hge]
          rfl
        · rw [if_neg hec] at hge
          have heold : e ∈ (m.rows.getD (r - 1) default).entries :=
            getEnt_mem hge
          have hei1 : 1 ≤ e.index := (hrowwf.2.1 e heold).1
          rw [getD_set_ne _ _ _ _ _ (by omega)]
          exact hm1 (r - 1) (by omega) e heold
      · rw [getD_set_ne _ _ _ _ _ (by omega)] at he
        have hei1 : 1 ≤ e.index :=
          (hrwf _ (getD_mem default (show k < m.rows.length by
            rw [hrl]; omega)) |>.2.1 e he).1
        by_cases hec : e.index = c
        · have hold := hm1 k hk e he
          rw [hec] at hold ⊢
          rw [getD_set_self _ _ _ _ (by rw [hcl]; omega), hcspec.2.1 (k + 1),
            if_neg (by omega)]
          exact hold
        · rw [getD_set_ne _ _ _ _ _ (by omega)]
          exact hm1 k hk e he
    have hmir2 : ∀ k, k < m.num_cols →
        ∀ e ∈ ((m.columns.set (c - 1) cvec).getD k default).entries,
        SP.getEnt ((m.rows.set (r - 1) rvec).getD (e.index - 1)
          default).entries (k + 1) = some e.value := by
      intro k hk e he
      by_cases hkc : k = c - 1
      · subst hkc
        rw [getD_set_self _ _ _ _ (by rw [hcl]; omega)] at he
        have hge := getEnt_eq_some_of_mem hcspec.1 he
        rw [hcspec.2.1] at hge
        by_cases her : e.index = r
        · rw [if_pos her, hzf] at hge
          injection hge with hge
          rw [her, getD_set_self _ _ _ _ (by rw [hrl]; omega),
            hrspec.2.1 (c - 1 + 1), hce, if_pos rfl, hzf, hge]
          rfl
        · rw [if_neg her] at hge
          have heold : e ∈ (m.columns.getD (c - 1) default).entries :=
            getEnt_mem hge
          have hei1 : 1 ≤ e.index := (hcolwf.2.1 e heold).1
          rw [getD_set_ne _ _ _ _ _ (by omega)]
          exact hm2 (c - 1) (by omega) e heold
      · rw [getD_set_ne _ _ _ _ _ (by omega)] at he
        have hei1 : 1 ≤ e.index :=
          (hcwf _ (getD_mem default (show k < m.columns.length by
            rw [hcl]; omega)) |>.2.1 e he).1
        by_cases her : e.index = r
        · have hold := hm2 k hk e he
          rw [her] at hold ⊢
          rw [getD_set_self _ _ _ _ (by rw [hrl]; omega), hrspec.2.1 (k + 1),
            if_neg (by omega)]
          exact hold
        · rw [getD_set_ne _ _ _ _ _ (by omega)]
          exact hm2 k hk e he
    refine ⟨⟨by simp [hrl], by simp [hcl], ?_, ?_, hmir1, hmir2⟩,
      rfl, rfl, ?_, ?_, by omega, hr1, hr2, hc1, hc2⟩
    · intro vec hvec
      rcases List.mem_or_eq_of_mem_set hvec with hvec | hvec
      · exact hrwf vec hvec
      · rw [hvec]; exact hrvecwf
    · intro vec hvec
      rcases List.mem_or_eq_of_mem_set hvec with hvec | hvec
      · exact hcwf vec hvec
      · rw [hvec]; exact hcvecwf
    · intro r' c' h1' h2'
      rw [hrowget r' c' h1' h2',
        if_neg (show ¬ops.isZero val = true by simp [hzf])]
    · intro r' c' h1' h2'
      rw [hcolget r' c' h1' h2',
        if_neg (show ¬ops.isZero val = true by simp [hzf])]

end MatrixOps

/-! ### Matrix-level specifications: erasing and merging whole rows/columns -/

section MatrixOps2

variable {V : Type}

theorem mergeRaw_eq_cellRaw (ops : VOps V) (s : V) (l1 l2 : List (SEntry V))
    (j : Nat) : SP.mergeRaw ops s l1 l2 j =
      SP.mergedCellRaw ops s (SP.getEnt l1 j) (SP.getEnt l2 j) := rfl

theorem mergeVal_eq_cell (ops : VOps V) (s : V) (l1 l2 : List (SEntry V))
    (j : Nat) : SP.mergeVal ops s l1 l2 j =
      SP.mergedCell ops s (SP.getEnt l1 j) (SP.getEnt l2 j) := rfl

/-- In a well-formed matrix the row view and the column view agree on every
cell with positive indices (out-of-range cells are empty in both views). -/
theorem rowGet_eq_colGet {isZ : V → Bool} {m : SMatrix V}
    (hwf : MatWF isZ m) {r c : Nat} (hr : 1 ≤ r) (hc : 1 ≤ c) :
    rowGet m r c = colGet m r c := by
  by_cases hr2 : r ≤ m.num_rows
  · by_cases hc2 : c ≤ m.num_cols
    · exact mirror_get hwf hr hr2 hc hc2
    · -- the column index is out of range: both views are empty
      have hrow : rowGet m r c = none := by
        by_cases hrr : r - 1 < m.rows.length
        · have hvwf := hwf.2.2.1 _ (getD_mem default hrr)
          exact getEnt_eq_none_of_not_mem
            (fun e he => by have := (hvwf.2.1 e he).2.1; omega)
        · rw [rowGet, List.getD_eq_default _ _ (by omega)]
          rfl
      have hcol : colGet m r c = none := by
        rw [colGet, List.getD_eq_default _ _ (by rw [hwf.2.1]; omega)]
        rfl
      rw [hrow, hcol]
  · -- the row index is out of range: both views are empty
    have hrow : rowGet m r c = none := by
      rw [rowGet, List.getD_eq_default _ _ (by rw [hwf.1]; omega)]
      rfl
    have hcol : colGet m r c = none := by
      by_cases hcc : c - 1 < m.columns.length
      · have hvwf := hwf.2.2.2.1 _ (getD_mem default hcc)
        exact getEnt_eq_none_of_not_mem
          (fun e he => by have := (hvwf.2.1 e he).2.1; omega)
      · rw [colGet, List.getD_eq_default _ _ (by omega)]
        rfl
    rw [hrow, hcol]

/-- Bilateral consistency follows from the two views agreeing pointwise,
given sorted entry lists with positive indices. -/
theorem mirror_of_get_eq {m : SMatrix V}
    (hrl : m.rows.length = m.num_rows) (hcl : m.columns.length = m.num_cols)
    (hr : ∀ vec ∈ m.rows, vec.entries.Pairwise (fun a b => a.index < b.index) ∧
      ∀ e ∈ vec.entries, 1 ≤ e.index)
    (hc : ∀ vec ∈ m.columns,
      vec.entries.Pairwise (fun a b => a.index < b.index) ∧
      ∀ e ∈ vec.entries, 1 ≤ e.index)
    (hge : ∀ r c, 1 ≤ r → 1 ≤ c → rowGet m r c = colGet m r c) : Mirror m := by
  constructor
  · intro k hk e he
    have hvec := hr _ (getD_mem default (by omega : k < m.rows.length))
    have hg : rowGet m (k + 1) e.index = some e.value := by
      rw [rowGet]
      simp only [Nat.add_sub_cancel]
      exact getEnt_eq_some_of_mem hvec.1 he
    have := hge (k + 1) e.index (by omega) (hvec.2 e he)
    rw [hg] at this
    rw [colGet] at this
    exact this.symm
  · intro k hk e he
    have hvec := hc _ (getD_mem default (by omega : k < m.columns.length))
    have hg : colGet m e.index (k + 1) = some e.value := by
      rw [colGet]
      simp only [Nat.add_sub_cancel]
      exact getEnt_eq_some_of_mem hvec.1 he
    have := hge e.index (k + 1) (hvec.2 e he) (by omega)
    rw [hg] at this
    rw [rowGet] at this
    exact this

theorem mem_exists_getD {α : Type} {l : List α} {a : α} (d : α) (h : a ∈ l) :
    ∃ k, k < l.length ∧ l.getD k d = a := by
  obtain ⟨n, hn⟩ := List.mem_iff_get.mp h
  refine ⟨n.1, n.2, ?_⟩
  rw [List.getD_eq_getElem?_getD, List.getElem?_eq_getElem n.2]
  exact hn

/-- Digest of a successful run of the loop of `erase_m_colrow`: the
orthogonal family keeps its length, the count drops by one per entry, the
vectors at untouched positions are unchanged, and each entry's position
holds exactly the result of removing the mirror entry. -/
theorem eraseLoop_spec {ops : VOps V} {cr_ind : Nat} {l : List (SEntry V)}
    {cnt : Int} {others : List (SVector V)} {cnt' : Int}
    {others' : List (SVector V)}
    (h : SP.eraseLoop ops cr_ind l cnt others = some (cnt', others'))
    (hs : l.Pairwise (fun a b => a.index < b.index))
    (hrange : ∀ e ∈ l, 1 ≤ e.index ∧ e.index - 1 < others.length) :
    others'.length = others.length ∧
    cnt' = cnt - l.length ∧
    (∀ k, k < others.length → (∀ e ∈ l, e.index ≠ k + 1) →
      others'.getD k default = others.getD k default) ∧
    (∀ e ∈ l, ∃ val?, SP.remove_v_entry (others.getD (e.index - 1) default)
        cr_ind = some (others'.getD (e.index - 1) default, val?) ∧
      ops.beqv (val?.getD ops.vzero) e.value = true) := by
  cases l with
  | nil =>
    simp only [SP.eraseLoop, Option.some.injEq, Prod.mk.injEq] at h
    obtain ⟨h1, h2⟩ := h
    subst h1; subst h2
    exact ⟨rfl, by simp, fun k _ _ => rfl,
      fun e he => absurd he (List.not_mem_nil e)⟩
  | cons e es =>
    cases hrm : SP.remove_v_entry (others.getD (e.index - 1) default) cr_ind with
    | none => simp only [SP.eraseLoop, hrm] at h; cases h
    | some p =>
      obtain ⟨ovec, val?⟩ := p
      simp only [SP.eraseLoop, hrm] at h
      by_cases hbq : ops.beqv (val?.getD ops.vzero) e.value = true
      · rw [if_pos hbq] at h
        have hs' := (List.pairwise_cons.mp hs).2
        have hgt := (List.pairwise_cons.mp hs).1
        have he1 := (hrange e (List.mem_cons_self _ _)).1
        have hek := (hrange e (List.mem_cons_self _ _)).2
        have hrange' : ∀ f ∈ es, 1 ≤ f.index ∧
            f.index - 1 < (others.set (e.index - 1) ovec).length := by
          intro f hf
          rw [List.length_set]
          exact hrange f (List.mem_cons_of_mem _ hf)
        obtain ⟨i1, i2, i3, i4⟩ := eraseLoop_spec h hs' hrange'
        rw [List.length_set] at i1 i3
        refine ⟨i1, ?_, ?_, ?_⟩
        · rw [i2]
          simp only [List.length_cons]
          push_cast
          ring
        · intro k hk hne
          have h3 := i3 k hk (fun f hf => hne f (List.mem_cons_of_mem _ hf))
          have hne_e := hne e (List.mem_cons_self _ _)
          rw [h3, getD_set_ne _ _ _ _ _ (by omega)]
        · intro f hf
          rcases List.mem_cons.mp hf with hfe | hfe
          · subst hfe
            refine ⟨val?, ?_, hbq⟩
            have hunt := i3 (f.index - 1) hek
              (fun f' hf' => by have := hgt f' hf'; omega)
            rw [hunt, getD_set_self _ _ _ _ hek]
            exact hrm
          · have hf1 := (hrange f (List.mem_cons_of_mem _ hfe)).1
            have hgtf := hgt f hfe
            have h4 := i4 f hfe
            rw [getD_set_ne _ _ _ _ _ (by omega)] at h4
            exact h4
      · rw [if_neg hbq] at h; cases h

/-- Digest of a successful `erase_m_row` (generic): the index was in range,
well-formedness is preserved, row `r` becomes empty (tombstoned when
`do_del` is set), every cell of row `r` disappears from both views, all
other cells are untouched, and no column changes its tombstone status. -/
theorem gerase_m_row_spec {ops : VOps V} {m m' : SMatrix V} {r : Nat}
    {do_del : Bool} (h : SP.gerase_m_row ops m r do_del = some m')
    (hwf : MatWF ops.isZero m) :
    MatWF ops.isZero m' ∧
    m'.num_rows = m.num_rows ∧ m'.num_cols = m.num_cols ∧
    (∀ r' c', 1 ≤ r' → 1 ≤ c' →
      rowGet m' r' c' = if r' = r then none else rowGet m r' c') ∧
    (∀ r' c', 1 ≤ r' → 1 ≤ c' →
      colGet m' r' c' = if r' = r then none else colGet m r' c') ∧
    (m'.rows.getD (r - 1) default).num_entries =
      (if do_del then (-1 : Int) else 0) ∧
    (∀ k, ((m'.columns.getD k default).num_entries = -1 ↔
      (m.columns.getD k default).num_entries = -1)) ∧
    1 ≤ r ∧ r ≤ m.num_rows := by
  have hwf0 := hwf
  rw [SP.gerase_m_row] at h
  split at h
  · cases h
  rename_i hidx
  rw [not_not] at hidx
  have hranges : 1 ≤ r ∧ r ≤ m.num_rows ∧ 1 ≤ m.num_cols := by
    simp only [SP.check_m_indices, Bool.and_eq_true, decide_eq_true_eq] at hidx
    omega
  obtain ⟨hr1, hr2, hnc1⟩ := hranges
  obtain ⟨hrl, hcl, hrwf, hcwf, hm1, hm2⟩ := hwf
  have hre : r - 1 + 1 = r := Nat.sub_add_cancel hr1
  have hrlt : r - 1 < m.rows.length := by rw [hrl]; omega
  have hrowwf := hrwf _ (getD_mem default hrlt)
  cases herc : SP.erase_m_colrow ops (m.rows.getD (r - 1) default) r
      m.columns do_del with
  | none => rw [herc] at h; cases h
  | some p =>
    obtain ⟨rvec, cols'⟩ := p
    rw [herc] at h
    injection h with h
    subst h
    rw [SP.erase_m_colrow] at herc
    split at herc
    · cases herc
    rename_i hlive
    cases hel : SP.eraseLoop ops r (m.rows.getD (r - 1) default).entries
        (m.rows.getD (r - 1) default).num_entries m.columns with
    | none => rw [hel] at herc; cases herc
    | some q =>
      obtain ⟨cnt, others'⟩ := q
      simp only [hel] at herc
      by_cases hcnt : cnt = 0
      case neg => rw [if_neg hcnt] at herc; cases herc
      case pos =>
        rw [if_pos hcnt] at herc
        injection herc with herc
        rw [Prod.mk.injEq] at herc
        obtain ⟨hv, hc⟩ := herc
        subst hc
        subst hv
        have hrange : ∀ e ∈ (m.rows.getD (r - 1) default).entries,
            1 ≤ e.index ∧ e.index - 1 < m.columns.length := by
          intro e he
          have := hrowwf.2.1 e he
          rw [hcl]
          omega
        obtain ⟨i1, i2, i3, i4⟩ := eraseLoop_spec hel hrowwf.1 hrange
        have htcol : ∀ e ∈ (m.rows.getD (r - 1) default).entries,
            (others'.getD (e.index - 1) default).entries.Pairwise
              (fun a b => a.index < b.index) ∧
            (∀ j, SP.getEnt (others'.getD (e.index - 1) default).entries j =
              if j = r then none
              else SP.getEnt
                (m.columns.getD (e.index - 1) default).entries j) ∧
            (∀ x ∈ (others'.getD (e.index - 1) default).entries,
              x ∈ (m.columns.getD (e.index - 1) default).entries) ∧
            (others'.getD (e.index - 1) default).num_entries =
              ((others'.getD (e.index - 1) default).entries.length : Int) ∧
            (m.columns.getD (e.index - 1) default).num_entries ≠ -1 := by
          intro e he
          obtain ⟨val?, hrm, _⟩ := i4 e he
          have hcwfe := hcwf _ (getD_mem default ((hrange e he).2))
          have hsp := remove_v_entry_spec hrm hcwfe.1
          exact ⟨hsp.1, hsp.2.1, hsp.2.2.1,
            hsp.2.2.2.1 (hcwfe.2.2.2 hsp.2.2.2.2.2), hsp.2.2.2.2.2⟩
        have hrowget : ∀ r' c', 1 ≤ r' → 1 ≤ c' →
            rowGet { m with
                rows := m.rows.set (r - 1)
                  ⟨if do_del then (-1 : Int) else 0, []⟩,
                columns := others' } r' c' =
            if r' = r then none else rowGet m r' c' := by
          intro r' c' h1' h2'
          by_cases hrr : r' = r
          · rw [if_pos hrr, rowGet]
            simp only []
            rw [hrr, getD_set_self _ _ _ _ hrlt]
            rfl
          · rw [if_neg hrr, rowGet, rowGet]
            simp only []
            rw [getD_set_ne _ _ _ _ _ (by omega)]
        have hcolget : ∀ r' c', 1 ≤ r' → 1 ≤ c' →
            colGet { m with
                rows := m.rows.set (r - 1)
                  ⟨if do_del then (-1 : Int) else 0, []⟩,
                columns := others' } r' c' =
            if r' = r then none else colGet m r' c' := by
          intro r' c' h1' h2'
          show SP.getEnt (others'.getD (c' - 1) default).entries r' = _
          by_cases hck : c' - 1 < m.columns.length
          · by_cases htch : ∃ e ∈ (m.rows.getD (r - 1) default).entries,
                e.index = c'
            · obtain ⟨e, he, hei⟩ := htch
              have hd := (htcol e he).2.1 r'
              rw [hei] at hd
              rw [hd]
              by_cases hrr : r' = r
              · rw [if_pos hrr, if_pos hrr]
              · rw [if_neg hrr, if_neg hrr]
                rfl
            · push_neg at htch
              have hunt := i3 (c' - 1) hck (fun e he => by
                have h1 := (hrange e he).1
                have h2 := htch e he
                omega)
              rw [hunt]
              by_cases hrr : r' = r
              · rw [if_pos hrr]
                cases hg : SP.getEnt
                    (m.columns.getD (c' - 1) default).entries r' with
                | none => rfl
                | some w =>
                  have hmem := getEnt_mem hg
                  have hmir := hm2 (c' - 1) (by omega) ⟨r', w⟩ hmem
                  simp only [] at hmir
                  rw [Nat.sub_add_cancel h2'] at hmir
                  rw [hrr] at hmir
                  have hcon := htch ⟨c', w⟩ (getEnt_mem hmir)
                  simp at hcon
              · rw [if_neg hrr]
                rfl
          · have hd1 : others'.getD (c' - 1) default = default := by
              apply List.getD_eq_default
              rw [i1]; omega
            have hnone : colGet m r' c' = none := by
              rw [colGet, List.getD_eq_default _ _ (by omega)]
              rfl
            rw [hd1, hnone, ite_self]
            rfl
        have hnewvec : VecWF ops.isZero m.num_cols
            (⟨if do_del then (-1 : Int) else 0, []⟩ : SVector V) := by
          refine ⟨List.Pairwise.nil, ?_, fun _ => rfl, ?_⟩
          · intro e he; cases he
          · intro hne
            cases do_del <;> simp_all
        have hrowswf : ∀ vec ∈ m.rows.set (r - 1)
            (⟨if do_del then (-1 : Int) else 0, []⟩ : SVector V),
            VecWF ops.isZero m.num_cols vec := by
          intro vec hv
          rcases List.mem_or_eq_of_mem_set hv with hv | hv
          · exact hrwf vec hv
          · rw [hv]; exact hnewvec
        have hcolswf : ∀ vec ∈ others', VecWF ops.isZero m.num_rows vec := by
          intro vec hv
          obtain ⟨k, hk, hkv⟩ := mem_exists_getD default hv
          rw [i1] at hk
          rw [← hkv]
          by_cases htch : ∃ e ∈ (m.rows.getD (r - 1) default).entries,
              e.index = k + 1
          · obtain ⟨e, he, hei⟩ := htch
            have hcd := htcol e he
            rw [hei] at hcd
            simp only [Nat.add_sub_cancel] at hcd
            have hcwfe := hcwf _ (getD_mem default hk)
            refine ⟨hcd.1, ?_, ?_, fun _ => hcd.2.2.2.1⟩
            · intro x hx
              exact hcwfe.2.1 x (hcd.2.2.1 x hx)
            · intro habs
              rw [habs] at hcd
              have := hcd.2.2.2.1
              omega
          · push_neg at htch
            have hunt := i3 k hk (fun e he => by
              have h1 := (hrange e he).1
              have h2 := htch e he
              omega)
            rw [hunt]
            exact hcwf _ (getD_mem default hk)
        have hmirror : Mirror { m with
            rows := m.rows.set (r - 1)
              ⟨if do_del then (-1 : Int) else 0, []⟩,
            columns := others' } := by
          apply mirror_of_get_eq
          · simpa using hrl
          · show others'.length = m.num_cols
            rw [i1]; exact hcl
          · intro vec hv
            have := hrowswf vec hv
            exact ⟨this.1, fun e he => (this.2.1 e he).1⟩
          · intro vec hv
            have := hcolswf vec hv
            exact ⟨this.1, fun e he => (this.2.1 e he).1⟩
          · intro r' c' h1' h2'
            rw [hrowget r' c' h1' h2', hcolget r' c' h1' h2']
            by_cases hrr : r' = r
            · rw [if_pos hrr, if_pos hrr]
            · rw [if_neg hrr, if_neg hrr]
              exact rowGet_eq_colGet hwf0 h1' h2'
        refine ⟨⟨by simpa using hrl,
            (by rw [i1]; exact hcl : others'.length = m.num_cols),
            hrowswf, hcolswf, hmirror⟩,
          rfl, rfl, hrowget, hcolget, ?_, ?_, hr1, hr2⟩
        · show ((m.rows.set (r - 1)
            (⟨if do_del then (-1 : Int) else 0, []⟩ : SVector V)).getD
              (r - 1) default).num_entries = _
          rw [getD_set_self _ _ _ _ hrlt]
        · intro k
          show ((others'.getD k default).num_entries = -1 ↔ _)
          by_cases hk : k < m.columns.length
          · by_cases htch : ∃ e ∈ (m.rows.getD (r - 1) default).entries,
                e.index = k + 1
            · obtain ⟨e, he, hei⟩ := htch
              have hcd := htcol e he
              rw [hei] at hcd
              simp only [Nat.add_sub_cancel] at hcd
              constructor
              · intro habs
                rw [habs] at hcd
                have := hcd.2.2.2.1
                omega
              · intro habs
                exact absurd habs hcd.2.2.2.2
            · push_neg at htch
              have hunt := i3 k hk (fun e he => by
                have h1 := (hrange e he).1
                have h2 := htch e he
                omega)
              rw [hunt]
          · have hd1 : others'.getD k default = default := by
              apply List.getD_eq_default
              rw [i1]; omega
            have hd2 : m.columns.getD k default = default := by
              apply List.getD_eq_default; omega
            rw [hd1, hd2]

/-- Digest of a successful `erase_m_column` (generic): symmetric to
`gerase_m_row_spec`. -/
theorem gerase_m_column_spec {ops : VOps V} {m m' : SMatrix V} {c : Nat}
    {do_del : Bool} (h : SP.gerase_m_column ops m c do_del = some m')
    (hwf : MatWF ops.isZero m) :
    MatWF ops.isZero m' ∧
    m'.num_rows = m.num_rows ∧ m'.num_cols = m.num_cols ∧
    (∀ r' c', 1 ≤ r' → 1 ≤ c' →
      rowGet m' r' c' = if c' = c then none else rowGet m r' c') ∧
    (∀ r' c', 1 ≤ r' → 1 ≤ c' →
      colGet m' r' c' = if c' = c then none else colGet m r' c') ∧
    (m'.columns.getD (c - 1) default).num_entries =
      (if do_del then (-1 : Int) else 0) ∧
    (∀ k, ((m'.rows.getD k default).num_entries = -1 ↔
      (m.rows.getD k default).num_entries = -1)) ∧
    1 ≤ c ∧ c ≤ m.num_cols := by
  have hwf0 := hwf
  rw [SP.gerase_m_column] at h
  split at h
  · cases h
  rename_i hidx
  rw [not_not] at hidx
  have hranges : 1 ≤ c ∧ c ≤ m.num_cols ∧ 1 ≤ m.num_rows := by
    simp only [SP.check_m_indices, Bool.and_eq_true, decide_eq_true_eq] at hidx
    omega
  obtain ⟨hc1, hc2, hnr1⟩ := hranges
  obtain ⟨hrl, hcl, hrwf, hcwf, hm1, hm2⟩ := hwf
  have hce : c - 1 + 1 = c := Nat.sub_add_cancel hc1
  have hclt : c - 1 < m.columns.length := by rw [hcl]; omega
  have hcolwf := hcwf _ (getD_mem default hclt)
  cases herc : SP.erase_m_colrow ops (m.columns.getD (c - 1) default) c
      m.rows do_del with
  | none => rw [herc] at h; cases h
  | some p =>
    obtain ⟨cvec, rows'⟩ := p
    rw [herc] at h
    injection h with h
    subst h
    rw [SP.erase_m_colrow] at herc
    split at herc
    · cases herc
    rename_i hlive
    cases hel : SP.eraseLoop ops c (m.columns.getD (c - 1) default).entries
        (m.columns.getD (c - 1) default).num_entries m.rows with
    | none => rw [hel] at herc; cases herc
    | some q =>
      obtain ⟨cnt, others'⟩ := q
      simp only [hel] at herc
      by_cases hcnt : cnt = 0
      case neg => rw [if_neg hcnt] at herc; cases herc
      case pos =>
        rw [if_pos hcnt] at herc
        injection herc with herc
        rw [Prod.mk.injEq] at herc
        obtain ⟨hv, hc⟩ := herc
        subst hc
        subst hv
        have hrange : ∀ e ∈ (m.columns.getD (c - 1) default).entries,
            1 ≤ e.index ∧ e.index - 1 < m.rows.length := by
          intro e he
          have := hcolwf.2.1 e he
          rw [hrl]
          omega
        obtain ⟨i1, i2, i3, i4⟩ := eraseLoop_spec hel hcolwf.1 hrange
        have htrow : ∀ e ∈ (m.columns.getD (c - 1) default).entries,
            (others'.getD (e.index - 1) default).entries.Pairwise
              (fun a b => a.index < b.index) ∧
            (∀ j, SP.getEnt (others'.getD (e.index - 1) default).entries j =
              if j = c then none
              else SP.getEnt
                (m.rows.getD (e.index - 1) default).entries j) ∧
            (∀ x ∈ (others'.getD (e.index - 1) default).entries,
              x ∈ (m.rows.getD (e.index - 1) default).entries) ∧
            (others'.getD (e.index - 1) default).num_entries =
              ((others'.getD (e.index - 1) default).entries.length : Int) ∧
            (m.rows.getD (e.index - 1) default).num_entries ≠ -1 := by
          intro e he
          obtain ⟨val?, hrm, _⟩ := i4 e he
          have hrwfe := hrwf _ (getD_mem default ((hrange e he).2))
          have hsp := remove_v_entry_spec hrm hrwfe.1
          exact ⟨hsp.1, hsp.2.1, hsp.2.2.1,
            hsp.2.2.2.1 (hrwfe.2.2.2 hsp.2.2.2.2.2), hsp.2.2.2.2.2⟩
        have hcolget : ∀ r' c', 1 ≤ r' → 1 ≤ c' →
            colGet { m with
                rows := others',
                columns := m.columns.set (c - 1)
                  ⟨if do_del then (-1 : Int) else 0, []⟩ } r' c' =
            if c' = c then none else colGet m r' c' := by
          intro r' c' h1' h2'
          by_cases hcc : c' = c
          · rw [if_pos hcc, colGet]
            simp only []
            rw [hcc, getD_set_self _ _ _ _ hclt]
            rfl
          · rw [if_neg hcc, colGet, colGet]
            simp only []
            rw [getD_set_ne _ _ _ _ _ (by omega)]
        have hrowget : ∀ r' c', 1 ≤ r' → 1 ≤ c' →
            rowGet { m with
                rows := others',
                columns := m.columns.set (c - 1)
                  ⟨if do_del then (-1 : Int) else 0, []⟩ } r' c' =
            if c' = c then none else rowGet m r' c' := by
          intro r' c' h1' h2'
          show SP.getEnt (others'.getD (r' - 1) default).entries c' = _
          by_cases hrk : r' - 1 < m.rows.length
          · by_cases htch : ∃ e ∈ (m.columns.getD (c - 1) default).entries,
                e.index = r'
            · obtain ⟨e, he, hei⟩ := htch
              have hd := (htrow e he).2.1 c'
              rw [hei] at hd
              rw [hd]
              by_cases hcc : c' = c
              · rw [if_pos hcc, if_pos hcc]
              · rw [if_neg hcc, if_neg hcc]
                rfl
            · push_neg at htch
              have hunt := i3 (r' - 1) hrk (fun e he => by
                have h1 := (hrange e he).1
                have h2 := htch e he
                omega)
              rw [hunt]
              by_cases hcc : c' = c
              · rw [if_pos hcc]
                cases hg : SP.getEnt
                    (m.rows.getD (r' - 1) default).entries c' with
                | none => rfl
                | some w =>
                  have hmem := getEnt_mem hg
                  have hmir := hm1 (r' - 1) (by omega) ⟨c', w⟩ hmem
                  simp only [] at hmir
                  rw [Nat.sub_add_cancel h1'] at hmir
                  rw [hcc] at hmir
                  have hcon := htch ⟨r', w⟩ (getEnt_mem hmir)
                  simp at hcon
              · rw [if_neg hcc]
                rfl
          · have hd1 : others'.getD (r' - 1) default = default := by
              apply List.getD_eq_default
              rw [i1]; omega
            have hnone : rowGet m r' c' = none := by
              rw [rowGet, List.getD_eq_default _ _ (by omega)]
              rfl
            rw [hd1, hnone, ite_self]
            rfl
        have hnewvec : VecWF ops.isZero m.num_rows
            (⟨if do_del then (-1 : Int) else 0, []⟩ : SVector V) := by
          refine ⟨List.Pairwise.nil, ?_, fun _ => rfl, ?_⟩
          · intro e he; cases he
          · intro hne
            cases do_del <;> simp_all
        have hcolswf : ∀ vec ∈ m.columns.set (c - 1)
            (⟨if do_del then (-1 : Int) else 0, []⟩ : SVector V),
            VecWF ops.isZero m.num_rows vec := by
          intro vec hv
          rcases List.mem_or_eq_of_mem_set hv with hv | hv
          · exact hcwf vec hv
          · rw [hv]; exact hnewvec
        have hrowswf : ∀ vec ∈ others', VecWF ops.isZero m.num_cols vec := by
          intro vec hv
          obtain ⟨k, hk, hkv⟩ := mem_exists_getD default hv
          rw [i1] at hk
          rw [← hkv]
          by_cases htch : ∃ e ∈ (m.columns.getD (c - 1) default).entries,
              e.index = k + 1
          · obtain ⟨e, he, hei⟩ := htch
            have hcd := htrow e he
            rw [hei] at hcd
            simp only [Nat.add_sub_cancel] at hcd
            have hrwfe := hrwf _ (getD_mem default hk)
            refine ⟨hcd.1, ?_, ?_, fun _ => hcd.2.2.2.1⟩
            · intro x hx
              exact hrwfe.2.1 x (hcd.2.2.1 x hx)
            · intro habs
              rw [habs] at hcd
              have := hcd.2.2.2.1
              omega
          · push_neg at htch
            have hunt := i3 k hk (fun e he => by
              have h1 := (hrange e he).1
              have h2 := htch e he
              omega)
            rw [hunt]
            exact hrwf _ (getD_mem default hk)
        have hmirror : Mirror { m with
            rows := others',
            columns := m.columns.set (c - 1)
              ⟨if do_del then (-1 : Int) else 0, []⟩ } := by
          apply mirror_of_get_eq
          · show others'.length = m.num_rows
            rw [i1]; exact hrl
          · simpa using hcl
          · intro vec hv
            have := hrowswf vec hv
            exact ⟨this.1, fun e he => (this.2.1 e he).1⟩
          · intro vec hv
            have := hcolswf vec hv
            exact ⟨this.1, fun e he => (this.2.1 e he).1⟩
          · intro r' c' h1' h2'
            rw [hrowget r' c' h1' h2', hcolget r' c' h1' h2']
            by_cases hcc : c' = c
            · rw [if_pos hcc, if_pos hcc]
            · rw [if_neg hcc, if_neg hcc]
              exact rowGet_eq_colGet hwf0 h1' h2'
        refine ⟨⟨(by rw [i1]; exact hrl : others'.length = m.num_rows),
            by simpa using hcl, hrowswf, hcolswf, hmirror⟩,
          rfl, rfl, hrowget, hcolget, ?_, ?_, hc1, hc2⟩
        · show ((m.columns.set (c - 1)
            (⟨if do_del then (-1 : Int) else 0, []⟩ : SVector V)).getD
              (c - 1) default).num_entries = _
          rw [getD_set_self _ _ _ _ hclt]
        · intro k
          show ((others'.getD k default).num_entries = -1 ↔ _)
          by_cases hk : k < m.rows.length
          · by_cases htch : ∃ e ∈ (m.columns.getD (c - 1) default).entries,
                e.index = k + 1
            · obtain ⟨e, he, hei⟩ := htch
              have hcd := htrow e he
              rw [hei] at hcd
              simp only [Nat.add_sub_cancel] at hcd
              constructor
              · intro habs
                rw [habs] at hcd
                have := hcd.2.2.2.1
                omega
              · intro habs
                exact absurd habs hcd.2.2.2.2
            · push_neg at htch
              have hunt := i3 k hk (fun e he => by
                have h1 := (hrange e he).1
                have h2 := htch e he
                omega)
              rw [hunt]
          · have hd1 : others'.getD k default = default := by
              apply List.getD_eq_default
              rw [i1]; omega
            have hd2 : m.rows.getD k default = default := by
              apply List.getD_eq_default; omega
            rw [hd1, hd2]

theorem mergeVal_raw_none {ops : VOps V} {s : V} {l1 l2 : List (SEntry V)}
    {j : Nat} (h : SP.mergeRaw ops s l1 l2 j = none) :
    SP.mergeVal ops s l1 l2 j = SP.getEnt l1 j := by
  rw [SP.mergeVal, h]

theorem mergeVal_raw_some {ops : VOps V} {s : V} {l1 l2 : List (SEntry V)}
    {j : Nat} {w : V} (h : SP.mergeRaw ops s l1 l2 j = some w) :
    SP.mergeVal ops s l1 l2 j = if ops.isZero w then none else some w := by
  rw [SP.mergeVal, h]

theorem mergeRaw_some_l2 {ops : VOps V} {s : V} {l1 l2 : List (SEntry V)}
    {j : Nat} {w : V} (h : SP.mergeRaw ops s l1 l2 j = some w) :
    ∃ v2, SP.getEnt l2 j = some v2 := by
  rw [SP.mergeRaw] at h
  cases hg : SP.getEnt l2 j with
  | none => rw [hg] at h; cases h
  | some v2 => exact ⟨v2, rfl⟩

/-- Digest of a successful `add_m_rows` (generic): row `r1` of the result
holds the entrywise merge `r1 + s * r2` with zero results absent, every
column is updated to match, well-formedness (in particular the strict index
ordering of the updated row) is preserved, and the returned value bounds
and attains the magnitudes of all values the merge produced. -/
theorem gadd_m_rows_spec {ops : VOps V} {entryMax : Int} {m m' : SMatrix V}
    {r1 r2 : Nat} {s : V} {maxval : Int}
    (h : SP.gadd_m_rows ops entryMax m r1 r2 s = some (m', maxval))
    (hwf : MatWF ops.isZero m) :
    MatWF ops.isZero m' ∧
    m'.num_rows = m.num_rows ∧ m'.num_cols = m.num_cols ∧
    (∀ r' c', 1 ≤ r' → 1 ≤ c' →
      rowGet m' r' c' = if r' = r1
        then SP.mergedCell ops s (rowGet m r1 c') (rowGet m r2 c')
        else rowGet m r' c') ∧
    (∀ r' c', 1 ≤ r' → 1 ≤ c' →
      colGet m' r' c' = if r' = r1
        then SP.mergedCell ops s (rowGet m r1 c') (rowGet m r2 c')
        else colGet m r' c') ∧
    (∀ j w, SP.mergedCellRaw ops s (rowGet m r1 j) (rowGet m r2 j) = some w →
      ops.vabs w ≤ entryMax ∧ ops.vabs w ≤ maxval) ∧
    0 ≤ maxval ∧
    (maxval = 0 ∨ ∃ j w, 1 ≤ j ∧
      SP.mergedCellRaw ops s (rowGet m r1 j) (rowGet m r2 j) = some w ∧
      maxval = ops.vabs w) ∧
    (m.rows.getD (r1 - 1) default).num_entries ≠ -1 ∧
    (m.rows.getD (r2 - 1) default).num_entries ≠ -1 ∧
    1 ≤ r1 ∧ r1 ≤ m.num_rows ∧ 1 ≤ r2 ∧ r2 ≤ m.num_rows := by
  have hwf0 := hwf
  rw [SP.gadd_m_rows] at h
  split at h
  · cases h
  rename_i hidx1
  split at h
  · cases h
  rename_i hidx2
  rw [not_not] at hidx1 hidx2
  have hranges : 1 ≤ r1 ∧ r1 ≤ m.num_rows ∧ 1 ≤ r2 ∧ r2 ≤ m.num_rows ∧
      1 ≤ m.num_cols := by
    simp only [SP.check_m_indices, Bool.and_eq_true, decide_eq_true_eq]
      at hidx1 hidx2
    omega
  obtain ⟨hr11, hr12, hr21, hr22, hnc1⟩ := hranges
  obtain ⟨hrl, hcl, hrwf, hcwf, hm1, hm2⟩ := hwf
  have hr1lt : r1 - 1 < m.rows.length := by rw [hrl]; omega
  have hr2lt : r2 - 1 < m.rows.length := by rw [hrl]; omega
  have hv1wf := hrwf _ (getD_mem default hr1lt)
  have hv2wf := hrwf _ (getD_mem default hr2lt)
  cases hac : SP.add_m_colrows ops entryMax (m.rows.getD (r1 - 1) default) r1
      (m.rows.getD (r2 - 1) default) m.columns s with
  | none => rw [hac] at h; cases h
  | some t =>
    obtain ⟨rvec, cols', mvv⟩ := t
    rw [hac] at h
    injection h with h
    rw [Prod.mk.injEq] at h
    obtain ⟨h1, h2⟩ := h
    subst h2
    subst h1
    rw [SP.add_m_colrows] at hac
    split at hac
    · cases hac
    rename_i hndel
    push_neg at hndel
    obtain ⟨hnd1, hnd2⟩ := hndel
    cases ham : SP.addMerge ops entryMax r1 s
        (m.rows.getD (r1 - 1) default).entries
        (m.rows.getD (r2 - 1) default).entries
        (m.rows.getD (r1 - 1) default).num_entries m.columns 0 with
    | none => rw [ham] at hac; cases hac
    | some q =>
    obtain ⟨l1', cnt', others', mv⟩ := q
    rw [ham] at hac
    injection hac with hac
    rw [Prod.mk.injEq] at hac
    obtain ⟨hv1, hac2⟩ := hac
    rw [Prod.mk.injEq] at hac2
    obtain ⟨hv2, hv3⟩ := hac2
    subst hv1
    subst hv2
    subst hv3
    obtain ⟨i1, i2, i3, i4, i5, i6, i7, i8, i9⟩ :=
      addMerge_spec ham hv1wf.1 hv2wf.1 (fun f hf => (hv2wf.2.1 f hf).1)
    have hcv : ∀ j, SP.mergeVal ops s (m.rows.getD (r1 - 1) default).entries
        (m.rows.getD (r2 - 1) default).entries j =
        SP.mergedCell ops s (rowGet m r1 j) (rowGet m r2 j) := fun _ => rfl
    have hcr : ∀ j, SP.mergeRaw ops s (m.rows.getD (r1 - 1) default).entries
        (m.rows.getD (r2 - 1) default).entries j =
        SP.mergedCellRaw ops s (rowGet m r1 j) (rowGet m r2 j) := fun _ => rfl
    have hcnt0 : (m.rows.getD (r1 - 1) default).num_entries =
        ((m.rows.getD (r1 - 1) default).entries.length : Int) :=
      hv1wf.2.2.2 hnd1
    have hlen : cnt' = (l1'.length : Int) := by
      have h4 := i4
      rw [hcnt0] at h4
      clear i3 i6 i7 i9
      omega
    have hrowget : ∀ r' c', 1 ≤ r' → 1 ≤ c' →
        rowGet { m with rows := m.rows.set (r1 - 1) (SVector.mk cnt' l1'),
                        columns := others' } r' c' =
        if r' = r1
          then SP.mergedCell ops s (rowGet m r1 c') (rowGet m r2 c')
          else rowGet m r' c' := by
      intro r' c' h1' h2'
      by_cases hrr : r' = r1
      · rw [if_pos hrr, rowGet]
        simp only []
        rw [hrr, getD_set_self _ _ _ _ hr1lt]
        show SP.getEnt l1' c' = _
        rw [i2 c', hcv c']
      · rw [if_neg hrr, rowGet, rowGet]
        simp only []
        rw [getD_set_ne _ _ _ _ _ (by clear i9; omega)]
    have hcolget : ∀ r' c', 1 ≤ r' → 1 ≤ c' →
        colGet { m with rows := m.rows.set (r1 - 1) (SVector.mk cnt' l1'),
                        columns := others' } r' c' =
        if r' = r1
          then SP.mergedCell ops s (rowGet m r1 c') (rowGet m r2 c')
          else colGet m r' c' := by
      intro r' c' h1' h2'
      show SP.getEnt (others'.getD (c' - 1) default).entries r' = _
      by_cases hck : c' - 1 < m.columns.length
      · have hi6 := i6 (c' - 1) hck
        rw [Nat.sub_add_cancel h2'] at hi6
        cases hmr : SP.mergeRaw ops s (m.rows.getD (r1 - 1) default).entries
            (m.rows.getD (r2 - 1) default).entries c' with
        | none =>
          rw [hmr] at hi6
          rw [hi6]
          by_cases hrr : r' = r1
          · rw [if_pos hrr]
            have hmc : SP.mergedCell ops s (rowGet m r1 c')
                (rowGet m r2 c') = rowGet m r1 c' := by
              rw [SP.mergedCell, ← hcr c', hmr]
            rw [hmc, hrr]
            exact (rowGet_eq_colGet hwf0 hr11 h2').symm
          · rw [if_neg hrr]
            rfl
        | some w =>
          rw [hmr] at hi6
          have hcolwfc := hcwf _ (getD_mem default hck)
          have hsp := add_v_entry_spec hi6 hcolwfc.1
          rw [hsp.2.1 r']
          by_cases hrr : r' = r1
          · have hmc : SP.mergedCell ops s (rowGet m r1 c')
                (rowGet m r2 c') = if ops.isZero w then none else some w := by
              rw [SP.mergedCell, ← hcr c', hmr]
            rw [if_pos hrr, if_pos hrr, hmc]
          · rw [if_neg hrr, if_neg hrr]
            rfl
      · have hd1 : others'.getD (c' - 1) default = default := by
          apply List.getD_eq_default
          rw [i5]; omega
        have hro1 : rowGet m r1 c' = none := getEnt_eq_none_of_not_mem
          (fun e he => by have := (hv1wf.2.1 e he).2.1; omega)
        have hro2 : rowGet m r2 c' = none := getEnt_eq_none_of_not_mem
          (fun e he => by have := (hv2wf.2.1 e he).2.1; omega)
        have hcol : colGet m r' c' = none := by
          rw [colGet, List.getD_eq_default _ _ (by omega)]
          rfl
        rw [hd1]
        by_cases hrr : r' = r1
        · rw [if_pos hrr]
          have hmc : SP.mergedCell ops s (rowGet m r1 c')
              (rowGet m r2 c') = none := by
            rw [hro1, hro2]
            rfl
          rw [hmc]
          rfl
        · rw [if_neg hrr, hcol]
          rfl
    have hrv_wf : VecWF ops.isZero m.num_cols ((SVector.mk cnt' l1') : SVector V) := by
      refine ⟨i1, ?_, ?_, fun _ => hlen⟩
      · intro e he
        have hg : SP.getEnt l1' e.index = some e.value :=
          getEnt_eq_some_of_mem i1 he
        rw [i2 e.index] at hg
        cases hmr : SP.mergeRaw ops s (m.rows.getD (r1 - 1) default).entries
            (m.rows.getD (r2 - 1) default).entries e.index with
        | none =>
          rw [mergeVal_raw_none hmr] at hg
          exact hv1wf.2.1 _ (getEnt_mem hg)
        | some w =>
          rw [mergeVal_raw_some hmr] at hg
          by_cases hz : ops.isZero w = true
          · rw [if_pos hz] at hg; cases hg
          · rw [if_neg hz] at hg
            injection hg with hg
            obtain ⟨v2, hv2⟩ := mergeRaw_some_l2 hmr
            have hb := hv2wf.2.1 _ (getEnt_mem hv2)
            refine ⟨hb.1, hb.2.1, ?_⟩
            rw [← hg]
            cases hq : ops.isZero w
            · rfl
            · exact absurd hq hz
      · intro habs
        have habs2 : cnt' = -1 := habs
        rw [habs2] at hlen
        exact absurd hlen (by omega)
    have hrowswf : ∀ vec ∈ m.rows.set (r1 - 1) ((SVector.mk cnt' l1') : SVector V),
        VecWF ops.isZero m.num_cols vec := by
      intro vec hv
      rcases List.mem_or_eq_of_mem_set hv with hv | hv
      · exact hrwf vec hv
      · rw [hv]; exact hrv_wf
    have hcolswf : ∀ vec ∈ others', VecWF ops.isZero m.num_rows vec := by
      intro vec hv
      obtain ⟨k, hk, hkv⟩ := mem_exists_getD default hv
      rw [i5] at hk
      rw [← hkv]
      have hi6 := i6 k hk
      cases hmr : SP.mergeRaw ops s (m.rows.getD (r1 - 1) default).entries
          (m.rows.getD (r2 - 1) default).entries (k + 1) with
      | none =>
        rw [hmr] at hi6
        rw [hi6]
        exact hcwf _ (getD_mem default hk)
      | some w =>
        rw [hmr] at hi6
        have hcolwfc := hcwf _ (getD_mem default hk)
        have hsp := add_v_entry_spec hi6 hcolwfc.1
        refine ⟨hsp.1, ?_, ?_, ?_⟩
        · intro x hx
          have hg : SP.getEnt (others'.getD k default).entries x.index =
              some x.value := getEnt_eq_some_of_mem hsp.1 hx
          rw [hsp.2.1 x.index] at hg
          by_cases hxr : x.index = r1
          · rw [if_pos hxr] at hg
            by_cases hz : ops.isZero w = true
            · rw [if_pos hz] at hg; cases hg
            · rw [if_neg hz] at hg
              injection hg with hg
              refine ⟨by rw [hxr]; exact hr11, by rw [hxr]; exact hr12, ?_⟩
              rw [← hg]
              cases hq : ops.isZero w
              · rfl
              · exact absurd hq hz
          · rw [if_neg hxr] at hg
            exact hcolwfc.2.1 _ (getEnt_mem hg)
        · intro habs
          have hlen2 := hsp.2.2.2.1 (hcolwfc.2.2.2 hsp.2.2.2.2)
          rw [habs] at hlen2
          exact absurd hlen2 (by omega)
        · intro _
          exact hsp.2.2.2.1 (hcolwfc.2.2.2 hsp.2.2.2.2)
    have hmirror : Mirror { m with
        rows := m.rows.set (r1 - 1) (SVector.mk cnt' l1'),
        columns := others' } := by
      apply mirror_of_get_eq
      · simpa using hrl
      · show others'.length = m.num_cols
        rw [i5]; exact hcl
      · intro vec hv
        have := hrowswf vec hv
        exact ⟨this.1, fun e he => (this.2.1 e he).1⟩
      · intro vec hv
        have := hcolswf vec hv
        exact ⟨this.1, fun e he => (this.2.1 e he).1⟩
      · intro r' c' h1' h2'
        rw [hrowget r' c' h1' h2', hcolget r' c' h1' h2']
        by_cases hrr : r' = r1
        · rw [if_pos hrr, if_pos hrr]
        · rw [if_neg hrr, if_neg hrr]
          exact rowGet_eq_colGet hwf0 h1' h2'
    refine ⟨⟨by simpa using hrl,
        (by rw [i5]; exact hcl : others'.length = m.num_cols),
        hrowswf, hcolswf, hmirror⟩,
      rfl, rfl, hrowget, hcolget, ?_, i8, ?_, hnd1, hnd2,
      hr11, hr12, hr21, hr22⟩
    · intro j w hw
      exact i7 j w (by rw [hcr j]; exact hw)
    · rcases i9 with h9 | ⟨f, hf, h9⟩
      · exact Or.inl h9
      · have hgf : SP.getEnt (m.rows.getD (r2 - 1) default).entries f.index =
            some f.value := getEnt_eq_some_of_mem hv2wf.1 hf
        have hex : ∃ w, SP.mergeRaw ops s
            (m.rows.getD (r1 - 1) default).entries
            (m.rows.getD (r2 - 1) default).entries f.index = some w := by
          rw [SP.mergeRaw, hgf]
          exact ⟨_, rfl⟩
        obtain ⟨w, hw⟩ := hex
        refine Or.inr ⟨f.index, w, (hv2wf.2.1 f hf).1,
          by rw [← hcr f.index]; exact hw, ?_⟩
        rw [h9, hw]
        rfl

/-- Digest of a successful `add_m_cols` (generic): symmetric to
`gadd_m_rows_spec`, with column `c1` receiving the merge `c1 + s * c2`. -/
theorem gadd_m_cols_spec {ops : VOps V} {entryMax : Int} {m m' : SMatrix V}
    {c1 c2 : Nat} {s : V} {maxval : Int}
    (h : SP.gadd_m_cols ops entryMax m c1 c2 s = some (m', maxval))
    (hwf : MatWF ops.isZero m) :
    MatWF ops.isZero m' ∧
    m'.num_rows = m.num_rows ∧ m'.num_cols = m.num_cols ∧
    (∀ r' c', 1 ≤ r' → 1 ≤ c' →
      rowGet m' r' c' = if c' = c1
        then SP.mergedCell ops s (colGet m r' c1) (colGet m r' c2)
        else rowGet m r' c') ∧
    (∀ r' c', 1 ≤ r' → 1 ≤ c' →
      colGet m' r' c' = if c' = c1
        then SP.mergedCell ops s (colGet m r' c1) (colGet m r' c2)
        else colGet m r' c') ∧
    (∀ j w, SP.mergedCellRaw ops s (colGet m j c1) (colGet m j c2) = some w →
      ops.vabs w ≤ entryMax ∧ ops.vabs w ≤ maxval) ∧
    0 ≤ maxval ∧
    (maxval = 0 ∨ ∃ j w, 1 ≤ j ∧
      SP.mergedCellRaw ops s (colGet m j c1) (colGet m j c2) = some w ∧
      maxval = ops.vabs w) ∧
    (m.columns.getD (c1 - 1) default).num_entries ≠ -1 ∧
    (m.columns.getD (c2 - 1) default).num_entries ≠ -1 ∧
    1 ≤ c1 ∧ c1 ≤ m.num_cols ∧ 1 ≤ c2 ∧ c2 ≤ m.num_cols := by
  have hwf0 := hwf
  rw [SP.gadd_m_cols] at h
  split at h
  · cases h
  rename_i hidx1
  split at h
  · cases h
  rename_i hidx2
  rw [not_not] at hidx1 hidx2
  have hranges : 1 ≤ c1 ∧ c1 ≤ m.num_cols ∧ 1 ≤ c2 ∧ c2 ≤ m.num_cols ∧
      1 ≤ m.num_rows := by
    simp only [SP.check_m_indices, Bool.and_eq_true, decide_eq_true_eq]
      at hidx1 hidx2
    omega
  obtain ⟨hc11, hc12, hc21, hc22, hnr1⟩ := hranges
  obtain ⟨hrl, hcl, hrwf, hcwf, hm1, hm2⟩ := hwf
  have hc1lt : c1 - 1 < m.columns.length := by rw [hcl]; omega
  have hc2lt : c2 - 1 < m.columns.length := by rw [hcl]; omega
  have hv1wf := hcwf _ (getD_mem default hc1lt)
  have hv2wf := hcwf _ (getD_mem default hc2lt)
  cases hac : SP.add_m_colrows ops entryMax (m.columns.getD (c1 - 1) default)
      c1 (m.columns.getD (c2 - 1) default) m.rows s with
  | none => rw [hac] at h; cases h
  | some t =>
    obtain ⟨cvec, rows', mvv⟩ := t
    rw [hac] at h
    injection h with h
    rw [Prod.mk.injEq] at h
    obtain ⟨h1, h2⟩ := h
    subst h2
    subst h1
    rw [SP.add_m_colrows] at hac
    split at hac
    · cases hac
    rename_i hndel
    push_neg at hndel
    obtain ⟨hnd1, hnd2⟩ := hndel
    cases ham : SP.addMerge ops entryMax c1 s
        (m.columns.getD (c1 - 1) default).entries
        (m.columns.getD (c2 - 1) default).entries
        (m.columns.getD (c1 - 1) default).num_entries m.rows 0 with
    | none => rw [ham] at hac; cases hac
    | some q =>
    obtain ⟨l1', cnt', others', mv⟩ := q
    rw [ham] at hac
    injection hac with hac
    rw [Prod.mk.injEq] at hac
    obtain ⟨hv1, hac2⟩ := hac
    rw [Prod.mk.injEq] at hac2
    obtain ⟨hv2, hv3⟩ := hac2
    subst hv1
    subst hv2
    subst hv3
    obtain ⟨i1, i2, i3, i4, i5, i6, i7, i8, i9⟩ :=
      addMerge_spec ham hv1wf.1 hv2wf.1 (fun f hf => (hv2wf.2.1 f hf).1)
    have hcv : ∀ j, SP.mergeVal ops s
        (m.columns.getD (c1 - 1) default).entries
        (m.columns.getD (c2 - 1) default).entries j =
        SP.mergedCell ops s (colGet m j c1) (colGet m j c2) := fun _ => rfl
    have hcr : ∀ j, SP.mergeRaw ops s
        (m.columns.getD (c1 - 1) default).entries
        (m.columns.getD (c2 - 1) default).entries j =
        SP.mergedCellRaw ops s (colGet m j c1) (colGet m j c2) := fun _ => rfl
    have hcnt0 : (m.columns.getD (c1 - 1) default).num_entries =
        ((m.columns.getD (c1 - 1) default).entries.length : Int) :=
      hv1wf.2.2.2 hnd1
    have hlen : cnt' = (l1'.length : Int) := by
      have h4 := i4
      rw [hcnt0] at h4
      clear i3 i6 i7 i9
      omega
    have hcolget : ∀ r' c', 1 ≤ r' → 1 ≤ c' →
        colGet { m with rows := others',
                        columns := m.columns.set (c1 - 1)
                          (SVector.mk cnt' l1') } r' c' =
        if c' = c1
          then SP.mergedCell ops s (colGet m r' c1) (colGet m r' c2)
          else colGet m r' c' := by
      intro r' c' h1' h2'
      by_cases hcc : c' = c1
      · rw [if_pos hcc, colGet]
        simp only []
        rw [hcc, getD_set_self _ _ _ _ hc1lt]
        show SP.getEnt l1' r' = _
        rw [i2 r', hcv r']
      · rw [if_neg hcc, colGet, colGet]
        simp only []
        rw [getD_set_ne _ _ _ _ _ (by clear i9; omega)]
    have hrowget : ∀ r' c', 1 ≤ r' → 1 ≤ c' →
        rowGet { m with rows := others',
                        columns := m.columns.set (c1 - 1)
                          (SVector.mk cnt' l1') } r' c' =
        if c' = c1
          then SP.mergedCell ops s (colGet m r' c1) (colGet m r' c2)
          else rowGet m r' c' := by
      intro r' c' h1' h2'
      show SP.getEnt (others'.getD (r' - 1) default).entries c' = _
      by_cases hrk : r' - 1 < m.rows.length
      · have hi6 := i6 (r' - 1) hrk
        rw [Nat.sub_add_cancel h1'] at hi6
        cases hmr : SP.mergeRaw ops s
            (m.columns.getD (c1 - 1) default).entries
            (m.columns.getD (c2 - 1) default).entries r' with
        | none =>
          rw [hmr] at hi6
          rw [hi6]
          by_cases hcc : c' = c1
          · rw [if_pos hcc]
            have hmc : SP.mergedCell ops s (colGet m r' c1)
                (colGet m r' c2) = colGet m r' c1 := by
              rw [SP.mergedCell, ← hcr r', hmr]
            rw [hmc, hcc]
            exact rowGet_eq_colGet hwf0 h1' hc11
          · rw [if_neg hcc]
            rfl
        | some w =>
          rw [hmr] at hi6
          have hrowwfc := hrwf _ (getD_mem default hrk)
          have hsp := add_v_entry_spec hi6 hrowwfc.1
          rw [hsp.2.1 c']
          by_cases hcc : c' = c1
          · have hmc : SP.mergedCell ops s (colGet m r' c1)
                (colGet m r' c2) = if ops.isZero w then none else some w := by
              rw [SP.mergedCell, ← hcr r', hmr]
            rw [if_pos hcc, if_pos hcc, hmc]
          · rw [if_neg hcc, if_neg hcc]
            rfl
      · have hd1 : others'.getD (r' - 1) default = default := by
          apply List.getD_eq_default
          rw [i5]; omega
        have hco1 : colGet m r' c1 = none := getEnt_eq_none_of_not_mem
          (fun e he => by have := (hv1wf.2.1 e he).2.1; omega)
        have hco2 : colGet m r' c2 = none := getEnt_eq_none_of_not_mem
          (fun e he => by have := (hv2wf.2.1 e he).2.1; omega)
        have hrow : rowGet m r' c' = none := by
          rw [rowGet, List.getD_eq_default _ _ (by omega)]
          rfl
        rw [hd1]
        by_cases hcc : c' = c1
        · rw [if_pos hcc]
          have hmc : SP.mergedCell ops s (colGet m r' c1)
              (colGet m r' c2) = none := by
            rw [hco1, hco2]
            rfl
          rw [hmc]
          rfl
        · rw [if_neg hcc, hrow]
          rfl
    have hcv_wf : VecWF ops.isZero m.num_rows ((SVector.mk cnt' l1') : SVector V) := by
      refine ⟨i1, ?_, ?_, fun _ => hlen⟩
      · intro e he
        have hg : SP.getEnt l1' e.index = some e.value :=
          getEnt_eq_some_of_mem i1 he
        rw [i2 e.index] at hg
        cases hmr : SP.mergeRaw ops s
            (m.columns.getD (c1 - 1) default).entries
            (m.columns.getD (c2 - 1) default).entries e.index with
        | none =>
          rw [mergeVal_raw_none hmr] at hg
          exact hv1wf.2.1 _ (getEnt_mem hg)
        | some w =>
          rw [mergeVal_raw_some hmr] at hg
          by_cases hz : ops.isZero w = true
          · rw [if_pos hz] at hg; cases hg
          · rw [if_neg hz] at hg
            injection hg with hg
            obtain ⟨v2, hv2⟩ := mergeRaw_some_l2 hmr
            have hb := hv2wf.2.1 _ (getEnt_mem hv2)
            refine ⟨hb.1, hb.2.1, ?_⟩
            rw [← hg]
            cases hq : ops.isZero w
            · rfl
            · exact absurd hq hz
      · intro habs
        have habs2 : cnt' = -1 := habs
        rw [habs2] at hlen
        exact absurd hlen (by omega)
    have hcolswf : ∀ vec ∈ m.columns.set (c1 - 1)
        ((SVector.mk cnt' l1') : SVector V),
        VecWF ops.isZero m.num_rows vec := by
      intro vec hv
      rcases List.mem_or_eq_of_mem_set hv with hv | hv
      · exact hcwf vec hv
      · rw [hv]; exact hcv_wf
    have hrowswf : ∀ vec ∈ others', VecWF ops.isZero m.num_cols vec := by
      intro vec hv
      obtain ⟨k, hk, hkv⟩ := mem_exists_getD default hv
      rw [i5] at hk
      rw [← hkv]
      have hi6 := i6 k hk
      cases hmr : SP.mergeRaw ops s
          (m.columns.getD (c1 - 1) default).entries
          (m.columns.getD (c2 - 1) default).entries (k + 1) with
      | none =>
        rw [hmr] at hi6
        rw [hi6]
        exact hrwf _ (getD_mem default hk)
      | some w =>
        rw [hmr] at hi6
        have hrowwfc := hrwf _ (getD_mem default hk)
        have hsp := add_v_entry_spec hi6 hrowwfc.1
        refine ⟨hsp.1, ?_, ?_, ?_⟩
        · intro x hx
          have hg : SP.getEnt (others'.getD k default).entries x.index =
              some x.value := getEnt_eq_some_of_mem hsp.1 hx
          rw [hsp.2.1 x.index] at hg
          by_cases hxr : x.index = c1
          · rw [if_pos hxr] at hg
            by_cases hz : ops.isZero w = true
            · rw [if_pos hz] at hg; cases hg
            · rw [if_neg hz] at hg
              injection hg with hg
              refine ⟨by rw [hxr]; exact hc11, by rw [hxr]; exact hc12, ?_⟩
              rw [← hg]
              cases hq : ops.isZero w
              · rfl
              · exact absurd hq hz
          · rw [if_neg hxr] at hg
            exact hrowwfc.2.1 _ (getEnt_mem hg)
        · intro habs
          have hlen2 := hsp.2.2.2.1 (hrowwfc.2.2.2 hsp.2.2.2.2)
          rw [habs] at hlen2
          exact absurd hlen2 (by omega)
        · intro _
          exact hsp.2.2.2.1 (hrowwfc.2.2.2 hsp.2.2.2.2)
    have hmirror : Mirror { m with
        rows := others',
        columns := m.columns.set (c1 - 1) (SVector.mk cnt' l1') } := by
      apply mirror_of_get_eq
      · show others'.length = m.num_rows
        rw [i5]; exact hrl
      · simpa using hcl
      · intro vec hv
        have := hrowswf vec hv
        exact ⟨this.1, fun e he => (this.2.1 e he).1⟩
      · intro vec hv
        have := hcolswf vec hv
        exact ⟨this.1, fun e he => (this.2.1 e he).1⟩
      · intro r' c' h1' h2'
        rw [hrowget r' c' h1' h2', hcolget r' c' h1' h2']
        by_cases hcc : c' = c1
        · rw [if_pos hcc, if_pos hcc]
        · rw [if_neg hcc, if_neg hcc]
          exact rowGet_eq_colGet hwf0 h1' h2'
    refine ⟨⟨(by rw [i5]; exact hrl : others'.length = m.num_rows),
        by simpa using hcl, hrowswf, hcolswf, hmirror⟩,
      rfl, rfl, hrowget, hcolget, ?_, i8, ?_, hnd1, hnd2,
      hc11, hc12, hc21, hc22⟩
    · intro j w hw
      exact i7 j w (by rw [hcr j]; exact hw)
    · rcases i9 with h9 | ⟨f, hf, h9⟩
      · exact Or.inl h9
      · have hgf : SP.getEnt
            (m.columns.getD (c2 - 1) default).entries f.index =
            some f.value := getEnt_eq_some_of_mem hv2wf.1 hf
        have hex : ∃ w, SP.mergeRaw ops s
            (m.columns.getD (c1 - 1) default).entries
            (m.columns.getD (c2 - 1) default).entries f.index = some w := by
          rw [SP.mergeRaw, hgf]
          exact ⟨_, rfl⟩
        obtain ⟨w, hw⟩ := hex
        refine Or.inr ⟨f.index, w, (hv2wf.2.1 f hf).1,
          by rw [← hcr f.index]; exact hw, ?_⟩
        rw [h9, hw]
        rfl

/-- `add_m_rows` succeeds whenever the indices are in range, neither row is
tombstoned, and no merged value exceeds the magnitude bound. -/
theorem gadd_m_rows_isSome {ops : VOps V} {entryMax : Int} {m : SMatrix V}
    {r1 r2 : Nat} {s : V} (hwf : MatWF ops.isZero m)
    (hr11 : 1 ≤ r1) (hr12 : r1 ≤ m.num_rows)
    (hr21 : 1 ≤ r2) (hr22 : r2 ≤ m.num_rows) (hnc : 1 ≤ m.num_cols)
    (hnd1 : (m.rows.getD (r1 - 1) default).num_entries ≠ -1)
    (hnd2 : (m.rows.getD (r2 - 1) default).num_entries ≠ -1)
    (hbound : ∀ j w, SP.mergedCellRaw ops s (rowGet m r1 j) (rowGet m r2 j) =
      some w → ops.vabs w ≤ entryMax) :
    (SP.gadd_m_rows ops entryMax m r1 r2 s).isSome := by
  obtain ⟨hrl, hcl, hrwf, hcwf, hm1, hm2⟩ := hwf
  have hr1lt : r1 - 1 < m.rows.length := by rw [hrl]; omega
  have hr2lt : r2 - 1 < m.rows.length := by rw [hrl]; omega
  have hv1wf := hrwf _ (getD_mem default hr1lt)
  have hv2wf := hrwf _ (getD_mem default hr2lt)
  have hck1 : SP.check_m_indices m r1 1 = true := by
    simp only [SP.check_m_indices, Bool.and_eq_true, decide_eq_true_eq]
    omega
  have hck2 : SP.check_m_indices m r2 1 = true := by
    simp only [SP.check_m_indices, Bool.and_eq_true, decide_eq_true_eq]
    omega
  have hlive : ∀ f ∈ (m.rows.getD (r2 - 1) default).entries,
      (m.columns.getD (f.index - 1) default).num_entries ≠ -1 := by
    intro f hf habs
    have hb := hv2wf.2.1 f hf
    have hflt : f.index - 1 < m.columns.length := by rw [hcl]; omega
    have hcolwfc := hcwf _ (getD_mem default hflt)
    have hmir := hm1 (r2 - 1) (by omega) f hf
    rw [Nat.sub_add_cancel hr21] at hmir
    have hmem := getEnt_mem hmir
    rw [hcolwfc.2.2.1 habs] at hmem
    cases hmem
  have hsome := @addMerge_isSome _ _ entryMax r1 _ _ _
    (m.rows.getD (r1 - 1) default).num_entries m.columns 0
    hv1wf.1 hv2wf.1 (fun f hf => (hv2wf.2.1 f hf).1)
    (fun j w hw => hbound j w hw) hlive
  rw [SP.gadd_m_rows, if_neg (not_not_intro hck1),
    if_neg (not_not_intro hck2), SP.add_m_colrows,
    if_neg (by push_neg; exact ⟨hnd1, hnd2⟩)]
  cases hq : SP.addMerge ops entryMax r1 s
      (m.rows.getD (r1 - 1) default).entries
      (m.rows.getD (r2 - 1) default).entries
      (m.rows.getD (r1 - 1) default).num_entries m.columns 0 with
  | none => rw [hq] at hsome; simp at hsome
  | some q =>
    obtain ⟨l1', cnt', o', mx⟩ := q
    rfl

/-- `add_m_cols` succeeds whenever the indices are in range, neither column
is tombstoned, and no merged value exceeds the magnitude bound. -/
theorem gadd_m_cols_isSome {ops : VOps V} {entryMax : Int} {m : SMatrix V}
    {c1 c2 : Nat} {s : V} (hwf : MatWF ops.isZero m)
    (hc11 : 1 ≤ c1) (hc12 : c1 ≤ m.num_cols)
    (hc21 : 1 ≤ c2) (hc22 : c2 ≤ m.num_cols) (hnr : 1 ≤ m.num_rows)
    (hnd1 : (m.columns.getD (c1 - 1) default).num_entries ≠ -1)
    (hnd2 : (m.columns.getD (c2 - 1) default).num_entries ≠ -1)
    (hbound : ∀ j w, SP.mergedCellRaw ops s (colGet m j c1) (colGet m j c2) =
      some w → ops.vabs w ≤ entryMax) :
    (SP.gadd_m_cols ops entryMax m c1 c2 s).isSome := by
  obtain ⟨hrl, hcl, hrwf, hcwf, hm1, hm2⟩ := hwf
  have hc1lt : c1 - 1 < m.columns.length := by rw [hcl]; omega
  have hc2lt : c2 - 1 < m.columns.length := by rw [hcl]; omega
  have hv1wf := hcwf _ (getD_mem default hc1lt)
  have hv2wf := hcwf _ (getD_mem default hc2lt)
  have hck1 : SP.check_m_indices m 1 c1 = true := by
    simp only [SP.check_m_indices, Bool.and_eq_true, decide_eq_true_eq]
    omega
  have hck2 : SP.check_m_indices m 1 c2 = true := by
    simp only [SP.check_m_indices, Bool.and_eq_true, decide_eq_true_eq]
    omega
  have hlive : ∀ f ∈ (m.columns.getD (c2 - 1) default).entries,
      (m.rows.getD (f.index - 1) default).num_entries ≠ -1 := by
    intro f hf habs
    have hb := hv2wf.2.1 f hf
    have hflt : f.index - 1 < m.rows.length := by rw [hrl]; omega
    have hrowwfc := hrwf _ (getD_mem default hflt)
    have hmir := hm2 (c2 - 1) (by omega) f hf
    rw [Nat.sub_add_cancel hc21] at hmir
    have hmem := getEnt_mem hmir
    rw [hrowwfc.2.2.1 habs] at hmem
    cases hmem
  have hsome := @addMerge_isSome _ _ entryMax c1 _ _ _
    (m.columns.getD (c1 - 1) default).num_entries m.rows 0
    hv1wf.1 hv2wf.1 (fun f hf => (hv2wf.2.1 f hf).1)
    (fun j w hw => hbound j w hw) hlive
  rw [SP.gadd_m_cols, if_neg (not_not_intro hck1),
    if_neg (not_not_intro hck2), SP.add_m_colrows,
    if_neg (by push_neg; exact ⟨hnd1, hnd2⟩)]
  cases hq : SP.addMerge ops entryMax c1 s
      (m.columns.getD (c1 - 1) default).entries
      (m.columns.getD (c2 - 1) default).entries
      (m.columns.getD (c1 - 1) default).num_entries m.rows 0 with
  | none => rw [hq] at hsome; simp at hsome
  | some q =>
    obtain ⟨l1', cnt', o', mx⟩ := q
    rfl

theorem matBounded_of_rowGet {ops : VOps V} {m : SMatrix V} {B : Int}
    (hwf : MatWF ops.isZero m)
    (h : ∀ r c v, 1 ≤ r → 1 ≤ c → rowGet m r c = some v → ops.vabs v ≤ B) :
    MatBounded ops.vabs B m := by
  constructor
  · intro vec hv e he
    obtain ⟨k, hk, hkv⟩ := mem_exists_getD default hv
    have hvwf := hwf.2.2.1 vec hv
    have hg : rowGet m (k + 1) e.index = some e.value := by
      rw [rowGet]
      simp only [Nat.add_sub_cancel]
      rw [hkv]
      exact getEnt_eq_some_of_mem hvwf.1 he
    exact h (k + 1) e.index e.value (by omega) (hvwf.2.1 e he).1 hg
  · intro vec hv e he
    obtain ⟨k, hk, hkv⟩ := mem_exists_getD default hv
    have hvwf := hwf.2.2.2.1 vec hv
    have hg : colGet m e.index (k + 1) = some e.value := by
      rw [colGet]
      simp only [Nat.add_sub_cancel]
      rw [hkv]
      exact getEnt_eq_some_of_mem hvwf.1 he
    rw [← rowGet_eq_colGet hwf (hvwf.2.1 e he).1 (by omega)] at hg
    exact h e.index (k + 1) e.value (hvwf.2.1 e he).1 (by omega) hg

theorem rowGet_bounded_of_matBounded {ops : VOps V} {m : SMatrix V} {B : Int}
    (hb : MatBounded ops.vabs B m) {r c : Nat} {v : V}
    (h : rowGet m r c = some v) : ops.vabs v ≤ B := by
  rw [rowGet] at h
  by_cases hk : r - 1 < m.rows.length
  · exact hb.1 _ (getD_mem default hk) _ (getEnt_mem h)
  · rw [List.getD_eq_default _ _ (by omega)] at h
    cases h

theorem find_v_unit_some {ops : VOps V} {vec : SVector V} {e : SEntry V}
    (h : SP.find_v_unit ops vec = some (some e)) :
    e ∈ vec.entries ∧ ops.vabs e.value = 1 ∧ vec.num_entries ≠ -1 := by
  rw [SP.find_v_unit] at h
  split at h
  · cases h
  rename_i hnd
  injection h with h
  have hp := List.find?_some h
  have hmem := List.mem_of_find?_eq_some h
  exact ⟨hmem, by simpa using hp, hnd⟩

theorem find_v_unit_none_of_no_unit {ops : VOps V} {vec : SVector V}
    (hnd : vec.num_entries ≠ -1)
    (h : ∀ e ∈ vec.entries, ops.vabs e.value ≠ 1) :
    SP.find_v_unit ops vec = some none := by
  rw [SP.find_v_unit, if_neg hnd]
  congr 1
  apply List.find?_eq_none.mpr
  intro e he
  simp [h e he]

end MatrixOps2

/-! ### The group ring Z[t]/(t^2-1): units and pivot cancellation -/

section URing

/-- The four elements of magnitude 1. -/
theorem Uabs_eq_one_cases {v : UV} (h : Uabs v = 1) :
    v = ((1 : Int), (0 : Int)) ∨ v = (-1, 0) ∨ v = (0, 1) ∨ v = (0, -1) := by
  obtain ⟨a, b⟩ := v
  have h' : |a| + |b| = 1 := h
  have hd : (a = 1 ∧ b = 0) ∨ (a = -1 ∧ b = 0) ∨ (a = 0 ∧ b = 1) ∨
      (a = 0 ∧ b = -1) := by
    rcases abs_cases a with ⟨ha1, ha2⟩ | ⟨ha1, ha2⟩ <;>
      rcases abs_cases b with ⟨hb1, hb2⟩ | ⟨hb1, hb2⟩ <;> omega
  rcases hd with ⟨h1, h2⟩ | ⟨h1, h2⟩ | ⟨h1, h2⟩ | ⟨h1, h2⟩ <;>
    subst h1 <;> subst h2 <;> simp

/-- Every element of magnitude 1 is its own inverse under `mult_Uvals`. -/
theorem mult_Uvals_self_unit {v : UV} (h : Uabs v = 1) :
    mult_Uvals v v = ((1 : Int), (0 : Int)) := by
  rcases Uabs_eq_one_cases h with h | h | h | h <;> subst h <;> decide

/-- The cancellation driving the row sweep of `eliminate_gens`: adding
`x * (-pv)` times the pivot column to the column holding `x` zeroes the
swept cell. -/
theorem unit_sweep_cancel {pv : UV} (h : Uabs pv = 1) (x : UV) :
    add_Uvals x (mult_Uvals (mult_Uvals x (-pv.1, -pv.2)) pv) =
      ((0 : Int), (0 : Int)) := by
  obtain ⟨a, b⟩ := x
  rcases Uabs_eq_one_cases h with h | h | h | h <;> subst h <;>
    simp only [add_Uvals, mult_Uvals, Prod.mk.injEq] <;>
    constructor <;> ring

end URing

/-! ### The reducer of sparreduce-U.c -/

section ReducerProofs

theorem entries_eq_nil_of_none {V : Type} {l : List (SEntry V)}
    (hs : l.Pairwise (fun a b => a.index < b.index))
    (hpos : ∀ e ∈ l, 1 ≤ e.index)
    (h : ∀ j, 1 ≤ j → SP.getEnt l j = none) : l = [] := by
  cases l with
  | nil => rfl
  | cons e es =>
    have hg := getEnt_eq_some_of_mem hs (List.mem_cons_self e es)
    rw [h e.index (hpos e (List.mem_cons_self e es))] at hg
    cases hg

theorem entries_eq_single_of_getEnt {V : Type} {l : List (SEntry V)} {i : Nat}
    {v : V} (hs : l.Pairwise (fun a b => a.index < b.index))
    (hin : SP.getEnt l i = some v)
    (h : ∀ e ∈ l, e.index = i) : l = [⟨i, v⟩] := by
  cases l with
  | nil => cases hin
  | cons e es =>
    have he := h e (List.mem_cons_self e es)
    cases es with
    | nil =>
      rw [getEnt_cons, he, if_pos le_rfl, if_pos rfl] at hin
      injection hin with hin
      rw [show e = ⟨e.index, e.value⟩ from rfl, he, hin]
    | cons f fs =>
      have hf := h f (List.mem_cons_of_mem _ (List.mem_cons_self f fs))
      have hlt := (List.pairwise_cons.mp hs).1 f (List.mem_cons_self f fs)
      rw [he, hf] at hlt
      exact absurd hlt (lt_irrefl i)

/-- A freshly allocated sparse matrix is well-formed. -/
theorem init_s_matrix_wf {V : Type} {ops : VOps V} {n_rows n_cols : Nat}
    {m : SMatrix V} (h : SP.init_s_matrix n_rows n_cols = some m) :
    MatWF ops.isZero m := by
  rw [SP.init_s_matrix] at h
  split at h
  · cases h
  injection h with h
  subst h
  have hget : ∀ (n : Nat) (k : Nat),
      ((List.replicate n (⟨0, []⟩ : SVector V)).getD k default) = ⟨0, []⟩ := by
    intro n k
    by_cases hk : k < n
    · exact List.eq_of_mem_replicate
        (getD_mem default (by simpa using hk))
    · rw [List.getD_eq_default _ _ (by simpa using hk)]
      rfl
  have hvwf : ∀ (mi : Nat), VecWF ops.isZero mi (⟨0, []⟩ : SVector V) := by
    intro mi
    refine ⟨List.Pairwise.nil, ?_, fun hq => rfl, fun _ => rfl⟩
    intro e he
    cases he
  refine ⟨by simp, by simp, ?_, ?_, ?_, ?_⟩
  · intro vec hv
    rw [List.eq_of_mem_replicate hv]
    exact hvwf _
  · intro vec hv
    rw [List.eq_of_mem_replicate hv]
    exact hvwf _
  · intro k hk e he
    rw [hget] at he
    cases he
  · intro k hk e he
    rw [hget] at he
    cases he

theorem except_bind_ok {ε α β : Type} (a : α) (f : α → Except ε β) :
    (Except.ok a >>= f) = f a := rfl

theorem except_bind_err {ε α β : Type} (e : ε) (f : α → Except ε β) :
    ((Except.error e : Except ε α) >>= f) = Except.error e := rfl

namespace SparreduceU

/-- The fold of `assign_matrix` preserves well-formedness. -/
theorem assign_matrix_wf {matr : SMatrix UV} {els : List Int} {len : Nat}
    {m' : SMatrix UV} (h : assign_matrix matr els len = Except.ok m')
    (hwf : MatWF UOps.isZero matr) : MatWF UOps.isZero m' := by
  rw [assign_matrix] at h
  generalize (els.take len) = l at h
  induction l generalizing matr with
  | nil =>
    injection h with h
    subst h
    exact hwf
  | cons x xs ih =>
    rw [List.foldlM_cons] at h
    dsimp only at h
    split at h
    · cases h
    · rename_i m2 hadd
      exact ih (gadd_m_entry_spec hadd hwf).1 h

/-- `assign_matrix` only ever fails with its own error message. -/
theorem assign_matrix_error {matr : SMatrix UV} {els : List Int} {len : Nat}
    {e : String} (h : assign_matrix matr els len = Except.error e) :
    e = "assign_matrix: add_m_entry failed" := by
  rw [assign_matrix] at h
  generalize (els.take len) = l at h
  induction l generalizing matr with
  | nil => cases h
  | cons x xs ih =>
    rw [List.foldlM_cons] at h
    dsimp only at h
    split at h
    · have h2 : (Except.error "assign_matrix: add_m_entry failed" :
          Except String (SMatrix UV)) = Except.error e := h
      injection h2 with h2
      exact h2.symm
    · exact ih h

/-- Digest of a successful `init_diff_matrix`: only the chosen matrix slot
changes, and it is well-formed. -/
theorem init_diff_matrix_spec {st : CState} {k : Nat} {st' : CState}
    (h : init_diff_matrix st k = Except.ok st') (hwf : CStateWF st) :
    CStateWF st' ∧ st'.first_group = st.first_group ∧
    st'.last_group = st.last_group ∧ st'.cplx_size = st.cplx_size ∧
    st'.group_ranks = st.group_ranks ∧ st'.num_gens = st.num_gens ∧
    st'.matrices.length = st.matrices.length := by
  rw [init_diff_matrix] at h
  split at h
  · injection h with h
    subst h
    exact ⟨hwf, rfl, rfl, rfl, rfl, rfl, rfl⟩
  · split at h
    · cases h
    · rename_i m0 hinit
      split at h
      · cases h
      · rename_i m hassign
        injection h with h
        subst h
        refine ⟨?_, rfl, rfl, rfl, rfl, rfl, by simp⟩
        intro mm hmm
        rcases List.mem_or_eq_of_mem_set hmm with hmm | hmm
        · exact hwf mm hmm
        · rw [hmm]
          exact assign_matrix_wf hassign (init_s_matrix_wf hinit)

/-- `init_diff_matrix` never fails with the assertion message of
`eliminate_gens`. -/
theorem init_diff_matrix_error {st : CState} {k : Nat} {e : String}
    (h : init_diff_matrix st k = Except.error e) : e ≠ gen_error := by
  rw [init_diff_matrix] at h
  split at h
  · cases h
  · split at h
    · injection h with h
      subst h
      decide
    · split at h
      · rename_i e2 hass
        injection h with h
        subst h
        rw [assign_matrix_error hass]
        decide
      · cases h

/-- Digest of `kill_gen`: it fails only with its own error messages, and on
success the slot `g` of the matrices is column-erased exactly when
`g < last_group`. -/
theorem kill_gen_spec {st : CState} {g gen : Nat}
    (hfg : 0 ≤ st.first_group) (hlen : g < st.matrices.length) :
    (∃ e, kill_gen st g gen = Except.error e ∧ e ≠ gen_error) ∨
    (∃ st', kill_gen st g gen = Except.ok st' ∧
      st'.first_group = st.first_group ∧
      st'.last_group = st.last_group ∧
      st'.cplx_size = st.cplx_size ∧
      st'.group_ranks = st.group_ranks ∧
      st'.matrices.length = st.matrices.length ∧
      (CStateWF st → CStateWF st') ∧
      (((g : Int) < st.last_group) →
        ∃ mg', SparmatU.erase_m_column (st.matrices.getD g default) gen true
          = some mg' ∧ st'.matrices.getD g default = mg') ∧
      (¬((g : Int) < st.last_group) →
        st'.matrices.getD g default = st.matrices.getD g default)) := by
  rw [kill_gen]
  by_cases h1 : st.first_group < (g : Int)
  · have hg1 : 1 ≤ g := by omega
    rw [if_pos h1]
    cases her : SparmatU.erase_m_row (st.matrices.getD (g - 1) default)
        gen true with
    | none => exact Or.inl ⟨_, rfl, by decide⟩
    | some mres =>
      dsimp only
      rw [except_bind_ok]
      dsimp only
      rw [getD_set_ne _ _ _ _ _ (show g - 1 ≠ g by omega)]
      by_cases h2 : (g : Int) < st.last_group
      · rw [if_pos h2]
        cases hec : SparmatU.erase_m_column (st.matrices.getD g default)
            gen true with
        | none => exact Or.inl ⟨_, rfl, by decide⟩
        | some mc =>
          dsimp only
          rw [except_bind_ok]
          refine Or.inr ⟨_, rfl, rfl, rfl, rfl, rfl, by simp, ?_, ?_, ?_⟩
          · intro hwf mm hmm
            rcases List.mem_or_eq_of_mem_set hmm with hmm | hmm
            · rcases List.mem_or_eq_of_mem_set hmm with hmm | hmm
              · exact hwf mm hmm
              · rw [hmm]
                exact (gerase_m_row_spec her
                  (hwf _ (getD_mem default (by omega)))).1
            · rw [hmm]
              exact (gerase_m_column_spec hec
                (hwf _ (getD_mem default hlen))).1
          · intro _
            refine ⟨mc, rfl, ?_⟩
            show ((st.matrices.set (g - 1) mres).set g mc).getD g default = mc
            exact getD_set_self _ _ _ _ (by simpa using hlen)
          · intro hq
            exact absurd h2 hq
      · rw [if_neg h2]
        refine Or.inr ⟨_, rfl, rfl, rfl, rfl, rfl, by simp, ?_,
          fun hq => absurd hq h2, ?_⟩
        · intro hwf mm hmm
          rcases List.mem_or_eq_of_mem_set hmm with hmm | hmm
          · exact hwf mm hmm
          · rw [hmm]
            exact (gerase_m_row_spec her
              (hwf _ (getD_mem default (by omega)))).1
        · intro _
          show (st.matrices.set (g - 1) mres).getD g default = _
          exact getD_set_ne _ _ _ _ _ (by omega)
  · rw [if_neg h1]
    simp only [except_bind_ok]
    by_cases h2 : (g : Int) < st.last_group
    · rw [if_pos h2]
      cases hec : SparmatU.erase_m_column (st.matrices.getD g default)
          gen true with
      | none => exact Or.inl ⟨_, rfl, by decide⟩
      | some mc =>
        refine Or.inr ⟨_, rfl, rfl, rfl, rfl, rfl, by simp, ?_, ?_, ?_⟩
        · intro hwf mm hmm
          rcases List.mem_or_eq_of_mem_set hmm with hmm | hmm
          · exact hwf mm hmm
          · rw [hmm]
            exact (gerase_m_column_spec hec
              (hwf _ (getD_mem default hlen))).1
        · intro _
          refine ⟨mc, rfl, ?_⟩
          show (st.matrices.set g mc).getD g default = mc
          exact getD_set_self _ _ _ _ hlen
        · intro hq
          exact absurd h2 hq
    · rw [if_neg h2]
      exact Or.inr ⟨_, rfl, rfl, rfl, rfl, rfl, rfl, fun hwf => hwf,
        fun hq => absurd hq h2, fun _ => rfl⟩

theorem mergedCell_some_some {V : Type} (ops : VOps V) (s v1 v2 : V) :
    SP.mergedCell ops s (some v1) (some v2) =
      if ops.isZero (ops.vadd v1 (ops.vmul s v2)) then none
      else some (ops.vadd v1 (ops.vmul s v2)) := rfl

/-- Invariant of the column sweep of `eliminate_gens`: starting from a
well-formed state in which the pivot cell of row `gen` holds the unit `pv`
and every unswept snapshot entry is still current, the sweep either fails
inside `add_m_cols` or succeeds leaving a well-formed state whose row `gen`
is empty away from the pivot and still holds `pv` at the pivot. -/
theorem sweepEntries_spec {group inc_gen gen : Nat} {pv : UV}
    (hpv : Uabs pv = 1) (hgen1 : 1 ≤ gen) (hinc1 : 1 ≤ inc_gen) :
    ∀ (l : List (SEntry UV)) (st : CState),
    CStateWF st →
    group - 1 < st.matrices.length →
    l.Pairwise (fun a b => a.index < b.index) →
    (∀ e ∈ l, 1 ≤ e.index) →
    rowGet (st.matrices.getD (group - 1) default) gen inc_gen = some pv →
    (∀ e ∈ l, e.index ≠ inc_gen →
      rowGet (st.matrices.getD (group - 1) default) gen e.index =
        some e.value) →
    (∀ j, 1 ≤ j → j ≠ inc_gen →
      rowGet (st.matrices.getD (group - 1) default) gen j = none ∨
        ∃ e ∈ l, e.index = j) →
    sweepEntries st group inc_gen (-pv.1, -pv.2) l =
        Except.error "add_m_cols: failed" ∨
    ∃ st', sweepEntries st group inc_gen (-pv.1, -pv.2) l = Except.ok st' ∧
      CStateWF st' ∧
      st'.first_group = st.first_group ∧
      st'.last_group = st.last_group ∧
      st'.cplx_size = st.cplx_size ∧
      st'.group_ranks = st.group_ranks ∧
      st'.matrices.length = st.matrices.length ∧
      (st'.matrices.getD (group - 1) default).num_rows =
        (st.matrices.getD (group - 1) default).num_rows ∧
      (st'.matrices.getD (group - 1) default).num_cols =
        (st.matrices.getD (group - 1) default).num_cols ∧
      rowGet (st'.matrices.getD (group - 1) default) gen inc_gen = some pv ∧
      (∀ j, 1 ≤ j → j ≠ inc_gen →
        rowGet (st'.matrices.getD (group - 1) default) gen j = none) := by
  intro l
  induction l with
  | nil =>
    intro st hwf hml hs hpos hpiv hsnap hsupp
    refine Or.inr ⟨st, rfl, hwf, rfl, rfl, rfl, rfl, rfl, rfl, rfl, hpiv, ?_⟩
    intro j hj hjne
    rcases hsupp j hj hjne with hn | ⟨e, he, _⟩
    · exact hn
    · cases he
  | cons e es ih =>
    intro st hwf hml hs hpos hpiv hsnap hsupp
    have hs' := (List.pairwise_cons.mp hs).2
    have hgt := (List.pairwise_cons.mp hs).1
    have hpos' : ∀ f ∈ es, 1 ≤ f.index :=
      fun f hf => hpos f (List.mem_cons_of_mem _ hf)
    by_cases hne : e.index ≠ inc_gen
    case neg =>
      rw [not_not] at hne
      rw [sweepEntries, if_neg (not_not_intro hne)]
      apply ih st hwf hml hs' hpos' hpiv
        (fun f hf hfne => hsnap f (List.mem_cons_of_mem _ hf) hfne)
      intro j hj hjne
      rcases hsupp j hj hjne with hn | ⟨f, hf, hfj⟩
      · exact Or.inl hn
      · rcases List.mem_cons.mp hf with hfe | hfe
        · subst hfe
          rw [hne] at hfj
          exact absurd hfj.symm hjne
        · exact Or.inr ⟨f, hfe, hfj⟩
    case pos =>
      rw [sweepEntries, if_pos hne]
      cases hadd : SparmatU.add_m_cols (st.matrices.getD (group - 1) default)
          e.index inc_gen (mult_Uvals e.value (-pv.1, -pv.2)) with
      | none => exact Or.inl rfl
      | some p =>
        obtain ⟨m2, mx⟩ := p
        have hspec := gadd_m_cols_spec hadd (hwf _ (getD_mem default hml))
        obtain ⟨hwfm2, hnr2, hnc2, hrowf, hcolf, hbnd, hmx0, hmxat,
          hl1, hl2, hc11, hc12, hc21, hc22⟩ := hspec
        have he1 : 1 ≤ e.index := hpos e (List.mem_cons_self _ _)
        have hg2 : ({ st with matrices := st.matrices.set (group - 1) m2 }
            : CState).matrices.getD (group - 1) default = m2 := by
          show (st.matrices.set (group - 1) m2).getD (group - 1) default = m2
          exact getD_set_self _ _ _ _ hml
        have hwf2 : CStateWF { st with
            matrices := st.matrices.set (group - 1) m2 } := by
          intro mm hmm
          rcases List.mem_or_eq_of_mem_set hmm with hmm | hmm
          · exact hwf mm hmm
          · rw [hmm]; exact hwfm2
        have hml2 : group - 1 < ({ st with
            matrices := st.matrices.set (group - 1) m2 }
            : CState).matrices.length := by
          simpa using hml
        have hpiv2 : rowGet (({ st with
            matrices := st.matrices.set (group - 1) m2 }
            : CState).matrices.getD (group - 1) default) gen inc_gen =
            some pv := by
          rw [hg2, hrowf gen inc_gen hgen1 hinc1,
            if_neg (fun hq => hne hq.symm)]
          exact hpiv
        have hsnap2 : ∀ f ∈ es, f.index ≠ inc_gen →
            rowGet (({ st with
              matrices := st.matrices.set (group - 1) m2 }
              : CState).matrices.getD (group - 1) default) gen f.index =
            some f.value := by
          intro f hf hfne
          have hflt := hgt f hf
          rw [hg2, hrowf gen f.index hgen1 (hpos' f hf),
            if_neg (by omega)]
          exact hsnap f (List.mem_cons_of_mem _ hf) hfne
        have hsupp2 : ∀ j, 1 ≤ j → j ≠ inc_gen →
            rowGet (({ st with
              matrices := st.matrices.set (group - 1) m2 }
              : CState).matrices.getD (group - 1) default) gen j = none ∨
            ∃ f ∈ es, f.index = j := by
          intro j hj hjne
          rw [hg2, hrowf gen j hgen1 hj]
          by_cases hje : j = e.index
          · rw [if_pos hje]
            left
            have hce : colGet (st.matrices.getD (group - 1) default) gen
                e.index = some e.value := by
              rw [← rowGet_eq_colGet (hwf _ (getD_mem default hml))
                hgen1 he1]
              exact hsnap e (List.mem_cons_self _ _) hne
            have hcp : colGet (st.matrices.getD (group - 1) default) gen
                inc_gen = some pv := by
              rw [← rowGet_eq_colGet (hwf _ (getD_mem default hml))
                hgen1 hinc1]
              exact hpiv
            rw [hce, hcp, mergedCell_some_some]
            rw [show UOps.vadd e.value
                (UOps.vmul (mult_Uvals e.value (-pv.1, -pv.2)) pv) =
                ((0 : Int), (0 : Int)) from unit_sweep_cancel hpv e.value]
            rw [if_pos (by decide)]
          · rw [if_neg hje]
            rcases hsupp j hj hjne with hn | ⟨f, hf, hfj⟩
            · exact Or.inl hn
            · rcases List.mem_cons.mp hf with hfe | hfe
              · subst hfe
                exact absurd hfj.symm hje
              · exact Or.inr ⟨f, hfe, hfj⟩
        rcases ih { st with matrices := st.matrices.set (group - 1) m2 }
            hwf2 hml2 hs' hpos' hpiv2 hsnap2 hsupp2 with
          herr | ⟨st', hok, hwf', hfg', hlg', hcs', hgr', hlen', hnr', hnc',
            hpiv', hnone'⟩
        · exact Or.inl herr
        · refine Or.inr ⟨st', hok, hwf', hfg', hlg', hcs', ?_, ?_, ?_, ?_,
            hpiv', hnone'⟩
          · exact hgr'
          · rw [hlen']
            simp
          · rw [hnr', hg2, hnr2]
          · rw [hnc', hg2, hnc2]

end SparreduceU

theorem default_matwf {V : Type} {ops : VOps V} :
    MatWF ops.isZero (default : SMatrix V) := by
  refine ⟨rfl, rfl, ?_, ?_, ?_, ?_⟩
  · intro vec hv; cases hv
  · intro vec hv; cases hv
  · intro k hk; cases hk
  · intro k hk; cases hk

namespace SparreduceU

theorem cstate_getD_wf {st : CState} (hwf : CStateWF st) (k : Nat) :
    MatWF UOps.isZero (st.matrices.getD k default) := by
  by_cases hk : k < st.matrices.length
  · exact hwf _ (getD_mem default hk)
  · rw [List.getD_eq_default _ _ (by omega)]
    exact default_matwf

/-- `kill_gen` without the slot characterization: it fails only with its own
messages and on success preserves well-formedness and the bookkeeping. -/
theorem kill_gen_basic {st : CState} {g gen : Nat}
    (hfg : 0 ≤ st.first_group) :
    (∃ e, kill_gen st g gen = Except.error e ∧ e ≠ gen_error) ∨
    (∃ st', kill_gen st g gen = Except.ok st' ∧
      (CStateWF st → CStateWF st') ∧
      st'.first_group = st.first_group ∧
      st'.last_group = st.last_group ∧
      st'.cplx_size = st.cplx_size ∧
      st'.group_ranks = st.group_ranks ∧
      st'.matrices.length = st.matrices.length) := by
  rw [kill_gen]
  by_cases h1 : st.first_group < (g : Int)
  · rw [if_pos h1]
    cases her : SparmatU.erase_m_row (st.matrices.getD (g - 1) default)
        gen true with
    | none => exact Or.inl ⟨_, rfl, by decide⟩
    | some mres =>
      dsimp only
      rw [except_bind_ok]
      dsimp only
      by_cases h2 : (g : Int) < st.last_group
      · rw [if_pos h2]
        cases hec : SparmatU.erase_m_column
            ((st.matrices.set (g - 1) mres).getD g default) gen true with
        | none => exact Or.inl ⟨_, rfl, by decide⟩
        | some mc =>
          dsimp only
          rw [except_bind_ok]
          refine Or.inr ⟨_, rfl, ?_, rfl, rfl, rfl, rfl, by simp⟩
          intro hwf mm hmm
          rcases List.mem_or_eq_of_mem_set hmm with hmm | hmm
          · rcases List.mem_or_eq_of_mem_set hmm with hmm | hmm
            · exact hwf mm hmm
            · rw [hmm]
              exact (gerase_m_row_spec her (cstate_getD_wf hwf (g - 1))).1
          · rw [hmm]
            have hwf1 : ∀ mm2 ∈ st.matrices.set (g - 1) mres,
                MatWF UOps.isZero mm2 := by
              intro mm2 hmm2
              rcases List.mem_or_eq_of_mem_set hmm2 with hmm2 | hmm2
              · exact hwf mm2 hmm2
              · rw [hmm2]
                exact (gerase_m_row_spec her (cstate_getD_wf hwf (g - 1))).1
            refine (gerase_m_column_spec hec ?_).1
            by_cases hk : g < (st.matrices.set (g - 1) mres).length
            · exact hwf1 _ (getD_mem default hk)
            · rw [List.getD_eq_default _ _ (by omega)]
              exact default_matwf
      · rw [if_neg h2]
        refine Or.inr ⟨_, rfl, ?_, rfl, rfl, rfl, rfl, by simp⟩
        intro hwf mm hmm
        rcases List.mem_or_eq_of_mem_set hmm with hmm | hmm
        · exact hwf mm hmm
        · rw [hmm]
          exact (gerase_m_row_spec her (cstate_getD_wf hwf (g - 1))).1
  · rw [if_neg h1]
    simp only [except_bind_ok]
    by_cases h2 : (g : Int) < st.last_group
    · rw [if_pos h2]
      cases hec : SparmatU.erase_m_column (st.matrices.getD g default)
          gen true with
      | none => exact Or.inl ⟨_, rfl, by decide⟩
      | some mc =>
        refine Or.inr ⟨_, rfl, ?_, rfl, rfl, rfl, rfl, by simp⟩
        intro hwf mm hmm
        rcases List.mem_or_eq_of_mem_set hmm with hmm | hmm
        · exact hwf mm hmm
        · rw [hmm]
          exact (gerase_m_column_spec hec (cstate_getD_wf hwf g)).1
    · rw [if_neg h2]
      exact Or.inr ⟨_, rfl, fun hwf => hwf, rfl, rfl, rfl, rfl, rfl⟩

/-- `elimGen` never fails with the assert message `gen_error`: when a pivot
is found, the sweep leaves exactly the pivot in the row (first assert) and
`kill_gen` then empties it (second assert).  On success well-formedness and
the bookkeeping fields are preserved. -/
theorem elimGen_spec {st : CState} {group : Nat} {ds : Bool} {gen : Nat}
    (hwf : CStateWF st) (hfg : 0 ≤ st.first_group)
    (hg1 : 1 ≤ group) (hgl : (group : Int) ≤ st.last_group)
    (hgen1 : 1 ≤ gen) :
    (∃ e, elimGen st group ds gen = Except.error e ∧ e ≠ gen_error) ∨
    (∃ st' b, elimGen st group ds gen = Except.ok (st', b) ∧ CStateWF st' ∧
      st'.first_group = st.first_group ∧ st'.last_group = st.last_group ∧
      st'.cplx_size = st.cplx_size ∧ st'.group_ranks = st.group_ranks ∧
      st'.matrices.length = st.matrices.length) := by
  rw [elimGen]
  dsimp only
  split
  · exact Or.inr ⟨st, false, rfl, hwf, rfl, rfl, rfl, rfl, rfl⟩
  split
  · exact Or.inr ⟨st, false, rfl, hwf, rfl, rfl, rfl, rfl, rfl⟩
  split
  · exact Or.inr ⟨st, false, rfl, hwf, rfl, rfl, rfl, rfl, rfl⟩
  · exact Or.inr ⟨st, false, rfl, hwf, rfl, rfl, rfl, rfl, rfl⟩
  rename_i pent hfind
  obtain ⟨hmem, hpvabs, hnd⟩ := find_v_unit_some hfind
  by_cases hmlt : group - 1 < st.matrices.length
  case neg =>
    rw [List.getD_eq_default _ _
      (show st.matrices.length ≤ group - 1 by omega)] at hmem
    exact absurd hmem (List.not_mem_nil pent)
  case pos =>
  by_cases hgenlt : gen - 1 <
      (st.matrices.getD (group - 1) default).rows.length
  case neg =>
    rw [List.getD_eq_default _ _
      (show (st.matrices.getD (group - 1) default).rows.length ≤ gen - 1
        by omega)] at hmem
    exact absurd hmem (List.not_mem_nil pent)
  case pos =>
  have hmwf := hwf _ (getD_mem default hmlt)
  have hvwf := hmwf.2.2.1 _ (getD_mem default hgenlt)
  have hinc1 : 1 ≤ pent.index := (hvwf.2.1 pent hmem).1
  have hgenle : gen ≤ (st.matrices.getD (group - 1) default).num_rows := by
    have := hmwf.1
    omega
  have hpiv : rowGet (st.matrices.getD (group - 1) default) gen pent.index =
      some pent.value := getEnt_eq_some_of_mem hvwf.1 hmem
  have hpv : Uabs pent.value = 1 := hpvabs
  have hsupp : ∀ j, 1 ≤ j → j ≠ pent.index →
      rowGet (st.matrices.getD (group - 1) default) gen j = none ∨
      ∃ e ∈ ((st.matrices.getD (group - 1) default).rows.getD
        (gen - 1) default).entries, e.index = j := by
    intro j hj hjne
    cases hg : rowGet (st.matrices.getD (group - 1) default) gen j with
    | none => exact Or.inl rfl
    | some v => exact Or.inr ⟨⟨j, v⟩, getEnt_mem hg, rfl⟩
  rcases sweepEntries_spec hpv hgen1 hinc1
      ((st.matrices.getD (group - 1) default).rows.getD (gen - 1)
        default).entries st hwf hmlt hvwf.1
      (fun e he => (hvwf.2.1 e he).1) hpiv
      (fun e he _ => getEnt_eq_some_of_mem hvwf.1 he)
      hsupp with hserr | ⟨st2, hsok, hwf2, hfg2, hlg2, hcs2, hgr2, hlen2,
        hnr2, hnc2, hpiv2, hnone2⟩
  · refine Or.inl ⟨"add_m_cols: failed", ?_, by decide⟩
    rw [hserr]
    rfl
  · rw [hsok]
    simp only [except_bind_ok]
    have hm2wf := hwf2 _ (getD_mem default (show group - 1 <
        st2.matrices.length by rw [hlen2]; exact hmlt))
    have hgenlt2 : gen - 1 <
        (st2.matrices.getD (group - 1) default).rows.length := by
      rw [hm2wf.1, hnr2]
      omega
    have hv2wf := hm2wf.2.2.1 _ (getD_mem default hgenlt2)
    have hents2 : ((st2.matrices.getD (group - 1) default).rows.getD
        (gen - 1) default).entries = [⟨pent.index, pent.value⟩] := by
      apply entries_eq_single_of_getEnt hv2wf.1 hpiv2
      intro x hx
      by_contra hxne
      have hgx : SP.getEnt ((st2.matrices.getD (group - 1)
          default).rows.getD (gen - 1) default).entries x.index =
          some x.value := getEnt_eq_some_of_mem hv2wf.1 hx
      have hno : SP.getEnt ((st2.matrices.getD (group - 1)
          default).rows.getD (gen - 1) default).entries x.index = none :=
        hnone2 x.index (hv2wf.2.1 x hx).1 hxne
      rw [hgx] at hno
      cases hno
    have hnum2 : ((st2.matrices.getD (group - 1) default).rows.getD
        (gen - 1) default).num_entries = 1 := by
      have hne0 : ((st2.matrices.getD (group - 1) default).rows.getD
          (gen - 1) default).num_entries ≠ -1 := by
        intro habs
        have hq := hv2wf.2.2.1 habs
        rw [hents2] at hq
        cases hq
      have hq := hv2wf.2.2.2 hne0
      rw [hents2] at hq
      simpa using hq
    rw [if_neg (not_not_intro hnum2)]
    have hfg2' : 0 ≤ st2.first_group := by rw [hfg2]; exact hfg
    have hlen2' : group - 1 < st2.matrices.length := by
      rw [hlen2]; exact hmlt
    rcases @kill_gen_spec st2 (group - 1) pent.index
        hfg2' hlen2' with ⟨e, hke, hne⟩ | ⟨st3, hkok, hfg3, hlg3, hcs3,
          hgr3, hlen3, hwf3i, hchar, hcharn⟩
    · refine Or.inl ⟨e, ?_, hne⟩
      rw [hke]
      rfl
    · rw [hkok]
      simp only [except_bind_ok]
      have hwf3 := hwf3i hwf2
      have hfire : ((group - 1 : Nat) : Int) < st2.last_group := by
        rw [hlg2]
        omega
      obtain ⟨mg', hec, hslot⟩ := hchar hfire
      have hmg'spec := gerase_m_column_spec hec hm2wf
      have hmg'wf := hmg'spec.1
      have hgenlt3 : gen - 1 < mg'.rows.length := by
        rw [hmg'wf.1, hmg'spec.2.1, hnr2]
        omega
      have hv3wf := hmg'wf.2.2.1 _ (getD_mem default hgenlt3)
      have hents3 : (mg'.rows.getD (gen - 1) default).entries = [] := by
        apply entries_eq_nil_of_none hv3wf.1 (fun e he => (hv3wf.2.1 e he).1)
        intro j hj
        have hrg := hmg'spec.2.2.2.1 gen j hgen1 hj
        by_cases hjp : j = pent.index
        · rw [if_pos hjp] at hrg
          exact hrg
        · rw [if_neg hjp] at hrg
          have : rowGet mg' gen j = none := by
            rw [hrg]
            exact hnone2 j hj hjp
          exact this
      have hlive3 : (mg'.rows.getD (gen - 1) default).num_entries ≠ -1 := by
        intro habs
        have hiff := (hmg'spec.2.2.2.2.2.2.1 (gen - 1)).mp habs
        rw [hnum2] at hiff
        exact absurd hiff (by decide)
      have hnum3 : (mg'.rows.getD (gen - 1) default).num_entries = 0 := by
        have hq := hv3wf.2.2.2 hlive3
        rw [hents3] at hq
        simpa using hq
      rw [if_neg (not_not_intro (show ((st3.matrices.getD (group - 1)
          default).rows.getD (gen - 1) default).num_entries = 0 by
        rw [hslot]; exact hnum3))]
      have hfg3' : 0 ≤ st3.first_group := by rw [hfg3]; exact hfg2'
      rcases @kill_gen_basic st3 group gen hfg3' with
        ⟨e, hke, hne⟩ | ⟨st4, hkok4, hwf4i, hfg4, hlg4, hcs4, hgr4, hlen4⟩
      · refine Or.inl ⟨e, ?_, hne⟩
        rw [hke]
        rfl
      · rw [hkok4]
        refine Or.inr ⟨st4, true, rfl, hwf4i hwf3, ?_, ?_, ?_, ?_, ?_⟩
        · rw [hfg4, hfg3, hfg2]
        · rw [hlg4, hlg3, hlg2]
        · rw [hcs4, hcs3, hcs2]
        · rw [hgr4, hgr3, hgr2]
        · rw [hlen4, hlen3, hlen2]

/-- The generator fold of `eliminate_gens` never hits the assert message. -/
theorem elimFold_spec {group : Nat} {ds : Bool} :
    ∀ (gens : List Nat) (st : CState) (isf : Bool),
    CStateWF st → 0 ≤ st.first_group → 1 ≤ group →
    (group : Int) ≤ st.last_group →
    (∀ g ∈ gens, 1 ≤ g) →
    (∃ e, elimFold group ds gens st isf = Except.error e ∧ e ≠ gen_error) ∨
    (∃ st' b, elimFold group ds gens st isf = Except.ok (st', b) ∧
      CStateWF st' ∧ st'.first_group = st.first_group ∧
      st'.last_group = st.last_group) := by
  intro gens
  induction gens with
  | nil =>
    intro st isf hwf hfg hg1 hgl hpos
    exact Or.inr ⟨st, isf, rfl, hwf, rfl, rfl⟩
  | cons g gs ih =>
    intro st isf hwf hfg hg1 hgl hpos
    rw [elimFold]
    rcases @elimGen_spec st group ds g
        hwf hfg hg1 hgl (hpos g (List.mem_cons_self _ _)) with
      ⟨e, hge, hne⟩ | ⟨st1, b, hgok, hwf1, hfg1, hlg1, _, _, _⟩
    · refine Or.inl ⟨e, ?_, hne⟩
      rw [hge]
      rfl
    · rw [hgok]
      simp only [except_bind_ok]
      rcases ih st1 (isf || b) hwf1 (by rw [hfg1]; exact hfg) hg1
          (by rw [hlg1]; exact hgl)
          (fun g2 hg2 => hpos g2 (List.mem_cons_of_mem _ hg2)) with
        ⟨e, hfe, hne⟩ | ⟨st2, b2, hfok, hwf2, hfg2, hlg2⟩
      · exact Or.inl ⟨e, hfe, hne⟩
      · exact Or.inr ⟨st2, b2, hfok, hwf2,
          by rw [hfg2]; exact hfg1, by rw [hlg2]; exact hlg1⟩

/-- The two assertion branches of `eliminate_gens` are unreachable from any
well-formed state: the function may fail inside `add_m_cols`, `kill_gen` or
the lazy materialisation, but never with `gen_error`. -/
theorem eliminate_gens_no_gen_error {st : CState} {group : Nat} {ds : Bool}
    (hwf : CStateWF st) (hfg : 0 ≤ st.first_group)
    (hg1 : 1 ≤ group) (hgl : (group : Int) ≤ st.last_group) :
    eliminate_gens st group ds ≠ Except.error gen_error := by
  intro hcontra
  rw [eliminate_gens] at hcontra
  have step : ∀ (st1 : CState), CStateWF st1 → 0 ≤ st1.first_group →
      (group : Int) ≤ st1.last_group →
      (elimFold group ds
        (List.range' 1 (st1.group_ranks.getD group 0).toNat) st1 false ≠
        Except.error gen_error) := by
    intro st1 hwf1 hfg1 hgl1 hq
    rcases elimFold_spec (List.range' 1 (st1.group_ranks.getD group 0).toNat)
        st1 false hwf1 hfg1 hg1 hgl1
        (fun g2 hg2 => (List.mem_range'_1.mp hg2).1) with
      ⟨e, hfe, hne⟩ | ⟨st2, b2, hfok, _, _, _⟩
    · rw [hfe] at hq
      injection hq with hq
      exact hne hq
    · rw [hfok] at hq
      cases hq
  split at hcontra
  case isTrue h1 =>
    cases hi1 : init_diff_matrix st (group - 2) with
    | error e =>
      rw [hi1, except_bind_err] at hcontra
      injection hcontra with hcontra
      exact init_diff_matrix_error hi1 hcontra
    | ok st1 =>
      rw [hi1] at hcontra
      simp only [except_bind_ok] at hcontra
      obtain ⟨hwf1, hfg1, hlg1, _, _, _, _⟩ := init_diff_matrix_spec hi1 hwf
      split at hcontra
      case isTrue h2 =>
        cases hi2 : init_diff_matrix st1 (group - 1) with
        | error e =>
          rw [hi2, except_bind_err] at hcontra
          injection hcontra with hcontra
          exact init_diff_matrix_error hi2 hcontra
        | ok st2 =>
          rw [hi2] at hcontra
          simp only [except_bind_ok] at hcontra
          obtain ⟨hwf2, hfg2, hlg2, _, _, _, _⟩ :=
            init_diff_matrix_spec hi2 hwf1
          split at hcontra
          case isTrue h3 =>
            cases hi3 : init_diff_matrix st2 group with
            | error e =>
              rw [hi3, except_bind_err] at hcontra
              injection hcontra with hcontra
              exact init_diff_matrix_error hi3 hcontra
            | ok st3 =>
              rw [hi3] at hcontra
              simp only [except_bind_ok] at hcontra
              obtain ⟨hwf3, hfg3, hlg3, _, _, _, _⟩ :=
                init_diff_matrix_spec hi3 hwf2
              exact step st3 hwf3
                (by rw [hfg3, hfg2, hfg1]; exact hfg)
                (by rw [hlg3, hlg2, hlg1]; exact hgl) hcontra
          case isFalse h3 =>
            exact step st2 hwf2 (by rw [hfg2, hfg1]; exact hfg)
              (by rw [hlg2, hlg1]; exact hgl) hcontra
      case isFalse h2 =>
        split at hcontra
        case isTrue h3 =>
          cases hi3 : init_diff_matrix st1 group with
          | error e =>
            rw [hi3, except_bind_err] at hcontra
            injection hcontra with hcontra
            exact init_diff_matrix_error hi3 hcontra
          | ok st3 =>
            rw [hi3] at hcontra
            simp only [except_bind_ok] at hcontra
            obtain ⟨hwf3, hfg3, hlg3, _, _, _, _⟩ :=
              init_diff_matrix_spec hi3 hwf1
            exact step st3 hwf3 (by rw [hfg3, hfg1]; exact hfg)
              (by rw [hlg3, hlg1]; exact hgl) hcontra
        case isFalse h3 =>
          exact step st1 hwf1 (by rw [hfg1]; exact hfg)
            (by rw [hlg1]; exact hgl) hcontra
  case isFalse h1 =>
    simp only [except_bind_ok] at hcontra
    split at hcontra
    case isTrue h2 =>
      cases hi2 : init_diff_matrix st (group - 1) with
      | error e =>
        rw [hi2, except_bind_err] at hcontra
        injection hcontra with hcontra
        exact init_diff_matrix_error hi2 hcontra
      | ok st2 =>
        rw [hi2] at hcontra
        simp only [except_bind_ok] at hcontra
        obtain ⟨hwf2, hfg2, hlg2, _, _, _, _⟩ := init_diff_matrix_spec hi2 hwf
        split at hcontra
        case isTrue h3 =>
          cases hi3 : init_diff_matrix st2 group with
          | error e =>
            rw [hi3, except_bind_err] at hcontra
            injection hcontra with hcontra
            exact init_diff_matrix_error hi3 hcontra
          | ok st3 =>
            rw [hi3] at hcontra
            simp only [except_bind_ok] at hcontra
            obtain ⟨hwf3, hfg3, hlg3, _, _, _, _⟩ :=
              init_diff_matrix_spec hi3 hwf2
            exact step st3 hwf3 (by rw [hfg3, hfg2]; exact hfg)
              (by rw [hlg3, hlg2]; exact hgl) hcontra
        case isFalse h3 =>
          exact step st2 hwf2 (by rw [hfg2]; exact hfg)
            (by rw [hlg2]; exact hgl) hcontra
    case isFalse h2 =>
      split at hcontra
      case isTrue h3 =>
        cases hi3 : init_diff_matrix st group with
        | error e =>
          rw [hi3, except_bind_err] at hcontra
          injection hcontra with hcontra
          exact init_diff_matrix_error hi3 hcontra
        | ok st3 =>
          rw [hi3] at hcontra
          simp only [except_bind_ok] at hcontra
          obtain ⟨hwf3, hfg3, hlg3, _, _, _, _⟩ :=
            init_diff_matrix_spec hi3 hwf
          exact step st3 hwf3 (by rw [hfg3]; exact hfg)
            (by rw [hlg3]; exact hgl) hcontra
      case isFalse h3 =>
        exact step st hwf hfg hgl hcontra

/-- On a state without unit entries in live rows, `elimGen` does nothing. -/
theorem elimGen_noop {st : CState} {group : Nat} {ds : Bool} {gen : Nat}
    (hnur : NoUnitRows st) :
    elimGen st group ds gen = Except.ok (st, false) := by
  rw [elimGen]
  dsimp only
  by_cases hdel : ((st.matrices.getD (group - 1) default).rows.getD
      (gen - 1) default).num_entries = -1
  · rw [if_pos hdel]
  · rw [if_neg hdel]
    by_cases hsh : ds = true ∧ ((st.matrices.getD (group - 1)
        default).rows.getD (gen - 1) default).num_entries > 2
    · rw [if_pos hsh]
    · rw [if_neg hsh]
      have hnounit : ∀ e ∈ ((st.matrices.getD (group - 1) default).rows.getD
          (gen - 1) default).entries, UOps.vabs e.value ≠ 1 := by
        intro e he
        by_cases hmlt : group - 1 < st.matrices.length
        · by_cases hglt : gen - 1 <
              (st.matrices.getD (group - 1) default).rows.length
          · exact hnur _ (getD_mem default hmlt) _ (getD_mem default hglt)
              hdel e he
          · rw [List.getD_eq_default _ _ (by omega)] at he
            cases he
        · rw [List.getD_eq_default _ _
            (show st.matrices.length ≤ group - 1 by omega)] at he
          cases he
      have hf : SparmatU.find_v_unit ((st.matrices.getD (group - 1)
          default).rows.getD (gen - 1) default) = some none :=
        find_v_unit_none_of_no_unit hdel hnounit
      rw [hf]

/-- On a state without unit entries in live rows, the generator fold does
nothing. -/
theorem elimFold_noop {group : Nat} {ds : Bool} :
    ∀ (gens : List Nat) (st : CState) (isf : Bool), NoUnitRows st →
    elimFold group ds gens st isf = Except.ok (st, isf) := by
  intro gens
  induction gens with
  | nil => intro st isf _; rfl
  | cons g gs ih =>
    intro st isf hnur
    rw [elimFold, elimGen_noop hnur]
    simp only [except_bind_ok, Bool.or_false]
    exact ih st isf hnur

/-- On a fully materialised state (every differential in the active range
has a row array) without unit entries, `eliminate_gens` does nothing and
reports that no generator was eliminated. -/
theorem eliminate_gens_noop {st : CState} {group : Nat} {ds : Bool}
    (hnur : NoUnitRows st)
    (hm : ∀ k : Nat, st.first_group ≤ (k : Int) → (k : Int) < st.last_group →
      (st.matrices.getD k default).rows ≠ []) :
    eliminate_gens st group ds = Except.ok (st, false) := by
  have hstep : ∀ k : Nat, (st.matrices.getD k default).rows = [] →
      init_diff_matrix st k = Except.ok st := by
    intro k hk
    rw [init_diff_matrix]
    by_cases hin : (k : Int) < st.first_group ∨ (k : Int) ≥ st.last_group
    · rw [if_pos hin]
    · push_neg at hin
      exact absurd hk (hm k (by omega) hin.2)
  rw [eliminate_gens]
  by_cases h1 : st.first_group + 1 < (group : Int) ∧
      (st.matrices.getD (group - 2) default).rows = []
  · rw [if_pos h1, hstep _ h1.2]
    simp only [except_bind_ok]
    by_cases h2 : st.first_group < (group : Int) ∧
        (st.matrices.getD (group - 1) default).rows = []
    · rw [if_pos h2, hstep _ h2.2]
      simp only [except_bind_ok]
      by_cases h3 : (group : Int) < st.last_group ∧
          (st.matrices.getD group default).rows = []
      · rw [if_pos h3, hstep _ h3.2]
        exact elimFold_noop _ st false hnur
      · rw [if_neg h3]
        exact elimFold_noop _ st false hnur
    · rw [if_neg h2]
      by_cases h3 : (group : Int) < st.last_group ∧
          (st.matrices.getD group default).rows = []
      · rw [if_pos h3, hstep _ h3.2]
        exact elimFold_noop _ st false hnur
      · rw [if_neg h3]
        exact elimFold_noop _ st false hnur
  · rw [if_neg h1]
    simp only [except_bind_ok]
    by_cases h2 : st.first_group < (group : Int) ∧
        (st.matrices.getD (group - 1) default).rows = []
    · rw [if_pos h2, hstep _ h2.2]
      simp only [except_bind_ok]
      by_cases h3 : (group : Int) < st.last_group ∧
          (st.matrices.getD group default).rows = []
      · rw [if_pos h3, hstep _ h3.2]
        exact elimFold_noop _ st false hnur
      · rw [if_neg h3]
        exact elimFold_noop _ st false hnur
    · rw [if_neg h2]
      by_cases h3 : (group : Int) < st.last_group ∧
          (st.matrices.getD group default).rows = []
      · rw [if_pos h3, hstep _ h3.2]
        exact elimFold_noop _ st false hnur
      · rw [if_neg h3]
        exact elimFold_noop _ st false hnur

/-- Idempotence at the level of the `while (eliminate_gens ...)` loop. -/
theorem elimLoop_noop {st : CState} {group : Nat} {ds : Bool} {fuel : Nat}
    (hnur : NoUnitRows st)
    (hm : ∀ k : Nat, st.first_group ≤ (k : Int) → (k : Int) < st.last_group →
      (st.matrices.getD k default).rows ≠ []) :
    elimLoop group ds (fuel + 1) st = Except.ok st := by
  rw [elimLoop, eliminate_gens_noop hnur hm]
  rfl

/-- Idempotence at the level of the group loop of `reduce_s_complex_U`. -/
theorem groupLoop_noop {st : CState}
    (hnur : NoUnitRows st)
    (hm : ∀ k : Nat, st.first_group ≤ (k : Int) → (k : Int) < st.last_group →
      (st.matrices.getD k default).rows ≠ []) :
    ∀ gs : List Nat, groupLoop gs st = Except.ok st := by
  intro gs
  induction gs with
  | nil => rfl
  | cons g gs2 ih =>
    rw [groupLoop]
    rw [elimLoop_noop hnur hm]
    simp only [except_bind_ok]
    rw [elimLoop_noop hnur hm]
    simp only [except_bind_ok]
    exact ih

/-- With all ranks zero, the first/last-group scans of `init_ranks` never
move off `-1`. -/
theorem init_ranks_fold_first {c_ranks : List Int} :
    ∀ (l : List Nat) (acc : Int), (∀ i ∈ l, c_ranks.getD i 0 = 0) →
    l.foldl (fun acc i =>
      if 0 < c_ranks.getD i 0 ∧ acc < 0 then (i : Int) else acc) acc = acc := by
  intro l
  induction l with
  | nil => intro acc _; rfl
  | cons x xs ih =>
    intro acc hall
    rw [List.foldl_cons, if_neg (by
      intro hq
      have h0 := hall x (List.mem_cons_self _ _)
      rw [h0] at hq
      exact absurd hq.1 (lt_irrefl 0))]
    exact ih acc (fun i hi => hall i (List.mem_cons_of_mem _ hi))

theorem init_ranks_fold_last {c_ranks : List Int} :
    ∀ (l : List Nat) (acc : Int), (∀ i ∈ l, c_ranks.getD i 0 = 0) →
    l.foldl (fun acc i =>
      if 0 < c_ranks.getD i 0 then (i : Int) else acc) acc = acc := by
  intro l
  induction l with
  | nil => intro acc _; rfl
  | cons x xs ih =>
    intro acc hall
    rw [List.foldl_cons, if_neg (by
      intro hq
      have h0 := hall x (List.mem_cons_self _ _)
      rw [h0] at hq
      exact absurd hq (lt_irrefl 0))]
    exact ih acc (fun i hi => hall i (List.mem_cons_of_mem _ hi))

/-- On an all-zero rank vector the reducer returns immediately with the
all-zero answer: zero ranks and the `gen_0` placeholder in every matrix
slot. -/
theorem reduce_all_zero {c_size : Nat} {c_ranks : List Int}
    {d_matrices : List (List Int)} {matr_lengths : List Nat}
    (h : ∀ i, i < c_size → c_ranks.getD i 0 = 0) :
    reduce_s_complex_U c_size c_ranks d_matrices matr_lengths =
      Except.ok ⟨List.replicate c_size 0,
        List.replicate (c_size - 1) PariObj.zero,
        List.replicate (c_size - 1) PariObj.zero⟩ := by
  have hall : ∀ i ∈ List.range c_size, c_ranks.getD i 0 = 0 :=
    fun i hi => h i (List.mem_range.mp hi)
  have hpair : init_ranks (malloc_arrays c_size d_matrices matr_lengths)
      c_ranks =
      ({ malloc_arrays c_size d_matrices matr_lengths with
         group_ranks := (List.range c_size).map fun i => c_ranks.getD i 0,
         num_gens := (List.range c_size).map fun i => c_ranks.getD i 0,
         first_group := -1, last_group := -1 }, false) := by
    rw [init_ranks]
    dsimp only
    rw [show (malloc_arrays c_size d_matrices matr_lengths).cplx_size =
      c_size from rfl]
    rw [init_ranks_fold_first _ _ hall, init_ranks_fold_last _ _ hall]
    rfl
  rw [reduce_s_complex_U]
  dsimp only
  rw [hpair]
  dsimp only
  rw [if_pos (by decide : ¬false = true)]
  rw [feed2pari]
  dsimp only
  rw [if_pos (by decide : (-1 : Int) < 0)]
  rfl

end SparreduceU

end ReducerProofs

/-! ## The claims -/

section Claims

/-- A successful `get_m_entry` returns either zero (an absent cell) or the
stored row-view value. -/
theorem get_m_entry_val_cases {m : SMatrix Int} {r c : Nat} {v : Int}
    (h : SP.gget_m_entry ZOps m r c = some v) :
    v = 0 ∨ rowGet m r c = some v := by
  rw [SP.gget_m_entry] at h
  split at h
  · cases h
  dsimp only at h
  split at h
  · cases hge : SP.getEnt (m.rows.getD (r - 1) default).entries c with
    | none =>
      left
      injection h with h
      rw [← h, SP.get_v_entry, hge]
      rfl
    | some w =>
      right
      injection h with h
      rw [← h, SP.get_v_entry, hge, rowGet, hge]
      rfl
  · cases h

theorem get_m_entry_bounded {m : SMatrix Int} {B : Int} (hB : 0 ≤ B)
    (hb : MatBounded ZOps.vabs B m) {r c : Nat} {v : Int}
    (h : SP.gget_m_entry ZOps m r c = some v) : |v| ≤ B := by
  rcases get_m_entry_val_cases h with h0 | hr
  · rw [h0]
    simpa using hB
  · exact rowGet_bounded_of_matBounded hb hr

theorem colGet_bounded_of_matBounded {V : Type} {ops : VOps V} {m : SMatrix V}
    {B : Int} (hb : MatBounded ops.vabs B m) {r c : Nat} {v : V}
    (h : colGet m r c = some v) : ops.vabs v ≤ B := by
  rw [colGet] at h
  by_cases hk : c - 1 < m.columns.length
  · exact hb.2 _ (getD_mem default hk) _ (getEnt_mem h)
  · rw [List.getD_eq_default _ _ (by omega)] at h
    cases h

/-- C1: in a bilaterally consistent matrix (every row entry mirrored in the
corresponding column with the same value and conversely — the `Mirror`
component of `MatWF`), each successful `add_m_entry`, `remove_m_entry`,
`erase_m_row`, `erase_m_column`, `add_m_rows` or `add_m_cols` yields a
matrix that is again bilaterally consistent, for any value type and entry
bound (so both for the integer matrices of sparmat.c and the group-ring
matrices of sparmat-U.c). -/
theorem C1_bilateral_preserved {V : Type} (ops : VOps V) (entryMax : Int)
    (m : SMatrix V) (hwf : MatWF ops.isZero m) :
    (∀ r c val m', SP.gadd_m_entry ops entryMax m r c val = some m' →
      Mirror m') ∧
    (∀ r c val m', SP.gremove_m_entry ops m r c = some (val, m') →
      Mirror m') ∧
    (∀ r d m', SP.gerase_m_row ops m r d = some m' → Mirror m') ∧
    (∀ c d m', SP.gerase_m_column ops m c d = some m' → Mirror m') ∧
    (∀ r1 r2 sc m' mx, SP.gadd_m_rows ops entryMax m r1 r2 sc =
      some (m', mx) → Mirror m') ∧
    (∀ c1 c2 sc m' mx, SP.gadd_m_cols ops entryMax m c1 c2 sc =
      some (m', mx) → Mirror m') :=
  ⟨fun _ _ _ _ h => (gadd_m_entry_spec h hwf).1.2.2.2.2,
   fun _ _ _ _ h => (gremove_m_entry_spec h hwf).1.2.2.2.2,
   fun _ _ _ h => (gerase_m_row_spec h hwf).1.2.2.2.2,
   fun _ _ _ h => (gerase_m_column_spec h hwf).1.2.2.2.2,
   fun _ _ _ _ _ h => (gadd_m_rows_spec h hwf).1.2.2.2.2,
   fun _ _ _ _ _ h => (gadd_m_cols_spec h hwf).1.2.2.2.2⟩

theorem C1_witness :
    MatWF ZOps.isZero wm1 ∧
    Sparmat.remove_m_entry wm1 1 1 = some (2, wm1z) ∧ Mirror wm1z :=
  ⟨by decide, by decide,
    (C1_bilateral_preserved ZOps ENTRY_MAX wm1 (by decide)).2.1 1 1 2 wm1z
      (by decide)⟩

/-- C2: on a well-formed matrix, a successful `add_m_rows(r1, r2, s)`
leaves a well-formed matrix in which row `r1` holds the entrywise sum
`r1 + s*r2` with zero results absent (the `mergedCell` formula), the
updated `r1` list is strictly index-ascending, every affected column
matches the row view, the returned value is the maximal magnitude among
the produced entries (with every produced entry within `ENTRY_MAX`), and
neither source row was tombstoned; it returns the error (-1, modelled
`none`) whenever either row is tombstoned, and succeeds whenever the
indices are in range, neither row is tombstoned and no merged entry
exceeds `ENTRY_MAX`; `add_m_cols` is the symmetric statement on
columns. -/
theorem C2_add_rows_cols (m : SMatrix Int) (hwf : MatWF ZOps.isZero m) :
    (∀ r1 r2 sc m' mx, Sparmat.add_m_rows m r1 r2 sc = some (m', mx) →
      MatWF ZOps.isZero m' ∧
      (m'.rows.getD (r1 - 1) default).entries.Pairwise
        (fun a b => a.index < b.index) ∧
      (∀ r' c, 1 ≤ r' → 1 ≤ c → rowGet m' r' c =
        if r' = r1 then SP.mergedCell ZOps sc (rowGet m r1 c) (rowGet m r2 c)
        else rowGet m r' c) ∧
      (∀ r' c, 1 ≤ r' → 1 ≤ c → colGet m' r' c =
        if r' = r1 then SP.mergedCell ZOps sc (rowGet m r1 c) (rowGet m r2 c)
        else colGet m r' c) ∧
      (∀ j w, SP.mergedCellRaw ZOps sc (rowGet m r1 j) (rowGet m r2 j) =
        some w → |w| ≤ ENTRY_MAX ∧ |w| ≤ mx) ∧
      0 ≤ mx ∧
      (mx = 0 ∨ ∃ j w, 1 ≤ j ∧
        SP.mergedCellRaw ZOps sc (rowGet m r1 j) (rowGet m r2 j) = some w ∧
        mx = |w|) ∧
      (m.rows.getD (r1 - 1) default).num_entries ≠ -1 ∧
      (m.rows.getD (r2 - 1) default).num_entries ≠ -1) ∧
    (∀ r1 r2 sc, ((m.rows.getD (r1 - 1) default).num_entries = -1 ∨
        (m.rows.getD (r2 - 1) default).num_entries = -1) →
      Sparmat.add_m_rows m r1 r2 sc = none) ∧
    (∀ r1 r2 sc, 1 ≤ r1 → r1 ≤ m.num_rows → 1 ≤ r2 → r2 ≤ m.num_rows →
      1 ≤ m.num_cols →
      (m.rows.getD (r1 - 1) default).num_entries ≠ -1 →
      (m.rows.getD (r2 - 1) default).num_entries ≠ -1 →
      (∀ j w, SP.mergedCellRaw ZOps sc (rowGet m r1 j) (rowGet m r2 j) =
        some w → |w| ≤ ENTRY_MAX) →
      (Sparmat.add_m_rows m r1 r2 sc).isSome) ∧
    (∀ c1 c2 sc m' mx, Sparmat.add_m_cols m c1 c2 sc = some (m', mx) →
      MatWF ZOps.isZero m' ∧
      (∀ r' c, 1 ≤ r' → 1 ≤ c → rowGet m' r' c =
        if c = c1 then SP.mergedCell ZOps sc (colGet m r' c1) (colGet m r' c2)
        else rowGet m r' c) ∧
      (∀ j w, SP.mergedCellRaw ZOps sc (colGet m j c1) (colGet m j c2) =
        some w → |w| ≤ ENTRY_MAX ∧ |w| ≤ mx) ∧
      (m.columns.getD (c1 - 1) default).num_entries ≠ -1 ∧
      (m.columns.getD (c2 - 1) default).num_entries ≠ -1) ∧
    (∀ c1 c2 sc, ((m.columns.getD (c1 - 1) default).num_entries = -1 ∨
        (m.columns.getD (c2 - 1) default).num_entries = -1) →
      Sparmat.add_m_cols m c1 c2 sc = none) := by
  refine ⟨?_, ?_, ?_, ?_, ?_⟩
  · intro r1 r2 sc m' mx h
    obtain ⟨hwf', hnr, hnc, hrowf, hcolf, hbound, hmx0, hmxat, ht1, ht2,
        h11, h12, h21, h22⟩ := gadd_m_rows_spec h hwf
    have hlt : r1 - 1 < m'.rows.length := by
      rw [hwf'.1, hnr]
      omega
    exact ⟨hwf', (hwf'.2.2.1 _ (getD_mem default hlt)).1, hrowf, hcolf,
      fun j w hw => hbound j w hw, hmx0, hmxat, ht1, ht2⟩
  · intro r1 r2 sc hts
    cases h : Sparmat.add_m_rows m r1 r2 sc with
    | none => rfl
    | some p =>
      obtain ⟨m', mx⟩ := p
      obtain ⟨_, _, _, _, _, _, _, _, ht1, ht2, _⟩ := gadd_m_rows_spec h hwf
      rcases hts with h1 | h1
      · exact absurd h1 ht1
      · exact absurd h1 ht2
  · intro r1 r2 sc h1 h2 h3 h4 h5 h6 h7 h8
    exact gadd_m_rows_isSome hwf h1 h2 h3 h4 h5 h6 h7
      (fun j w hw => h8 j w hw)
  · intro c1 c2 sc m' mx h
    obtain ⟨hwf', hnr, hnc, hrowf, hcolf, hbound, hmx0, hmxat, ht1, ht2,
        hc11, hc12, hc21, hc22⟩ := gadd_m_cols_spec h hwf
    exact ⟨hwf', hrowf, fun j w hw => hbound j w hw, ht1, ht2⟩
  · intro c1 c2 sc hts
    cases h : Sparmat.add_m_cols m c1 c2 sc with
    | none => rfl
    | some p =>
      obtain ⟨m', mx⟩ := p
      obtain ⟨_, _, _, _, _, _, _, _, ht1, ht2, _⟩ := gadd_m_cols_spec h hwf
      rcases hts with h1 | h1
      · exact absurd h1 ht1
      · exact absurd h1 ht2

theorem C2_witness :
    MatWF ZOps.isZero wm1 ∧
    Sparmat.add_m_rows wm1 1 1 2 = some (wm1r, 6) ∧
    MatWF ZOps.isZero wm1r := by
  have hev : Sparmat.add_m_rows wm1 1 1 2 = some (wm1r, 6) := by
    simp [Sparmat.add_m_rows, SP.gadd_m_rows, SP.add_m_colrows, SP.addMerge,
      SP.check_m_indices, SP.add_v_entry, SP.removeEnt, SP.addEnt,
      wm1, wm1r, ZOps, ENTRY_MAX]
  exact ⟨by decide, hev,
    ((C2_add_rows_cols wm1 (by decide)).1 1 1 2 wm1r 6 hev).1⟩

/-- C3: In `eliminate_gens`, for every row in which `find_v_unit` locates a
pivot of magnitude 1, the column sweep leaves exactly the pivot entry in the
row and `kill_gen` then empties it: starting from any well-formed reducer
state (with the active group range as maintained by `reduce_s_complex_U`),
the two "generator is not killed cleanly" error branches are unreachable —
`eliminate_gens` never returns `gen_error`, whatever else it does. -/
theorem C3_eliminate_gens_asserts_hold (st : SparreduceU.CState)
    (group : Nat) (ds : Bool)
    (hwf : SparreduceU.CStateWF st) (hfg : 0 ≤ st.first_group)
    (hg1 : 1 ≤ group) (hgl : (group : Int) ≤ st.last_group) :
    SparreduceU.eliminate_gens st group ds ≠
      Except.error SparreduceU.gen_error :=
  SparreduceU.eliminate_gens_no_gen_error hwf hfg hg1 hgl

theorem C3_witness :
    SparreduceU.CStateWF st3w ∧ 0 ≤ st3w.first_group ∧
    (1 : Int) ≤ st3w.last_group ∧
    SparreduceU.eliminate_gens st3w 1 false ≠
      Except.error SparreduceU.gen_error :=
  ⟨by decide, by decide, by decide,
    C3_eliminate_gens_asserts_hold st3w 1 false (by decide) (by decide)
      (by decide) (by decide)⟩

/-- C4: the group-ring multiplication of sparmat-U.c satisfies
`mul((a,b),(c,d)) = (ac + bd, ad + bc)`, each of the four elements of
magnitude 1 — (1,0), (-1,0), (0,1), (0,-1) — squares to the ring identity
(1,0), and indeed every element of magnitude 1 is its own inverse, so every
usable pivot is self-inverse. -/
theorem C4_mult_Uvals_units (a b c d : Int) :
    mult_Uvals (a, b) (c, d) = (a * c + b * d, a * d + b * c) ∧
    (∀ v : UV, Uabs v = 1 → mult_Uvals v v = ((1 : Int), (0 : Int))) ∧
    Uabs ((1 : Int), (0 : Int)) = 1 ∧ Uabs ((-1 : Int), (0 : Int)) = 1 ∧
    Uabs ((0 : Int), (1 : Int)) = 1 ∧ Uabs ((0 : Int), (-1 : Int)) = 1 :=
  ⟨rfl, fun _ hv => mult_Uvals_self_unit hv,
    by decide, by decide, by decide, by decide⟩

theorem C4_witness :
    Uabs ((0 : Int), (1 : Int)) = 1 ∧
    mult_Uvals ((0 : Int), (1 : Int)) ((0 : Int), (1 : Int)) =
      ((1 : Int), (0 : Int)) :=
  ⟨by decide, (C4_mult_Uvals_units 0 1 0 1).2.1 ((0 : Int), (1 : Int))
    (by decide)⟩

/-- C5 (code defect): the overflow guard of `add_m_colrows` tests the
merged value only after it has been computed in 32-bit `int` arithmetic
(the source comment says "need to check for admissible values here !!!"),
so a product that overflows is wrapped before the `> ENTRY_MAX` test sees
it.  On the well-formed, in-bounds matrix `wm5`, `add_m_rows(1, 2, 65536)`
multiplies 65536 by 65536 = 2^32 > `ENTRY_MAX`: the ideal-arithmetic model
of the same guard rejects the call, but under the C `int` semantics the
product wraps to 0 and the call silently succeeds, reporting maximum
magnitude 0 and storing nothing — no fatal error surfaces. -/
theorem C5_overflow_guard_defeated :
    MatWF ZOps.isZero wm5 ∧ MatBounded ZOps.vabs ENTRY_MAX wm5 ∧
    (65536 : Int) * 65536 > ENTRY_MAX ∧ wrap32 (65536 * 65536) = 0 ∧
    Sparmat.add_m_rows wm5 1 2 65536 = none ∧
    add_m_rowsW wm5 1 2 65536 = some (wm5, 0) := by
  refine ⟨by decide, by decide, by decide, by decide, ?_, ?_⟩
  · rw [show Sparmat.add_m_rows wm5 1 2 65536 =
        SP.gadd_m_rows ZOps ENTRY_MAX wm5 1 2 65536 from rfl]
    rw [SP.gadd_m_rows]
    norm_num [SP.check_m_indices, wm5]
    rw [SP.add_m_colrows]
    norm_num [wm5]
    rw [SP.addMerge]
    norm_num [ZOps, ENTRY_MAX]
  · simp [add_m_rowsW, add_m_colrowsW, addMergeW, SP.check_m_indices,
      SP.add_v_entry, SP.removeEnt, wrap32, wm5, ZOps, ENTRY_MAX]

/-- C6: running the reducer on an already fully reduced complex — a
well-materialised state in which no live row of any boundary matrix holds
an entry of magnitude 1 — performs no elimination: `eliminate_gens` returns
0 (state unchanged, `isfound = false`) for every group and pass, and the
whole group loop leaves the state — every matrix entry and every generator
count — unchanged, so the ranks later read from `num_gens` equal the input
ranks. -/
theorem C6_reduce_idempotent (st : SparreduceU.CState)
    (hnur : SparreduceU.NoUnitRows st)
    (hm : ∀ k : Nat, st.first_group ≤ (k : Int) →
      (k : Int) < st.last_group →
      (st.matrices.getD k default).rows ≠ []) :
    (∀ group ds, SparreduceU.eliminate_gens st group ds =
      Except.ok (st, false)) ∧
    (∀ gs, SparreduceU.groupLoop gs st = Except.ok st) :=
  ⟨fun _ _ => SparreduceU.eliminate_gens_noop hnur hm,
   fun _ => SparreduceU.groupLoop_noop hnur hm _⟩

theorem C6_witness :
    SparreduceU.NoUnitRows st6 ∧
    SparreduceU.eliminate_gens st6 1 false = Except.ok (st6, false) ∧
    SparreduceU.groupLoop [1] st6 = Except.ok st6 := by
  have hm : ∀ k : Nat, st6.first_group ≤ (k : Int) →
      (k : Int) < st6.last_group →
      (st6.matrices.getD k default).rows ≠ [] := by
    intro k h1 h2
    have hk : k = 0 := by
      have h2' : (k : Int) < 1 := h2
      omega
    subst hk
    decide
  exact ⟨by decide, (C6_reduce_idempotent st6 (by decide) hm).1 1 false,
    (C6_reduce_idempotent st6 (by decide) hm).2 [1]⟩

/-- C7 (code defect): `check_m_data` passes `n_rows` as the `max_index`
bound to `check_v_data` for the row vectors as well, although row entries
are indexed by column and must be allowed to range up to `n_cols`.  The
matrix `wm7` is well-formed — 1 by 2, bilateral, strictly ascending
in-range indices, no zeros, counts correct — yet the checker reports
corruption (-1), because the row entry at column index 2 exceeds
`n_rows = 1`. -/
theorem C7_checker_rejects_wellformed :
    MatWF ZOps.isZero wm7 ∧ MatBounded ZOps.vabs ENTRY_MAX wm7 ∧
    Sparmat.check_m_data wm7 = -1 := by
  refine ⟨by decide, by decide, by decide⟩

/-- C8: on an input complex whose ranks are all zero, `reduce_s_complex_U`
returns without error the all-zero answer — zero ranks and the `gen_0`
placeholder in every matrix slot — and performs no elimination work (the
group loops are never entered: `init_ranks` reports the complex empty and
the function returns straight through `feed2pari`). -/
theorem C8_empty_complex (c_size : Nat) (c_ranks : List Int)
    (d_matrices : List (List Int)) (matr_lengths : List Nat)
    (h : ∀ i, i < c_size → c_ranks.getD i 0 = 0) :
    SparreduceU.reduce_s_complex_U c_size c_ranks d_matrices matr_lengths =
      Except.ok ⟨List.replicate c_size 0,
        List.replicate (c_size - 1) SparreduceU.PariObj.zero,
        List.replicate (c_size - 1) SparreduceU.PariObj.zero⟩ :=
  SparreduceU.reduce_all_zero h

theorem C8_witness :
    (∀ i, i < 2 → ([0, 0] : List Int).getD i 0 = 0) ∧
    SparreduceU.reduce_s_complex_U 2 [0, 0] [] [] =
      Except.ok ⟨List.replicate 2 0,
        List.replicate 1 SparreduceU.PariObj.zero,
        List.replicate 1 SparreduceU.PariObj.zero⟩ := by
  have hz : ∀ i, i < 2 → ([0, 0] : List Int).getD i 0 = 0 := by
    intro i hi
    interval_cases i <;> rfl
  exact ⟨hz, C8_empty_complex 2 [0, 0] [] [] hz⟩

/-- C9: reading a tombstoned cell is not an error.  After
`erase_m_row(r, do_del=1)` on a well-formed matrix, the row is tombstoned
(`num_entries = -1`) with an empty entry list, and for every in-range
column `c` the read `get_m_entry(r, c)` succeeds with value 0 — never the
`ERR_MVAL` error sentinel — because `get_v_entry` performs no tombstone
check; `erase_m_column(c, do_del=1)` behaves symmetrically. -/
theorem C9_tombstoned_reads (m : SMatrix Int) (hwf : MatWF ZOps.isZero m) :
    (∀ r m', Sparmat.erase_m_row m r true = some m' →
      (m'.rows.getD (r - 1) default).num_entries = -1 ∧
      (m'.rows.getD (r - 1) default).entries = [] ∧
      (∀ c, 1 ≤ c → c ≤ m.num_cols →
        Sparmat.get_m_entry m' r c = 0 ∧
        Sparmat.get_m_entry m' r c ≠ ERR_MVAL)) ∧
    (∀ c m', Sparmat.erase_m_column m c true = some m' →
      (m'.columns.getD (c - 1) default).num_entries = -1 ∧
      (m'.columns.getD (c - 1) default).entries = [] ∧
      (∀ r, 1 ≤ r → r ≤ m.num_rows →
        Sparmat.get_m_entry m' r c = 0 ∧
        Sparmat.get_m_entry m' r c ≠ ERR_MVAL)) := by
  constructor
  · intro r m' h
    obtain ⟨hwf', hnr, hnc, hrowf, hcolf, htomb, hciff, hr1, hr2⟩ :=
      gerase_m_row_spec h hwf
    have htomb' : (m'.rows.getD (r - 1) default).num_entries = -1 := htomb
    have hlt : r - 1 < m'.rows.length := by
      rw [hwf'.1, hnr]
      omega
    have hnil : (m'.rows.getD (r - 1) default).entries = [] :=
      (hwf'.2.2.1 _ (getD_mem default hlt)).2.2.1 htomb'
    refine ⟨htomb', hnil, ?_⟩
    intro c hc1 hc2
    have hck : SP.check_m_indices m' r c = true := by
      simp only [SP.check_m_indices, Bool.and_eq_true, decide_eq_true_eq]
      omega
    have hcolget : colGet m' r c = none := by
      rw [hcolf r c hr1 hc1, if_pos rfl]
    have hget : SP.gget_m_entry ZOps m' r c = some 0 := by
      rw [SP.gget_m_entry, if_neg (not_not_intro hck)]
      dsimp only
      have hrow0 : SP.get_v_entry ZOps (m'.rows.getD (r - 1) default) c = 0 := by
        rw [SP.get_v_entry, hnil]
        rfl
      have hcol0 : SP.get_v_entry ZOps (m'.columns.getD (c - 1) default) r = 0 := by
        rw [colGet] at hcolget
        rw [SP.get_v_entry, hcolget]
        rfl
      rw [hrow0, hcol0]
      rfl
    constructor
    · rw [Sparmat.get_m_entry, hget]
    · rw [Sparmat.get_m_entry, hget]
      decide
  · intro c m' h
    obtain ⟨hwf', hnr, hnc, hrowf, hcolf, htomb, hriff, hc1, hc2⟩ :=
      gerase_m_column_spec h hwf
    have htomb' : (m'.columns.getD (c - 1) default).num_entries = -1 := htomb
    have hlt : c - 1 < m'.columns.length := by
      rw [hwf'.2.1, hnc]
      omega
    have hnil : (m'.columns.getD (c - 1) default).entries = [] :=
      (hwf'.2.2.2.1 _ (getD_mem default hlt)).2.2.1 htomb'
    refine ⟨htomb', hnil, ?_⟩
    intro r hr1 hr2
    have hck : SP.check_m_indices m' r c = true := by
      simp only [SP.check_m_indices, Bool.and_eq_true, decide_eq_true_eq]
      omega
    have hrowget : rowGet m' r c = none := by
      rw [hrowf r c hr1 hc1, if_pos rfl]
    have hget : SP.gget_m_entry ZOps m' r c = some 0 := by
      rw [SP.gget_m_entry, if_neg (not_not_intro hck)]
      dsimp only
      have hrow0 : SP.get_v_entry ZOps (m'.rows.getD (r - 1) default) c = 0 := by
        rw [rowGet] at hrowget
        rw [SP.get_v_entry, hrowget]
        rfl
      have hcol0 : SP.get_v_entry ZOps (m'.columns.getD (c - 1) default) r = 0 := by
        rw [SP.get_v_entry, hnil]
        rfl
      rw [hrow0, hcol0]
      rfl
    constructor
    · rw [Sparmat.get_m_entry, hget]
    · rw [Sparmat.get_m_entry, hget]
      decide

theorem C9_witness :
    MatWF ZOps.isZero wm1 ∧
    Sparmat.erase_m_row wm1 1 true = some wm1e ∧
    (wm1e.rows.getD 0 default).num_entries = -1 ∧
    Sparmat.get_m_entry wm1e 1 1 = 0 := by
  have h := (C9_tombstoned_reads wm1 (by decide)).1 1 wm1e (by decide)
  exact ⟨by decide, by decide, h.1, (h.2.2 1 (by decide) (by decide)).1⟩

/-- C10: the error sentinel is unambiguous.  `ENTRY_MAX` (INT_MAX/2) is
strictly below `ERR_MVAL` (INT_MAX); on a well-formed matrix whose stored
values all have magnitude at most `ENTRY_MAX`, `get_m_entry` returns
`ERR_MVAL` exactly on its error paths (never for a legitimately stored or
absent entry), a successful `remove_m_entry` returns a value of magnitude
at most `ENTRY_MAX` and hence distinct from `ERR_MVAL`, and every public
mutating operation preserves the magnitude bound, so the discipline is
self-sustaining. -/
theorem C10_sentinel_unambiguous (m : SMatrix Int)
    (hwf : MatWF ZOps.isZero m) (hb : MatBounded ZOps.vabs ENTRY_MAX m) :
    ENTRY_MAX < ERR_MVAL ∧
    (∀ r c, Sparmat.get_m_entry m r c = ERR_MVAL ↔
      SP.gget_m_entry ZOps m r c = none) ∧
    (∀ r c v m', Sparmat.remove_m_entry m r c = some (v, m') →
      |v| ≤ ENTRY_MAX ∧ v ≠ ERR_MVAL) ∧
    (∀ r c val m', Sparmat.add_m_entry m r c val = some m' →
      MatBounded ZOps.vabs ENTRY_MAX m') ∧
    (∀ r c v m', Sparmat.remove_m_entry m r c = some (v, m') →
      MatBounded ZOps.vabs ENTRY_MAX m') ∧
    (∀ r d m', Sparmat.erase_m_row m r d = some m' →
      MatBounded ZOps.vabs ENTRY_MAX m') ∧
    (∀ c d m', Sparmat.erase_m_column m c d = some m' →
      MatBounded ZOps.vabs ENTRY_MAX m') ∧
    (∀ r1 r2 sc m' mx, Sparmat.add_m_rows m r1 r2 sc = some (m', mx) →
      MatBounded ZOps.vabs ENTRY_MAX m') ∧
    (∀ c1 c2 sc m' mx, Sparmat.add_m_cols m c1 c2 sc = some (m', mx) →
      MatBounded ZOps.vabs ENTRY_MAX m') := by
  have eM : ENTRY_MAX = 1073741823 := rfl
  have eE : ERR_MVAL = 2147483647 := rfl
  refine ⟨by rw [eM, eE]; norm_num, ?_, ?_, ?_, ?_, ?_, ?_, ?_, ?_⟩
  · intro r c
    constructor
    · intro h
      cases hg : SP.gget_m_entry ZOps m r c with
      | none => rfl
      | some v =>
        exfalso
        have hv := get_m_entry_bounded (by rw [eM]; norm_num) hb hg
        have hveq : Sparmat.get_m_entry m r c = v := by
          rw [Sparmat.get_m_entry, hg]
        rw [hveq] at h
        rw [abs_le] at hv
        rw [eM] at hv
        rw [h, eE] at hv
        omega
    · intro h
      rw [Sparmat.get_m_entry, h]
  · intro r c v m' h
    obtain ⟨hwf', hnr, hnc, hrowf, hcolf, hval, hr1, hr2, hc1, hc2⟩ :=
      gremove_m_entry_spec h hwf
    have hvb : |v| ≤ ENTRY_MAX := by
      rw [hval]
      cases hg : rowGet m r c with
      | none => decide
      | some w =>
        have := rowGet_bounded_of_matBounded hb hg
        simpa using this
    refine ⟨hvb, ?_⟩
    rw [abs_le, eM] at hvb
    rw [eE]
    omega
  · intro r c val m' h
    obtain ⟨hwf', hnr, hnc, hrowf, hcolf, hvb, hr1, hr2, hc1, hc2⟩ :=
      gadd_m_entry_spec h hwf
    refine matBounded_of_rowGet hwf' ?_
    intro r' c' v hr' hc' hg
    rw [hrowf r' c' hr' hc'] at hg
    split at hg
    · split at hg
      · cases hg
      · injection hg with hg
        subst hg
        exact hvb
    · exact rowGet_bounded_of_matBounded hb hg
  · intro r c v m' h
    obtain ⟨hwf', hnr, hnc, hrowf, hcolf, hval, hr1, hr2, hc1, hc2⟩ :=
      gremove_m_entry_spec h hwf
    refine matBounded_of_rowGet hwf' ?_
    intro r' c' w hr' hc' hg
    rw [hrowf r' c' hr' hc'] at hg
    split at hg
    · cases hg
    · exact rowGet_bounded_of_matBounded hb hg
  · intro r d m' h
    obtain ⟨hwf', hnr, hnc, hrowf, hcolf, htomb, hciff, hr1, hr2⟩ :=
      gerase_m_row_spec h hwf
    refine matBounded_of_rowGet hwf' ?_
    intro r' c' w hr' hc' hg
    rw [hrowf r' c' hr' hc'] at hg
    split at hg
    · cases hg
    · exact rowGet_bounded_of_matBounded hb hg
  · intro c d m' h
    obtain ⟨hwf', hnr, hnc, hrowf, hcolf, htomb, hriff, hc1, hc2⟩ :=
      gerase_m_column_spec h hwf
    refine matBounded_of_rowGet hwf' ?_
    intro r' c' w hr' hc' hg
    rw [hrowf r' c' hr' hc'] at hg
    split at hg
    · cases hg
    · exact rowGet_bounded_of_matBounded hb hg
  · intro r1 r2 sc m' mx h
    obtain ⟨hwf', hnr, hnc, hrowf, hcolf, hbound, hmx0, hmxat, ht1, ht2,
        h11, h12, h21, h22⟩ := gadd_m_rows_spec h hwf
    refine matBounded_of_rowGet hwf' ?_
    intro r' c' w hr' hc' hg
    rw [hrowf r' c' hr' hc'] at hg
    split at hg
    · cases hraw : SP.mergedCellRaw ZOps sc (rowGet m r1 c') (rowGet m r2 c') with
      | none =>
        have hmc : SP.mergedCell ZOps sc (rowGet m r1 c') (rowGet m r2 c') =
            rowGet m r1 c' := by
          rw [SP.mergedCell, hraw]
        rw [hmc] at hg
        exact rowGet_bounded_of_matBounded hb hg
      | some w0 =>
        have hmc : SP.mergedCell ZOps sc (rowGet m r1 c') (rowGet m r2 c') =
            if ZOps.isZero w0 then none else some w0 := by
          rw [SP.mergedCell, hraw]
        rw [hmc] at hg
        split at hg
        · cases hg
        · injection hg with hg
          rw [← hg]
          exact (hbound c' w0 hraw).1
    · exact rowGet_bounded_of_matBounded hb hg
  · intro c1 c2 sc m' mx h
    obtain ⟨hwf', hnr, hnc, hrowf, hcolf, hbound, hmx0, hmxat, ht1, ht2,
        h11, h12, h21, h22⟩ := gadd_m_cols_spec h hwf
    refine matBounded_of_rowGet hwf' ?_
    intro r' c' w hr' hc' hg
    rw [hrowf r' c' hr' hc'] at hg
    split at hg
    · cases hraw : SP.mergedCellRaw ZOps sc (colGet m r' c1) (colGet m r' c2) with
      | none =>
        have hmc : SP.mergedCell ZOps sc (colGet m r' c1) (colGet m r' c2) =
            colGet m r' c1 := by
          rw [SP.mergedCell, hraw]
        rw [hmc] at hg
        exact colGet_bounded_of_matBounded hb hg
      | some w0 =>
        have hmc : SP.mergedCell ZOps sc (colGet m r' c1) (colGet m r' c2) =
            if ZOps.isZero w0 then none else some w0 := by
          rw [SP.mergedCell, hraw]
        rw [hmc] at hg
        split at hg
        · cases hg
        · injection hg with hg
          rw [← hg]
          exact (hbound r' w0 hraw).1
    · exact rowGet_bounded_of_matBounded hb hg

theorem C10_witness :
    (MatWF ZOps.isZero wm1 ∧ MatBounded ZOps.vabs ENTRY_MAX wm1) ∧
    ENTRY_MAX < ERR_MVAL :=
  ⟨⟨by decide, by decide⟩,
    (C10_sentinel_unambiguous wm1 (by decide) (by decide)).1⟩

end Claims

end KhoHo
